import Mathlib

/-!
# Encrypted key-custody store (`src/wallet/crypter.cpp`)

A shallow embedding of `CCrypter` and `CCryptoKeyStore`.

* Byte buffers (`std::vector<unsigned char>`, `CKeyingMaterial`, `SecureVector`,
  `SecureString`) are lists of naturals; buffer lengths are naturals (the source keeps
  them in `int`, lengths are taken to fit).
* `std::map` is an association list kept in key order, iterated front to back.
* Everything the source calls but does not define (the OpenSSL EVP interface, the hash
  functions, the elliptic-curve and Ed25519 key classes) is a field of `Prims`; the
  functions of the source are parameterised by it.
* Output parameters (`T&`) are passed in and returned next to the `bool` result.
-/

namespace Crypter

abbrev Bytes := List Nat

/-- The identity of a public key (`CKeyID`, a 160-bit hash) as a number. -/
abbrev CKeyID := Nat

def WALLET_CRYPTO_KEY_SIZE : Nat := 32
def WALLET_CRYPTO_SALT_SIZE : Nat := 8
def WALLET_CRYPTO_IV_SIZE : Nat := 16
def AES_BLOCK_SIZE : Nat := 16

/-- Public key of the transaction-signing family (`CPubKey`): its serialised bytes. -/
structure CPubKey where
  vch : Bytes
deriving DecidableEq, Repr

/-- Modelled from the spec: the private half of a `StandardKeyPair` (class `CKey`, declared in
`key.h`): the private scalar bytes read through `begin()`/`end()` and
the compression flag; equality is equality of both. -/
structure CKey where
  vch : Bytes
  fCompressed : Bool
deriving DecidableEq, Repr

/-- Modelled from the spec: an `IdentityKeyPair` (class `CKeyEd25519`, declared in
`dht/ed25519.h`): `seed` is what `GetPrivSeed()` returns (the hex-encoded private seed) and
`publicKey` is what `GetPubKey()` returns. -/
structure CKeyEd25519 where
  seed : Bytes
  publicKey : Bytes
deriving DecidableEq, Repr

/-- What the source takes from outside: OpenSSL, hashing and the key classes. A cipher
context is used once (init, one update, final), so each stage is given as a function of
the key, the IV and the whole input; `none`/`false` is a stage returning `0`. -/
structure Prims where
  /-- `EVP_CIPHER_CTX_new()` returns a context (not `NULL`). -/
  ctxNew : Bool
  encryptInit : Bytes → Bytes → Bool
  /-- `EVP_EncryptUpdate`: the bytes written to the output buffer. -/
  encryptUpdate : Bytes → Bytes → Bytes → Option Bytes
  /-- `EVP_EncryptFinal_ex`: the bytes of the final block. -/
  encryptFinal : Bytes → Bytes → Bytes → Option Bytes
  decryptInit : Bytes → Bytes → Bool
  decryptUpdate : Bytes → Bytes → Bytes → Option Bytes
  decryptFinal : Bytes → Bytes → Bytes → Option Bytes
  /-- `EVP_BytesToKey(aes_256_cbc, sha512, salt, data, count)`: the returned key size and
  the key and IV it derives. -/
  bytesToKey : Bytes → Bytes → Nat → Nat × Bytes × Bytes
  /-- `Hash(begin, end)`: the 256-bit hash, as the bytes of the `uint256`. -/
  Hash : Bytes → Bytes
  /-- `Hash160(begin, end)`: the 160-bit hash. -/
  Hash160 : Bytes → CKeyID
  /-- `CPubKey::IsCompressed()`. -/
  pubIsCompressed : CPubKey → Bool
  /-- `CKey::GetPubKey()`. -/
  keyGetPubKey : CKey → CPubKey
  /-- `CKey::Set(begin, end, fCompressed)`: the key object afterwards. -/
  keySet : Bytes → Bool → CKey
  /-- `CKey::VerifyPubKey(pubkey)`. -/
  keyVerifyPubKey : CKey → CPubKey → Bool
  /-- `CKeyEd25519(const std::vector<unsigned char>& seed)`. -/
  edFromSeed : Bytes → CKeyEd25519

/-! ## Buffers -/

/-- A `memcpy`/primitive write of `data` into `buf` at offset `off`; the buffer keeps its
size. -/
def writeAt (buf : Bytes) (off : Nat) (data : Bytes) : Bytes :=
  (buf.take off ++ data ++ buf.drop (off + data.length)).take buf.length

/-- `std::vector::resize(n)`: truncate, or extend with zero bytes. -/
def resize (buf : Bytes) (n : Nat) : Bytes :=
  buf.take n ++ List.replicate (n - buf.length) 0

/-! ## `CCrypter` -/

structure CCrypter where
  vchKey : Bytes
  vchIV : Bytes
  fKeySet : Bool
deriving DecidableEq, Repr

/-- The constructor of `CCrypter`: no key bound, buffers of the fixed sizes. -/
def CCrypter.new : CCrypter :=
  { vchKey := List.replicate WALLET_CRYPTO_KEY_SIZE 0
    vchIV := List.replicate WALLET_CRYPTO_IV_SIZE 0
    fKeySet := false }

def CCrypter.SetKeyFromPassphrase (env : Prims) (c : CCrypter) (strKeyData : Bytes)
    (chSalt : Bytes) (nRounds : Nat) (nDerivationMethod : Nat) : Bool × CCrypter :=
  if nRounds < 1 ∨ chSalt.length ≠ WALLET_CRYPTO_SALT_SIZE then (false, c)
  else
    let r : Nat × CCrypter :=
      if nDerivationMethod = 0 then
        let d := env.bytesToKey chSalt strKeyData nRounds
        (d.1, { c with vchKey := writeAt c.vchKey 0 d.2.1, vchIV := writeAt c.vchIV 0 d.2.2 })
      else (0, c)
    if r.1 ≠ WALLET_CRYPTO_KEY_SIZE then
      (false, { r.2 with vchKey := List.replicate r.2.vchKey.length 0,
                         vchIV := List.replicate r.2.vchIV.length 0 })
    else (true, { r.2 with fKeySet := true })

def CCrypter.SetKey (c : CCrypter) (chNewKey : Bytes) (chNewIV : Bytes) : Bool × CCrypter :=
  if chNewKey.length ≠ WALLET_CRYPTO_KEY_SIZE ∨ chNewIV.length ≠ WALLET_CRYPTO_IV_SIZE then
    (false, c)
  else
    (true, { vchKey := writeAt c.vchKey 0 chNewKey
             vchIV := writeAt c.vchIV 0 chNewIV
             fKeySet := true })

/-- `CCrypter::Encrypt`; the second argument is the caller's output buffer, returned as it
is left by the call. -/
def CCrypter.Encrypt (env : Prims) (c : CCrypter) (vchPlaintext : Bytes)
    (vchCiphertext : Bytes) : Bool × Bytes :=
  if !c.fKeySet then (false, vchCiphertext)
  else
    let nLen := vchPlaintext.length
    let buf := List.replicate (nLen + AES_BLOCK_SIZE) 0
    if !env.ctxNew then (false, buf)
    else if !env.encryptInit c.vchKey c.vchIV then (false, buf)
    else
      match env.encryptUpdate c.vchKey c.vchIV vchPlaintext with
      | none => (false, buf)
      | some u =>
        let buf1 := writeAt buf 0 u
        let nCLen := u.length
        match env.encryptFinal c.vchKey c.vchIV vchPlaintext with
        | none => (false, buf1)
        | some f => (true, resize (writeAt buf1 nCLen f) (nCLen + f.length))

/-- `CCrypter::Decrypt`; the second argument is the caller's output buffer. -/
def CCrypter.Decrypt (env : Prims) (c : CCrypter) (vchCiphertext : Bytes)
    (vchPlaintext : Bytes) : Bool × Bytes :=
  if !c.fKeySet then (false, vchPlaintext)
  else
    let nLen := vchCiphertext.length
    let buf := List.replicate nLen 0
    if !env.ctxNew then (false, buf)
    else if !env.decryptInit c.vchKey c.vchIV then (false, buf)
    else
      match env.decryptUpdate c.vchKey c.vchIV vchCiphertext with
      | none => (false, buf)
      | some u =>
        let buf1 := writeAt buf 0 u
        let nPLen := u.length
        match env.decryptFinal c.vchKey c.vchIV vchCiphertext with
        | none => (false, buf1)
        | some f => (true, resize (writeAt buf1 nPLen f) (nPLen + f.length))

/-- The 16-byte IV buffer of `EncryptSecret`/`DecryptSecret`: a zeroed vector of
`WALLET_CRYPTO_IV_SIZE` bytes overwritten with the first bytes of the `uint256`. -/
def ivOf (nIV : Bytes) : Bytes :=
  writeAt (List.replicate WALLET_CRYPTO_IV_SIZE 0) 0 (nIV.take WALLET_CRYPTO_IV_SIZE)

def EncryptSecret (env : Prims) (vMasterKey : Bytes) (vchPlaintext : Bytes) (nIV : Bytes)
    (vchCiphertext : Bytes) : Bool × Bytes :=
  let r := CCrypter.new.SetKey vMasterKey (ivOf nIV)
  if !r.1 then (false, vchCiphertext)
  else r.2.Encrypt env vchPlaintext vchCiphertext

def DecryptSecret (env : Prims) (vMasterKey : Bytes) (vchCiphertext : Bytes) (nIV : Bytes)
    (vchPlaintext : Bytes) : Bool × Bytes :=
  let r := CCrypter.new.SetKey vMasterKey (ivOf nIV)
  if !r.1 then (false, vchPlaintext)
  else r.2.Decrypt env vchCiphertext vchPlaintext

/-! ## Key classes and the HD chain -/

/-- Modelled from the spec: `CPubKey::GetID()`, the `KeyID` of a public key, "fixed-size
hash of public key bytes". -/
def CPubKey.GetID (env : Prims) (p : CPubKey) : CKeyID := env.Hash160 p.vch

/-- Modelled from the spec: `CPubKey::GetHash()`, the hash of the public key that the IV is
taken from. -/
def CPubKey.GetHash (env : Prims) (p : CPubKey) : Bytes := env.Hash p.vch

/-- Modelled from the spec: `CKeyEd25519::GetHash()`, the hash of the key's own public
key ("IV = hash(its own public key)"). -/
def CKeyEd25519.GetHash (env : Prims) (k : CKeyEd25519) : Bytes := env.Hash k.publicKey

/-- A default-constructed `CKey` local. -/
def CKey.new : CKey := { vch := [], fCompressed := false }

/-- A `CKeyEd25519` local before it is assigned. -/
def CKeyEd25519.new : CKeyEd25519 := { seed := [], publicKey := [] }

/-- Modelled from the spec: the `HDChain` entity (class `CHDChain`, defined in
`hdchain.cpp`): seed bytes, optional mnemonic and passphrase, the self-id and the
crypted flag. -/
structure CHDChain where
  id : Bytes
  fCrypted : Bool
  vchSeed : Bytes
  vchMnemonic : Bytes
  vchMnemonicPassphrase : Bytes
deriving DecidableEq, Repr

/-- Modelled from the spec: the cleared chain left by `CHDChain::SetNull()` and by the
constructor: zero id, not crypted, no seed, no mnemonic. -/
def CHDChain.null : CHDChain :=
  { id := List.replicate 32 0, fCrypted := false, vchSeed := [], vchMnemonic := [],
    vchMnemonicPassphrase := [] }

/-- Modelled from the spec: `CHDChain::IsNull()`: no seed, or a zero id. -/
def CHDChain.IsNull (c : CHDChain) : Bool := c.vchSeed.isEmpty || c.id.all (fun b => b == 0)

/-- Modelled from the spec: `CHDChain::GetSeedHash()`, `hash(seed)`. -/
def CHDChain.GetSeedHash (env : Prims) (c : CHDChain) : Bytes := env.Hash c.vchSeed

/-- Modelled from the spec: `CHDChain::SetSeed(seed, fUpdateID)`. -/
def CHDChain.SetSeed (env : Prims) (c : CHDChain) (vchSeedIn : Bytes) (fUpdateID : Bool) :
    Bool × CHDChain :=
  let c1 := { c with vchSeed := vchSeedIn }
  let c2 := if fUpdateID then { c1 with id := c1.GetSeedHash env } else c1
  (!c2.IsNull, c2)

/-- Modelled from the spec: `CHDChain::GetMnemonic(ret, passphraseRet)`: fails, leaving the
outputs, when no mnemonic is set. -/
def CHDChain.GetMnemonic (c : CHDChain) (vchMnemonicRet vchMnemonicPassphraseRet : Bytes) :
    Bool × Bytes × Bytes :=
  if c.vchMnemonic.isEmpty then (false, vchMnemonicRet, vchMnemonicPassphraseRet)
  else (true, c.vchMnemonic, c.vchMnemonicPassphrase)

/-- Modelled from the spec: `CHDChain::SetMnemonic(mnemonic, passphrase, false)` (the id is
not updated). -/
def CHDChain.SetMnemonic (c : CHDChain) (vchMnemonicIn vchMnemonicPassphraseIn : Bytes) :
    Bool × CHDChain :=
  let c1 := { c with vchMnemonic := vchMnemonicIn,
                     vchMnemonicPassphrase := vchMnemonicPassphraseIn }
  (!c1.IsNull, c1)

/-- Modelled from the spec: `CHDChain::SetNull()`: clears the chain and reports `IsNull()`. -/
def CHDChain.SetNull (_c : CHDChain) : Bool × CHDChain := (CHDChain.null.IsNull, CHDChain.null)

/-! ## `std::map` -/

/-- `map.find(k)`. -/
def mapFind {V : Type} : List (CKeyID × V) → CKeyID → Option V
  | [], _ => none
  | (k1, v) :: rest, k => if k1 = k then some v else mapFind rest k

/-- `map[k] = v` on a map kept in key order. -/
def mapSet {V : Type} : List (CKeyID × V) → CKeyID → V → List (CKeyID × V)
  | [], k, v => [(k, v)]
  | (k1, v1) :: rest, k, v =>
    if k < k1 then (k, v) :: (k1, v1) :: rest
    else if k = k1 then (k1, v) :: rest
    else (k1, v1) :: mapSet rest k v

/-! ## `CCryptoKeyStore` -/

/-- The store: the maps of the plain key store it extends, the encrypted maps, the two HD
chains, the master key and the flags. -/
structure CCryptoKeyStore where
  mapKeys : List (CKeyID × CKey)
  mapDHTKeys : List (CKeyID × CKeyEd25519)
  mapWatchKeys : List (CKeyID × CPubKey)
  hdChain : CHDChain
  mapCryptedKeys : List (CKeyID × (CPubKey × Bytes))
  mapCryptedDHTKeys : List (CKeyID × (Bytes × Bytes))
  cryptedHDChain : CHDChain
  vMasterKey : Bytes
  fUseCrypto : Bool
  fDecryptionThoroughlyChecked : Bool
  fOnlyMixingAllowed : Bool
deriving DecidableEq, Repr

/-- The store as constructed: empty, Plain. -/
def CCryptoKeyStore.new : CCryptoKeyStore :=
  { mapKeys := [], mapDHTKeys := [], mapWatchKeys := [], hdChain := CHDChain.null,
    mapCryptedKeys := [], mapCryptedDHTKeys := [], cryptedHDChain := CHDChain.null,
    vMasterKey := [], fUseCrypto := false, fDecryptionThoroughlyChecked := false,
    fOnlyMixingAllowed := false }

/-- How a call of `Unlock` ends: `return true`, `return false`, or the `assert(false)` of
the corruption branch. -/
inductive UnlockResult where
  | success
  | failure
  | integrityViolation
deriving DecidableEq, Repr

namespace CCryptoKeyStore

/-- Modelled from the spec: `IsCrypted()`, the store is in encrypted bookkeeping mode. -/
def IsCrypted (s : CCryptoKeyStore) : Bool := s.fUseCrypto

/-- Modelled from the spec: `IsLocked(fForMixing)`: an encrypted store is locked when no
master key is resident, and also, for a caller that is not mixing, when it is unlocked for
mixing only. -/
def IsLocked (s : CCryptoKeyStore) (fForMixing : Bool) : Bool :=
  if !s.IsCrypted then false
  else if !fForMixing && s.fOnlyMixingAllowed then true
  else s.vMasterKey.isEmpty

def SetCrypted (s : CCryptoKeyStore) : Bool × CCryptoKeyStore :=
  if s.fUseCrypto then (true, s)
  else if !s.mapKeys.isEmpty then (false, s)
  else (true, { s with fUseCrypto := true })

def Lock (s : CCryptoKeyStore) (fAllowMixing : Bool) : Bool × CCryptoKeyStore :=
  let r := s.SetCrypted
  if !r.1 then (false, r.2)
  else
    let s1 := if !fAllowMixing then { r.2 with vMasterKey := [] } else r.2
    (true, { s1 with fOnlyMixingAllowed := fAllowMixing })

end CCryptoKeyStore

/-- `DecryptKey` for a standard key; the last argument is the caller's `key`. -/
def DecryptKey (env : Prims) (vMasterKey : Bytes) (vchCryptedSecret : Bytes)
    (vchPubKey : CPubKey) (key : CKey) : Bool × CKey :=
  let r := DecryptSecret env vMasterKey vchCryptedSecret (vchPubKey.GetHash env) []
  if !r.1 then (false, key)
  else if r.2.length ≠ 32 then (false, key)
  else
    let key1 := env.keySet r.2 (env.pubIsCompressed vchPubKey)
    (env.keyVerifyPubKey key1 vchPubKey, key1)

/-- `DecryptKey` for an identity (Ed25519) key; the last argument is the caller's `key`. -/
def DecryptKeyEd25519 (env : Prims) (vMasterKey : Bytes) (vchCryptedSecret : Bytes)
    (vchPubKey : Bytes) (key : CKeyEd25519) : Bool × CKeyEd25519 :=
  let r := DecryptSecret env vMasterKey vchCryptedSecret (env.Hash vchPubKey) []
  if !r.1 then (false, key)
  else if r.2.length ≠ 64 then (false, key)
  else
    let key1 := env.edFromSeed r.2
    (decide (key1.publicKey = vchPubKey), key1)

/-- The first loop of `Unlock`, over `mapCryptedKeys` from the iterator on; the pair is
`(keyPass, keyFail)`. -/
def unlockScanKeys (env : Prims) (vMasterKeyIn : Bytes) (fThoroughlyChecked : Bool) :
    List (CKeyID × (CPubKey × Bytes)) → Bool × Bool → Bool × Bool
  | [], st => st
  | (_, (vchPubKey, vchCryptedSecret)) :: rest, (keyPass, keyFail) =>
    if vchCryptedSecret.length > 0 then
      if !(DecryptKey env vMasterKeyIn vchCryptedSecret vchPubKey CKey.new).1 then
        (keyPass, true)
      else if fThoroughlyChecked then (true, keyFail)
      else unlockScanKeys env vMasterKeyIn fThoroughlyChecked rest (true, keyFail)
    else unlockScanKeys env vMasterKeyIn fThoroughlyChecked rest (keyPass, keyFail)

/-- The second loop of `Unlock`, over `mapCryptedDHTKeys`. -/
def unlockScanDHTKeys (env : Prims) (vMasterKeyIn : Bytes) (fThoroughlyChecked : Bool) :
    List (CKeyID × (Bytes × Bytes)) → Bool × Bool → Bool × Bool
  | [], st => st
  | (_, (vchPubKey, vchCryptedSecret)) :: rest, (keyPass, keyFail) =>
    if !(DecryptKeyEd25519 env vMasterKeyIn vchCryptedSecret vchPubKey CKeyEd25519.new).1 then
      (keyPass, true)
    else if fThoroughlyChecked then (true, keyFail)
    else unlockScanDHTKeys env vMasterKeyIn fThoroughlyChecked rest (true, keyFail)

namespace CCryptoKeyStore

/-- The block `if (cryptedHDChain.GetMnemonic(...)) { ... }` of `DecryptHDChain`: decrypts
the mnemonic and its passphrase (each only if non-empty) into `hdChainRet`; `false` is a
`return false` inside the block. -/
def decryptHDChainMnemonic (env : Prims) (s : CCryptoKeyStore) (hdChainRet : CHDChain) :
    Bool × CHDChain :=
  let m := s.cryptedHDChain.GetMnemonic [] []
  if m.1 then
    let d1 : Bool × Bytes :=
      if !m.2.1.isEmpty then DecryptSecret env s.vMasterKey m.2.1 s.cryptedHDChain.id []
      else (true, [])
    if !d1.1 then (false, hdChainRet)
    else
      let d2 : Bool × Bytes :=
        if !m.2.2.isEmpty then DecryptSecret env s.vMasterKey m.2.2 s.cryptedHDChain.id []
        else (true, [])
      if !d2.1 then (false, hdChainRet)
      else hdChainRet.SetMnemonic d1.2 d2.2
  else (true, hdChainRet)

/-- `DecryptHDChain`; the last argument is the caller's `hdChainRet`. -/
def DecryptHDChain (env : Prims) (s : CCryptoKeyStore) (hdChainRet : CHDChain) :
    Bool × CHDChain :=
  if !s.IsCrypted then (true, hdChainRet)
  else if s.cryptedHDChain.IsNull then (false, hdChainRet)
  else if !s.cryptedHDChain.fCrypted then (false, hdChainRet)
  else
    let d := DecryptSecret env s.vMasterKey s.cryptedHDChain.vchSeed s.cryptedHDChain.id []
    if !d.1 then (false, hdChainRet)
    else
      let r1 := s.cryptedHDChain.SetSeed env d.2 false
      if !r1.1 then (false, r1.2)
      else if r1.2.GetSeedHash env ≠ s.cryptedHDChain.id then (false, r1.2)
      else
        let r2 := s.decryptHDChainMnemonic env r1.2
        if !r2.1 then (false, r2.2)
        else (true, { r2.2 with fCrypted := false })

def Unlock (env : Prims) (s : CCryptoKeyStore) (vMasterKeyIn : Bytes) (fForMixingOnly : Bool) :
    UnlockResult × CCryptoKeyStore :=
  let r := s.SetCrypted
  if !r.1 then (.failure, r.2)
  else
    let s1 := r.2
    let st1 := unlockScanKeys env vMasterKeyIn s1.fDecryptionThoroughlyChecked
      s1.mapCryptedKeys (false, false)
    let st2 := unlockScanDHTKeys env vMasterKeyIn s1.fDecryptionThoroughlyChecked
      s1.mapCryptedDHTKeys st1
    let keyPass := st2.1
    let keyFail := st2.2
    if keyPass && keyFail then (.integrityViolation, s1)
    else if keyFail || (!keyPass && s1.cryptedHDChain.IsNull) then (.failure, s1)
    else
      let s2 := { s1 with vMasterKey := vMasterKeyIn }
      let chainOk : Bool :=
        if !s2.cryptedHDChain.IsNull then
          let d := s2.DecryptHDChain env CHDChain.null
          d.1 && decide (s2.cryptedHDChain.id = d.2.GetSeedHash env)
        else true
      if !chainOk then (.failure, { s2 with vMasterKey := [] })
      else
        (.success, { s2 with fDecryptionThoroughlyChecked := true,
                             fOnlyMixingAllowed := fForMixingOnly })

/-- Modelled from the spec: `CBasicKeyStore::AddKeyPubKey`, the plain store's in-memory map
"keyed by key identity": `mapKeys[pubkey.GetID()] = key`. -/
def basicAddKeyPubKey (env : Prims) (s : CCryptoKeyStore) (key : CKey) (pubkey : CPubKey) :
    Bool × CCryptoKeyStore :=
  (true, { s with mapKeys := mapSet s.mapKeys (pubkey.GetID env) key })

/-- Modelled from the spec: `CBasicKeyStore::AddDHTKey`, the plain store's map of identity
keys, keyed by the `KeyID` of the public key bytes. -/
def basicAddDHTKey (env : Prims) (s : CCryptoKeyStore) (key : CKeyEd25519) (pubkey : Bytes) :
    Bool × CCryptoKeyStore :=
  (true, { s with mapDHTKeys := mapSet s.mapDHTKeys (env.Hash160 pubkey) key })

/-- Modelled from the spec: `CBasicKeyStore::GetKey`, a lookup in `mapKeys`. -/
def basicGetKey (s : CCryptoKeyStore) (address : CKeyID) (keyOut : CKey) : Bool × CKey :=
  match mapFind s.mapKeys address with
  | some k => (true, k)
  | none => (false, keyOut)

/-- Modelled from the spec: `CBasicKeyStore::GetDHTKey`, a lookup in `mapDHTKeys`. -/
def basicGetDHTKey (s : CCryptoKeyStore) (address : CKeyID) (keyOut : CKeyEd25519) :
    Bool × CKeyEd25519 :=
  match mapFind s.mapDHTKeys address with
  | some k => (true, k)
  | none => (false, keyOut)

def AddCryptedKey (env : Prims) (s : CCryptoKeyStore) (vchPubKey : CPubKey)
    (vchCryptedSecret : Bytes) : Bool × CCryptoKeyStore :=
  let r := s.SetCrypted
  if !r.1 then (false, r.2)
  else
    let m := mapSet r.2.mapCryptedKeys (vchPubKey.GetID env) (vchPubKey, vchCryptedSecret)
    (true, { r.2 with mapCryptedKeys := m })

def AddCryptedDHTKey (env : Prims) (s : CCryptoKeyStore) (vchPubKey : Bytes)
    (vchCryptedSecret : Bytes) : Bool × CCryptoKeyStore :=
  let r := s.SetCrypted
  if !r.1 then (false, r.2)
  else
    let m := mapSet r.2.mapCryptedDHTKeys (env.Hash160 vchPubKey) (vchPubKey, vchCryptedSecret)
    (true, { r.2 with mapCryptedDHTKeys := m })

def AddKeyPubKey (env : Prims) (s : CCryptoKeyStore) (key : CKey) (pubkey : CPubKey) :
    Bool × CCryptoKeyStore :=
  if !s.IsCrypted then s.basicAddKeyPubKey env key pubkey
  else if s.IsLocked true then (false, s)
  else
    let e := EncryptSecret env s.vMasterKey key.vch (pubkey.GetHash env) []
    if !e.1 then (false, s)
    else s.AddCryptedKey env pubkey e.2

def AddDHTKey (env : Prims) (s : CCryptoKeyStore) (key : CKeyEd25519) (pubkey : Bytes) :
    Bool × CCryptoKeyStore :=
  if !s.IsCrypted then s.basicAddDHTKey env key pubkey
  else if s.IsLocked true then (false, s)
  else
    let e := EncryptSecret env s.vMasterKey key.seed (key.GetHash env) []
    if !e.1 then (false, s)
    else s.AddCryptedDHTKey env key.publicKey e.2

def GetKey (env : Prims) (s : CCryptoKeyStore) (address : CKeyID) (keyOut : CKey) :
    Bool × CKey :=
  if !s.IsCrypted then s.basicGetKey address keyOut
  else
    match mapFind s.mapCryptedKeys address with
    | some (vchPubKey, vchCryptedSecret) =>
      DecryptKey env s.vMasterKey vchCryptedSecret vchPubKey keyOut
    | none => (false, keyOut)

def GetDHTKey (env : Prims) (s : CCryptoKeyStore) (address : CKeyID) (keyOut : CKeyEd25519) :
    Bool × CKeyEd25519 :=
  if !s.IsCrypted then s.basicGetDHTKey address keyOut
  else
    match mapFind s.mapCryptedDHTKeys address with
    | some (vchPubKey, vchCryptedSecret) =>
      DecryptKeyEd25519 env s.vMasterKey vchCryptedSecret vchPubKey keyOut
    | none => (false, keyOut)

/-- Modelled from the spec: `CBasicKeyStore::GetPubKey`: the public key of a retrievable
private key, else the watch-only entry ("public-key-only lookups for watch-only
entries"). `GetKey` is the store's own (virtual) `GetKey`. -/
def basicGetPubKey (env : Prims) (s : CCryptoKeyStore) (address : CKeyID)
    (vchPubKeyOut : CPubKey) : Bool × CPubKey :=
  let r := s.GetKey env address CKey.new
  if !r.1 then
    match mapFind s.mapWatchKeys address with
    | some p => (true, p)
    | none => (false, vchPubKeyOut)
  else (true, env.keyGetPubKey r.2)

def GetPubKey (env : Prims) (s : CCryptoKeyStore) (address : CKeyID) (vchPubKeyOut : CPubKey) :
    Bool × CPubKey :=
  if !s.IsCrypted then s.basicGetPubKey env address vchPubKeyOut
  else
    match mapFind s.mapCryptedKeys address with
    | some (vchPubKey, _) => (true, vchPubKey)
    | none => s.basicGetPubKey env address vchPubKeyOut

/-- The first loop of `EncryptKeys`, over the entries of `mapKeys` still to visit; `false`
is the `return false` inside the loop. -/
def encryptKeysLoop (env : Prims) (vMasterKeyIn : Bytes) :
    List (CKeyID × CKey) → CCryptoKeyStore → Bool × CCryptoKeyStore
  | [], s => (true, s)
  | (_, key) :: rest, s =>
    let vchPubKey := env.keyGetPubKey key
    let e := EncryptSecret env vMasterKeyIn key.vch (vchPubKey.GetHash env) []
    if !e.1 then (false, s)
    else
      let a := s.AddCryptedKey env vchPubKey e.2
      if !a.1 then (false, a.2)
      else encryptKeysLoop env vMasterKeyIn rest a.2

/-- The second loop of `EncryptKeys`, over the entries of `mapDHTKeys` still to visit. -/
def encryptDHTKeysLoop (env : Prims) (vMasterKeyIn : Bytes) :
    List (CKeyID × CKeyEd25519) → CCryptoKeyStore → Bool × CCryptoKeyStore
  | [], s => (true, s)
  | (_, key) :: rest, s =>
    let vchPubKey := key.publicKey
    let e := EncryptSecret env vMasterKeyIn key.seed (key.GetHash env) []
    if !e.1 then (false, s)
    else
      let a := s.AddCryptedDHTKey env vchPubKey e.2
      if !a.1 then (false, a.2)
      else encryptDHTKeysLoop env vMasterKeyIn rest a.2

def EncryptKeys (env : Prims) (s : CCryptoKeyStore) (vMasterKeyIn : Bytes) :
    Bool × CCryptoKeyStore :=
  if !(s.mapCryptedKeys.isEmpty && s.mapCryptedDHTKeys.isEmpty) || s.IsCrypted then (false, s)
  else
    let s1 := { s with fUseCrypto := true }
    let r1 := encryptKeysLoop env vMasterKeyIn s1.mapKeys s1
    if !r1.1 then (false, r1.2)
    else
      let s2 := { r1.2 with mapKeys := [] }
      let r2 := encryptDHTKeysLoop env vMasterKeyIn s2.mapDHTKeys s2
      if !r2.1 then (false, r2.2)
      else (true, { r2.2 with mapDHTKeys := [] })

/-- The block `if (hdChain.GetMnemonic(...)) { ... }` of `EncryptHDChain`: encrypts the
mnemonic and its passphrase (each only if non-empty) into `cryptedHDChain`; `false` is a
`return false` inside the block. -/
def encryptHDChainMnemonic (env : Prims) (s : CCryptoKeyStore) (vMasterKeyIn : Bytes) :
    Bool × CCryptoKeyStore :=
  let m := s.hdChain.GetMnemonic [] []
  if m.1 then
    let e1 : Bool × Bytes :=
      if !m.2.1.isEmpty then EncryptSecret env vMasterKeyIn m.2.1 s.hdChain.id []
      else (true, [])
    if !e1.1 then (false, s)
    else
      let e2 : Bool × Bytes :=
        if !m.2.2.isEmpty then EncryptSecret env vMasterKeyIn m.2.2 s.hdChain.id []
        else (true, [])
      if !e2.1 then (false, s)
      else
        let r := s.cryptedHDChain.SetMnemonic e1.2 e2.2
        (r.1, { s with cryptedHDChain := r.2 })
  else (true, s)

def EncryptHDChain (env : Prims) (s : CCryptoKeyStore) (vMasterKeyIn : Bytes) :
    Bool × CCryptoKeyStore :=
  if !s.IsCrypted then (false, s)
  else if !s.cryptedHDChain.IsNull then (true, s)
  else if s.cryptedHDChain.fCrypted then (true, s)
  else if s.hdChain.id ≠ s.hdChain.GetSeedHash env then (false, s)
  else
    let e := EncryptSecret env vMasterKeyIn s.hdChain.vchSeed s.hdChain.id []
    if !e.1 then (false, s)
    else
      let r1 := ({ s.hdChain with fCrypted := true } : CHDChain).SetSeed env e.2 false
      let s1 := { s with cryptedHDChain := r1.2 }
      if !r1.1 then (false, s1)
      else
        let r2 := s1.encryptHDChainMnemonic env vMasterKeyIn
        if !r2.1 then (false, r2.2)
        else
          let n := r2.2.hdChain.SetNull
          (n.1, { r2.2 with hdChain := n.2 })

def SetHDChain (s : CCryptoKeyStore) (chain : CHDChain) : Bool × CCryptoKeyStore :=
  if s.IsCrypted then (false, s)
  else if chain.fCrypted then (false, s)
  else (true, { s with hdChain := chain })

def SetCryptedHDChain (s : CCryptoKeyStore) (chain : CHDChain) : Bool × CCryptoKeyStore :=
  let r := s.SetCrypted
  if !r.1 then (false, r.2)
  else if !chain.fCrypted then (false, r.2)
  else (true, { r.2 with cryptedHDChain := chain })

def GetHDChain (s : CCryptoKeyStore) (_hdChainRet : CHDChain) : Bool × CHDChain :=
  if s.IsCrypted then (!s.cryptedHDChain.IsNull, s.cryptedHDChain)
  else (!s.hdChain.IsNull, s.hdChain)

end CCryptoKeyStore

/-! ## The store as a transition system -/

/-- A call of one of the store's operations, with its arguments (output parameters
included). -/
inductive Op where
  | SetCrypted
  | Lock (fAllowMixing : Bool)
  | Unlock (vMasterKeyIn : Bytes) (fForMixingOnly : Bool)
  | AddKeyPubKey (key : CKey) (pubkey : CPubKey)
  | AddDHTKey (key : CKeyEd25519) (pubkey : Bytes)
  | AddCryptedKey (vchPubKey : CPubKey) (vchCryptedSecret : Bytes)
  | AddCryptedDHTKey (vchPubKey : Bytes) (vchCryptedSecret : Bytes)
  | GetKey (address : CKeyID) (keyOut : CKey)
  | GetDHTKey (address : CKeyID) (keyOut : CKeyEd25519)
  | GetPubKey (address : CKeyID) (vchPubKeyOut : CPubKey)
  | EncryptKeys (vMasterKeyIn : Bytes)
  | EncryptHDChain (vMasterKeyIn : Bytes)
  | DecryptHDChain (hdChainRet : CHDChain)
  | SetHDChain (chain : CHDChain)
  | SetCryptedHDChain (chain : CHDChain)
  | GetHDChain (hdChainRet : CHDChain)

/-- The store after a call; the `const` member functions leave it as it is. -/
def Op.apply (env : Prims) (s : CCryptoKeyStore) : Op → CCryptoKeyStore
  | .SetCrypted => s.SetCrypted.2
  | .Lock fAllowMixing => (s.Lock fAllowMixing).2
  | .Unlock vMasterKeyIn fForMixingOnly => (s.Unlock env vMasterKeyIn fForMixingOnly).2
  | .AddKeyPubKey key pubkey => (s.AddKeyPubKey env key pubkey).2
  | .AddDHTKey key pubkey => (s.AddDHTKey env key pubkey).2
  | .AddCryptedKey vchPubKey vchCryptedSecret => (s.AddCryptedKey env vchPubKey vchCryptedSecret).2
  | .AddCryptedDHTKey vchPubKey vchCryptedSecret =>
    (s.AddCryptedDHTKey env vchPubKey vchCryptedSecret).2
  | .GetKey _ _ => s
  | .GetDHTKey _ _ => s
  | .GetPubKey _ _ => s
  | .EncryptKeys vMasterKeyIn => (s.EncryptKeys env vMasterKeyIn).2
  | .EncryptHDChain vMasterKeyIn => (s.EncryptHDChain env vMasterKeyIn).2
  | .DecryptHDChain _ => s
  | .SetHDChain chain => (s.SetHDChain chain).2
  | .SetCryptedHDChain chain => (s.SetCryptedHDChain chain).2
  | .GetHDChain _ => s

/-- The store after a sequence of calls. -/
def run (env : Prims) (s : CCryptoKeyStore) : List Op → CCryptoKeyStore
  | [] => s
  | op :: ops => run env (op.apply env s) ops

/-- A state the store can be in: reached from the empty Plain store by calls of its
operations. -/
def Reachable (env : Prims) (s : CCryptoKeyStore) : Prop :=
  ∃ ops : List Op, run env CCryptoKeyStore.new ops = s

/-! ## `CheckSalt` (`src/dht/limits.cpp`) -/

/-- The record type `CAllowDataCode` (declared in `dht/limits.h`), with the fields
`CheckSalt` reads; the table below gives them in the order salt, slots, start, expire. -/
structure CAllowDataCode where
  strSalt : List Char
  nMaximumSlots : Nat
  nStartHeight : Nat
  nExpireTime : Nat
deriving DecidableEq, Repr

/-- The initialiser of `mapAllowedData`, in source order. -/
def allowedDataInit : List (List Char × CAllowDataCode) :=
  [ ("info".toList, ⟨"info".toList, 32, 0, 0⟩),
    ("denylink".toList, ⟨"denylink".toList, 32, 0, 0⟩),
    ("ignore".toList, ⟨"ignore".toList, 32, 0, 0⟩),
    ("index".toList, ⟨"index".toList, 32, 0, 0⟩),
    ("avatar".toList, ⟨"avatar".toList, 4, 0, 0⟩),
    ("ldap".toList, ⟨"ldap".toList, 32, 0, 0⟩),
    ("oauth".toList, ⟨"oauth".toList, 16, 0, 0⟩),
    ("pshare".toList, ⟨"pshare".toList, 48, 0, 0⟩),
    ("pconsult".toList, ⟨"pconsult".toList, 48, 0, 0⟩),
    ("noid".toList, ⟨"noid".toList, 48, 0, 0⟩),
    ("whispers".toList, ⟨"whispers".toList, 48, 0, 0⟩),
    ("spam".toList, ⟨"spam".toList, 64, 0, 0⟩),
    ("groups".toList, ⟨"groups".toList, 48, 0, 0⟩),
    ("chat".toList, ⟨"chat".toList, 32, 0, 0⟩),
    ("message".toList, ⟨"message".toList, 32, 0, 0⟩),
    ("data".toList, ⟨"data".toList, 128, 0, 0⟩),
    ("keys".toList, ⟨"keys".toList, 32, 0, 0⟩),
    ("test".toList, ⟨"test".toList, 8, 0, 0⟩) ]

/-- `std::less<std::string>`: lexicographic order on the characters. -/
def strLess : List Char → List Char → Bool
  | [], [] => false
  | [], _ :: _ => true
  | _ :: _, [] => false
  | a :: as, b :: bs =>
    if a.toNat < b.toNat then true
    else if b.toNat < a.toNat then false
    else strLess as bs

/-- Insertion into a `std::multimap`: after the entries whose key is not greater. -/
def multimapInsert (e : List Char × CAllowDataCode) :
    List (List Char × CAllowDataCode) → List (List Char × CAllowDataCode)
  | [] => [e]
  | x :: xs => if strLess e.1 x.1 then e :: x :: xs else x :: multimapInsert e xs

/-- The multimap `mapAllowedData`, as its sequence of entries in iteration (key) order. -/
def mapAllowedData : List (List Char × CAllowDataCode) :=
  allowedDataInit.foldl (fun m e => multimapInsert e m) []

/-- `mapAllowedData.find(key)` with the increments that follow it: the entries from the
first one with this key to the end of the multimap; none when the key is absent. -/
def multimapFindFrom (key : List Char) :
    List (List Char × CAllowDataCode) → List (List Char × CAllowDataCode)
  | [] => []
  | x :: xs => if x.1 = key then x :: xs else multimapFindFrom key xs

/-- `boost::split(vSplit, str, boost::is_any_of(":"))`: the pieces between the delimiters,
one more than there are delimiters. -/
def splitColon : List Char → List (List Char)
  | [] => [[]]
  | c :: rest =>
    if c = ':' then [] :: splitColon rest
    else
      match splitColon rest with
      | [] => [[c]]
      | piece :: pieces => (c :: piece) :: pieces

/-- The pieces of a string put back together around the delimiter. -/
def joinColon : List (List Char) → List Char
  | [] => []
  | [piece] => piece
  | piece :: next :: pieces => piece ++ ':' :: joinColon (next :: pieces)

/-- The parts `strErrorMessage` is formatted from; the message is the sequence of its
parts, each `strprintf` of the loop appending one part to the message so far. -/
inductive SaltMessage where
  /-- Invalid salt: could not find the delimiter. -/
  | noDelimiter (strSalt : List Char)
  /-- Invalid salt: could not parse slot number after the delimiter. -/
  | slotNotParsed (strSalt : List Char)
  /-- Allow data type found but height is greater than allowed data start height. -/
  | heightGreater (nStartHeight : Nat)
  /-- Allow data type found but expired. -/
  | expired (nExpireTime : Nat)
  /-- Allow data type found but too many slots used. -/
  | tooManySlots (nSlots : Nat) (nMaximumSlots : Nat)
  /-- Invalid salt: allow data type salt not found in allowed data map. -/
  | notAllowed
deriving DecidableEq, Repr

/-- The `while` loop of `CheckSalt` from the iterator on; the second argument is the
message so far. -/
def checkSaltLoop (nSlots nHeight : Nat) :
    List (List Char × CAllowDataCode) → List SaltMessage → Bool × List SaltMessage
  | [], msg => (false, msg ++ [SaltMessage.notAllowed])
  | x :: xs, msg =>
    if nHeight > x.2.nStartHeight then
      checkSaltLoop nSlots nHeight xs (msg ++ [SaltMessage.heightGreater x.2.nStartHeight])
    else if x.2.nExpireTime ≥ nHeight ∧ x.2.nExpireTime ≠ 0 then
      checkSaltLoop nSlots nHeight xs (msg ++ [SaltMessage.expired x.2.nExpireTime])
    else if nSlots ≤ x.2.nMaximumSlots then
      checkSaltLoop nSlots nHeight xs
        (msg ++ [SaltMessage.tooManySlots nSlots x.2.nMaximumSlots])
    else (true, msg)

/-- `CheckSalt`. `ParseUInt32` (declared in `utilstrencodings.h`) is a parameter: `some n`
is a return of `true` with `n` stored, `none` a return of `false`, which leaves the local
`nSlots` with the value `nSlotsInit` it happened to hold. The last argument is the
caller's `strErrorMessage`, which the function first clears. -/
def CheckSalt (ParseUInt32 : List Char → Option Nat) (nSlotsInit : Nat) (strSalt : List Char)
    (nHeight : Nat) (_strErrorMessage : List SaltMessage) : Bool × List SaltMessage :=
  let vSplit := splitColon strSalt
  if vSplit.length ≠ 2 then (false, [SaltMessage.noDelimiter strSalt])
  else
    match ParseUInt32 (vSplit.getD 1 []) with
    | some _ => (false, [SaltMessage.slotNotParsed strSalt])
    | none =>
      checkSaltLoop nSlotsInit nHeight (multimapFindFrom (vSplit.getD 0 []) mapAllowedData) []

/-- A small instance of `ParseUInt32`: a non-empty string of decimal digits whose value
fits in 32 bits. -/
def refParseUInt32 (str : List Char) : Option Nat :=
  if str.isEmpty then none
  else if str.all (fun c => c.isDigit) then
    let n := str.foldl (fun acc c => 10 * acc + (c.toNat - 48)) 0
    if n < 2 ^ 32 then some n else none
  else none

/-! ## Contracts of the primitives, and a small instance -/

/-- The contract of the cipher stages used by the round-trip results: with a 32-byte key
and a 16-byte IV a context is obtained, every encryption stage succeeds and writes no more
than the input length plus one block, and the decryption stages, run on the concatenated
output, succeed, write no more than the ciphertext length and give the input back. -/
def Prims.CipherSound (env : Prims) : Prop :=
  env.ctxNew = true ∧
  ∀ key iv P : Bytes, key.length = WALLET_CRYPTO_KEY_SIZE → iv.length = WALLET_CRYPTO_IV_SIZE →
    env.encryptInit key iv = true ∧ env.decryptInit key iv = true ∧
    ∃ u f : Bytes, env.encryptUpdate key iv P = some u ∧ env.encryptFinal key iv P = some f ∧
      u.length + f.length ≤ P.length + AES_BLOCK_SIZE ∧
      ∃ u1 f1 : Bytes, env.decryptUpdate key iv (u ++ f) = some u1 ∧
        env.decryptFinal key iv (u ++ f) = some f1 ∧
        u1.length + f1.length ≤ (u ++ f).length ∧ u1 ++ f1 = P

/-- The byte shift of the small cipher below. -/
def refMask (key iv : Bytes) : Nat := key.sum + iv.sum

/-- A small instance of the primitives, on which the definitions can be evaluated: a
byte-shift cipher that appends one block of padding and rejects a ciphertext whose last
block is not that padding, list-based hashes, and key objects whose public key is a
function of the private bytes. -/
def refPrims : Prims :=
  { ctxNew := true
    encryptInit := fun _ _ => true
    encryptUpdate := fun key iv P => some (P.map (fun b => b + refMask key iv))
    encryptFinal := fun key iv _ => some (List.replicate 16 (16 + refMask key iv))
    decryptInit := fun _ _ => true
    decryptUpdate := fun key iv C =>
      some ((C.take (C.length - 16)).map (fun b => b - refMask key iv))
    decryptFinal := fun key iv C =>
      if 16 ≤ C.length ∧ C.drop (C.length - 16) = List.replicate 16 (16 + refMask key iv)
      then some [] else none
    bytesToKey := fun salt data count =>
      (32, List.replicate 32 (data.sum + count), List.replicate 16 salt.sum)
    Hash := fun b => (b.sum + 1) :: List.replicate 31 b.length
    Hash160 := fun b => b.sum + 1000 * b.length
    pubIsCompressed := fun p => match p.vch with
      | 2 :: _ => true
      | _ => false
    keyGetPubKey := fun k => { vch := (if k.fCompressed then 2 else 4) :: k.vch }
    keySet := fun b c => { vch := b, fCompressed := c }
    keyVerifyPubKey := fun k p =>
      decide (({ vch := (if k.fCompressed then 2 else 4) :: k.vch } : CPubKey) = p)
    edFromSeed := fun sd => { seed := sd, publicKey := sd.map (fun b => b + 1) } }

/-- The small instance with a context allocation that fails. -/
def refPrimsNoCtx : Prims := { refPrims with ctxNew := false }

/-- The encrypted record `EncryptKeys` files for a standard key: the `KeyID` of the key's
public key, the public key, and the private bytes encrypted under the master key with the
IV taken from the hash of the public key. -/
def cryptedRecord (env : Prims) (vMasterKeyIn : Bytes) (key : CKey) :
    CKeyID × (CPubKey × Bytes) :=
  ((env.keyGetPubKey key).GetID env,
    (env.keyGetPubKey key,
      (EncryptSecret env vMasterKeyIn key.vch ((env.keyGetPubKey key).GetHash env) []).2))

/-- The encrypted record `EncryptKeys` files for an identity key. -/
def cryptedDHTRecord (env : Prims) (vMasterKeyIn : Bytes) (key : CKeyEd25519) :
    CKeyID × (Bytes × Bytes) :=
  (env.Hash160 key.publicKey,
    (key.publicKey, (EncryptSecret env vMasterKeyIn key.seed (key.GetHash env) []).2))

/-- A sequence of `map[k] = v` assignments, in order. -/
def mapSetAll {V : Type} (m : List (CKeyID × V)) (l : List (CKeyID × V)) : List (CKeyID × V) :=
  l.foldl (fun acc r => mapSet acc r.1 r.2) m

/-- The keys of a map are in strictly increasing order (so no key occurs twice). -/
def mapSorted {V : Type} (m : List (CKeyID × V)) : Prop :=
  (m.map Prod.fst).Pairwise (fun a b => a < b)

/-! ## Runs and invariants -/

/-- The calls after which the store is taken to continue in use: every call except an
`EncryptKeys` that returns failure after it has begun to migrate (it has then changed the
store; its caller treats this as fatal). -/
def Op.noPartialMigration (env : Prims) (s : CCryptoKeyStore) : Op → Prop
  | .EncryptKeys vMasterKeyIn =>
    (s.EncryptKeys env vMasterKeyIn).1 = true ∨ (s.EncryptKeys env vMasterKeyIn).2 = s
  | _ => True

/-- A sequence of calls, started on `s`, none of which is a partly completed
`EncryptKeys`. -/
def runNoPartialMigration (env : Prims) (s : CCryptoKeyStore) : List Op → Prop
  | [] => True
  | op :: ops => op.noPartialMigration env s ∧ runNoPartialMigration env (op.apply env s) ops

/-- What holds of a store in Plain mode: no encrypted record, no master key, no crypted HD
chain. -/
def PlainInv (s : CCryptoKeyStore) : Prop :=
  s.fUseCrypto = false →
    s.mapCryptedKeys = [] ∧ s.mapCryptedDHTKeys = [] ∧ s.vMasterKey = [] ∧
    s.cryptedHDChain = CHDChain.null

/-- What the restricted runs maintain: no encrypted record in Plain mode, and no plaintext
standard key in Encrypted mode. -/
def ExclInv (s : CCryptoKeyStore) : Prop :=
  (s.fUseCrypto = false → s.mapCryptedKeys = [] ∧ s.mapCryptedDHTKeys = []) ∧
  (s.fUseCrypto = true → s.mapKeys = [])

/-! ## The checks of `Unlock`, named -/

/-- A standard record decrypts under the key to a private key matching its public key:
the test `DecryptKey(vMasterKeyIn, vchCryptedSecret, vchPubKey, key)` of `Unlock`. -/
def keyVerifies (env : Prims) (vMasterKeyIn : Bytes) (r : CKeyID × (CPubKey × Bytes)) : Bool :=
  (DecryptKey env vMasterKeyIn r.2.2 r.2.1 CKey.new).1

/-- An identity record decrypts under the key to a key matching its public key. -/
def dhtKeyVerifies (env : Prims) (vMasterKeyIn : Bytes) (r : CKeyID × (Bytes × Bytes)) : Bool :=
  (DecryptKeyEd25519 env vMasterKeyIn r.2.2 r.2.1 CKeyEd25519.new).1

/-- The standard records the first loop of `Unlock` calls `DecryptKey` on, in order: it
passes over records with empty ciphertext, and stops after the first failure, or after the
first success when the thoroughly-checked flag is set. -/
def unlockScannedKeys (env : Prims) (vMasterKeyIn : Bytes) (fThoroughlyChecked : Bool) :
    List (CKeyID × (CPubKey × Bytes)) → List (CKeyID × (CPubKey × Bytes))
  | [] => []
  | r :: rest =>
    if r.2.2.length > 0 then
      if !keyVerifies env vMasterKeyIn r then [r]
      else if fThoroughlyChecked then [r]
      else r :: unlockScannedKeys env vMasterKeyIn fThoroughlyChecked rest
    else unlockScannedKeys env vMasterKeyIn fThoroughlyChecked rest

/-- The identity records the second loop of `Unlock` calls `DecryptKey` on, in order. -/
def unlockScannedDHTKeys (env : Prims) (vMasterKeyIn : Bytes) (fThoroughlyChecked : Bool) :
    List (CKeyID × (Bytes × Bytes)) → List (CKeyID × (Bytes × Bytes))
  | [] => []
  | r :: rest =>
    if !dhtKeyVerifies env vMasterKeyIn r then [r]
    else if fThoroughlyChecked then [r]
    else r :: unlockScannedDHTKeys env vMasterKeyIn fThoroughlyChecked rest

namespace CCryptoKeyStore

/-- The outcomes (`true`: decrypted and matched its public key) of the records a call of
`Unlock` scans, standard records first; nothing is scanned when `SetCrypted` refuses. -/
def unlockVerdicts (env : Prims) (s : CCryptoKeyStore) (vMasterKeyIn : Bytes) : List Bool :=
  if s.SetCrypted.1 then
    (unlockScannedKeys env vMasterKeyIn s.SetCrypted.2.fDecryptionThoroughlyChecked
      s.SetCrypted.2.mapCryptedKeys).map (keyVerifies env vMasterKeyIn) ++
    (unlockScannedDHTKeys env vMasterKeyIn s.SetCrypted.2.fDecryptionThoroughlyChecked
      s.SetCrypted.2.mapCryptedDHTKeys).map (dhtKeyVerifies env vMasterKeyIn)
  else []

/-- The pair `(keyPass, keyFail)` after the two loops of `Unlock`. -/
def unlockKeyFlags (env : Prims) (s : CCryptoKeyStore) (vMasterKeyIn : Bytes) : Bool × Bool :=
  unlockScanDHTKeys env vMasterKeyIn s.fDecryptionThoroughlyChecked s.mapCryptedDHTKeys
    (unlockScanKeys env vMasterKeyIn s.fDecryptionThoroughlyChecked s.mapCryptedKeys
      (false, false))

/-- The HD-chain check of `Unlock` (`chainPass`, or no chain to check), made with the
supplied key installed as `vMasterKey`. -/
def unlockChainPass (env : Prims) (s : CCryptoKeyStore) (vMasterKeyIn : Bytes) : Bool :=
  if !s.cryptedHDChain.IsNull then
    (({ s with vMasterKey := vMasterKeyIn } : CCryptoKeyStore).DecryptHDChain env
        CHDChain.null).1 &&
      decide (s.cryptedHDChain.id =
        (({ s with vMasterKey := vMasterKeyIn } : CCryptoKeyStore).DecryptHDChain env
          CHDChain.null).2.GetSeedHash env)
  else true

end CCryptoKeyStore

/-! ## Concrete stores -/

/-- A standard key of the small instance. -/
def refKeyA : CKey := { vch := List.replicate 32 5, fCompressed := true }

/-- A store in Plain mode holding one identity key and no standard key: the empty store
after `AddDHTKey`. -/
def dhtOnlyStore : CCryptoKeyStore :=
  (CCryptoKeyStore.new.AddDHTKey refPrims (refPrims.edFromSeed (List.replicate 64 3))
    (List.replicate 64 4)).2

/-- An identity key of the small instance. -/
def refKeyB : CKeyEd25519 := refPrims.edFromSeed (List.replicate 64 3)

/-- A well-formed master key. -/
def refMasterKey : Bytes := List.replicate 32 9

/-- The calls that add one standard key and then start `EncryptKeys` with a master key of
the wrong size. -/
def opsPartialMigration : List Op :=
  [Op.AddKeyPubKey refKeyA (refPrims.keyGetPubKey refKeyA), Op.EncryptKeys []]

/-- The calls that add one identity key and then call `SetCrypted`. -/
def opsSetCryptedWithDHTKey : List Op :=
  [Op.AddDHTKey refKeyB refKeyB.publicKey, Op.SetCrypted]

/-- The calls that add one key of each family and then migrate with a well-formed master
key. -/
def opsMigrate : List Op :=
  [Op.AddKeyPubKey refKeyA (refPrims.keyGetPubKey refKeyA),
   Op.AddDHTKey refKeyB refKeyB.publicKey, Op.EncryptKeys refMasterKey]

/-- The calls that add one key of each family to the empty store. -/
def opsAddKeys : List Op :=
  [Op.AddKeyPubKey refKeyA (refPrims.keyGetPubKey refKeyA),
   Op.AddDHTKey refKeyB refKeyB.publicKey]

/-- A master key of the right size that is not `refMasterKey`. -/
def refWrongKey : Bytes := List.replicate 32 8

/-- A self-consistent plaintext HD chain of the small instance (`id = hash(seed)`), with a
mnemonic and a passphrase. -/
def refChain : CHDChain :=
  { id := refPrims.Hash (List.replicate 16 7), fCrypted := false,
    vchSeed := List.replicate 16 7, vchMnemonic := [11, 12, 13],
    vchMnemonicPassphrase := [21, 22] }

/-- The calls that migrate one key of each family and then overwrite the identity record
with a tampered ciphertext. -/
def opsTampered : List Op :=
  opsMigrate ++ [Op.AddCryptedDHTKey refKeyB.publicKey [1, 2, 3]]

/-- The calls that set up one standard key and an HD chain, migrate both under
`refMasterKey` and unlock with it. -/
def opsUnlockedWithChain : List Op :=
  [Op.AddKeyPubKey refKeyA (refPrims.keyGetPubKey refKeyA), Op.SetHDChain refChain,
   Op.EncryptKeys refMasterKey, Op.EncryptHDChain refMasterKey,
   Op.Unlock refMasterKey false]

/-- The calls that set up an HD chain and no key, migrate under `refMasterKey` and unlock
with it. -/
def opsChainOnlyUnlocked : List Op :=
  [Op.SetHDChain refChain, Op.EncryptKeys refMasterKey, Op.EncryptHDChain refMasterKey,
   Op.Unlock refMasterKey false]

/-- The calls that file a standard record with empty ciphertext and a well-formed identity
record under `refMasterKey`. -/
def opsEmptyCiphertext : List Op :=
  [Op.AddCryptedKey (refPrims.keyGetPubKey refKeyA) [],
   Op.AddCryptedDHTKey refKeyB.publicKey (cryptedDHTRecord refPrims refMasterKey refKeyB).2.2]

/-- The calls that migrate one key of each family and unlock with the master key. -/
def opsUnlocked : List Op := opsMigrate ++ [Op.Unlock refMasterKey false]

/-- A second standard key of the small instance. -/
def refKeyC : CKey := { vch := List.replicate 32 6, fCompressed := false }

/-- A second identity key of the small instance. -/
def refKeyD : CKeyEd25519 := refPrims.edFromSeed (List.replicate 64 9)

/-- The crypted chain `EncryptHDChain` builds from a plaintext chain: the chain marked
crypted, its seed encrypted with the IV taken from the chain id and, when a mnemonic is
set, the mnemonic and the passphrase each replaced by its encryption if non-empty. -/
def encryptedChain (env : Prims) (vMasterKeyIn : Bytes) (c : CHDChain) : CHDChain :=
  { id := c.id
    fCrypted := true
    vchSeed := (EncryptSecret env vMasterKeyIn c.vchSeed c.id []).2
    vchMnemonic :=
      if c.vchMnemonic.isEmpty then c.vchMnemonic
      else (EncryptSecret env vMasterKeyIn c.vchMnemonic c.id []).2
    vchMnemonicPassphrase :=
      if c.vchMnemonic.isEmpty then c.vchMnemonicPassphrase
      else if c.vchMnemonicPassphrase.isEmpty then []
      else (EncryptSecret env vMasterKeyIn c.vchMnemonicPassphrase c.id []).2 }

/-- The calls that set up an HD chain in a store without keys and migrate it under
`refMasterKey`. -/
def opsChainMigrated : List Op :=
  [Op.SetHDChain refChain, Op.EncryptKeys refMasterKey]

/-- The calls that migrate two standard keys (`refKeyA` is filed before `refKeyC` in map
order) and unlock once, which sets the thoroughly-checked flag, then lock again. -/
def opsTwoKeysChecked : List Op :=
  [Op.AddKeyPubKey refKeyA (refPrims.keyGetPubKey refKeyA),
   Op.AddKeyPubKey refKeyC (refPrims.keyGetPubKey refKeyC),
   Op.EncryptKeys refMasterKey, Op.Unlock refMasterKey false, Op.Lock false]

/-- The same calls, followed by overwriting the later record with a tampered
ciphertext. -/
def opsTwoKeysLaterTampered : List Op :=
  opsTwoKeysChecked ++ [Op.AddCryptedKey (refPrims.keyGetPubKey refKeyC) [1, 2, 3]]

/-- The calls that migrate two standard keys and then overwrite the first record in map
order with a tampered ciphertext. -/
def opsTwoKeysFirstTampered : List Op :=
  [Op.AddKeyPubKey refKeyA (refPrims.keyGetPubKey refKeyA),
   Op.AddKeyPubKey refKeyC (refPrims.keyGetPubKey refKeyC),
   Op.EncryptKeys refMasterKey,
   Op.AddCryptedKey (refPrims.keyGetPubKey refKeyA) [1, 2, 3]]

/-- The call that migrates the empty store. -/
def opsEmptyMigrated : List Op := [Op.EncryptKeys refMasterKey]

/-! ## Buffer lemmas -/

theorem writeAt_of_fits (buf : Bytes) (off : Nat) (data : Bytes)
    (h : off + data.length ≤ buf.length) :
    writeAt buf off data = buf.take off ++ data ++ buf.drop (off + data.length) := by
  unfold writeAt
  apply List.take_of_length_le
  simp only [List.length_append, List.length_take, List.length_drop]
  omega

theorem writeAt_length (buf : Bytes) (off : Nat) (data : Bytes) :
    (writeAt buf off data).length = buf.length := by
  unfold writeAt
  simp only [List.length_take, List.length_append, List.length_drop]
  omega

/-- Two stages writing `u` then `f` into a zeroed working buffer that holds both, followed
by the final `resize`, leave exactly `u ++ f`. -/
theorem resize_two_writes (n : Nat) (u f : Bytes) (h : u.length + f.length ≤ n) :
    resize (writeAt (writeAt (List.replicate n 0) 0 u) u.length f) (u.length + f.length)
      = u ++ f := by
  have h1 : writeAt (List.replicate n 0) 0 u = u ++ List.replicate (n - u.length) 0 := by
    rw [writeAt_of_fits _ _ _ (by simp; omega)]
    simp
  have h2 : writeAt (u ++ List.replicate (n - u.length) 0) u.length f
      = u ++ f ++ List.replicate (n - u.length - f.length) 0 := by
    rw [writeAt_of_fits _ _ _ (by simp; omega)]
    simp [List.take_append_eq_append_take, List.drop_append_eq_append_drop]
  rw [h1, h2]
  unfold resize
  have h3 : (u ++ f ++ List.replicate (n - u.length - f.length) 0).take (u.length + f.length)
      = u ++ f := by
    rw [List.take_append_of_le_length (by simp)]
    apply List.take_of_length_le
    simp
  rw [h3]
  simp

/-! ## `CCrypter`: round trip and failure -/

theorem encrypt_of_stages (env : Prims) (c : CCrypter) (P out u f : Bytes)
    (hk : c.fKeySet = true) (hctx : env.ctxNew = true)
    (hi : env.encryptInit c.vchKey c.vchIV = true)
    (hu : env.encryptUpdate c.vchKey c.vchIV P = some u)
    (hf : env.encryptFinal c.vchKey c.vchIV P = some f)
    (hlen : u.length + f.length ≤ P.length + AES_BLOCK_SIZE) :
    c.Encrypt env P out = (true, u ++ f) := by
  simp only [CCrypter.Encrypt, hk, hctx, hi, hu, hf, Bool.not_true, Bool.false_eq_true,
    if_false]
  rw [resize_two_writes _ _ _ hlen]

theorem decrypt_of_stages (env : Prims) (c : CCrypter) (C out u f : Bytes)
    (hk : c.fKeySet = true) (hctx : env.ctxNew = true)
    (hi : env.decryptInit c.vchKey c.vchIV = true)
    (hu : env.decryptUpdate c.vchKey c.vchIV C = some u)
    (hf : env.decryptFinal c.vchKey c.vchIV C = some f)
    (hlen : u.length + f.length ≤ C.length) :
    c.Decrypt env C out = (true, u ++ f) := by
  simp only [CCrypter.Decrypt, hk, hctx, hi, hu, hf, Bool.not_true, Bool.false_eq_true,
    if_false]
  rw [resize_two_writes _ _ _ hlen]

theorem refPrims_cipherSound : refPrims.CipherSound := by
  refine ⟨rfl, ?_⟩
  intro key iv P _ _
  refine ⟨rfl, rfl, P.map (fun b => b + refMask key iv),
    List.replicate 16 (16 + refMask key iv), rfl, rfl, ?_, ?_⟩
  · simp [AES_BLOCK_SIZE]
  · refine ⟨P, [], ?_, ?_, ?_, ?_⟩
    · simp [refPrims, Function.comp_def]
    · simp [refPrims]
    · simp
    · simp

/-- C1. With cipher stages that meet their contract, `Encrypt` on a cipher holding a bound
32-byte key and 16-byte IV succeeds for every plaintext, and `Decrypt` of the ciphertext on
a cipher bound to the same key and IV succeeds and returns exactly the plaintext (whatever
the output buffers held before). -/
theorem encrypt_decrypt_roundtrip (env : Prims) (hs : env.CipherSound) (c c1 : CCrypter)
    (hk : c.fKeySet = true) (hkl : c.vchKey.length = WALLET_CRYPTO_KEY_SIZE)
    (hil : c.vchIV.length = WALLET_CRYPTO_IV_SIZE)
    (hk1 : c1.fKeySet = true) (hkey : c1.vchKey = c.vchKey) (hiv : c1.vchIV = c.vchIV)
    (P out out1 : Bytes) :
    ∃ C : Bytes, c.Encrypt env P out = (true, C) ∧ c1.Decrypt env C out1 = (true, P) := by
  obtain ⟨hctx, hst⟩ := hs
  obtain ⟨hei, hdi, u, f, hu, hf, hlen, u1, f1, hu1, hf1, hlen1, hP⟩ :=
    hst c.vchKey c.vchIV P hkl hil
  refine ⟨u ++ f, encrypt_of_stages env c P out u f hk hctx hei hu hf hlen, ?_⟩
  rw [← hP]
  exact decrypt_of_stages env c1 (u ++ f) out1 u1 f1 hk1 hctx (by rw [hkey, hiv]; exact hdi)
    (by rw [hkey, hiv]; exact hu1) (by rw [hkey, hiv]; exact hf1) hlen1

theorem encrypt_decrypt_roundtrip_witness :
    ∃ C : Bytes,
      (CCrypter.new.SetKey (List.replicate 32 1) (List.replicate 16 2)).2.Encrypt
        refPrims [10, 20, 30] [7] = (true, C) ∧
      (CCrypter.new.SetKey (List.replicate 32 1) (List.replicate 16 2)).2.Decrypt
        refPrims C [8, 8] = (true, [10, 20, 30]) :=
  encrypt_decrypt_roundtrip refPrims refPrims_cipherSound
    (CCrypter.new.SetKey (List.replicate 32 1) (List.replicate 16 2)).2
    (CCrypter.new.SetKey (List.replicate 32 1) (List.replicate 16 2)).2
    (by decide) (by decide) (by decide) (by decide) rfl rfl [10, 20, 30] [7] [8, 8]

theorem encrypt_unbound (env : Prims) (c : CCrypter) (h : c.fKeySet = false) (P out : Bytes) :
    c.Encrypt env P out = (false, out) := by
  simp [CCrypter.Encrypt, h]

theorem decrypt_unbound (env : Prims) (c : CCrypter) (h : c.fKeySet = false) (C out : Bytes) :
    c.Decrypt env C out = (false, out) := by
  simp [CCrypter.Decrypt, h]

/-- C2. On a cipher with no key bound, `SetKeyFromPassphrase` returns `false` exactly when
`nRounds < 1`, the salt size is not `WALLET_CRYPTO_SALT_SIZE`, or the derivation (not run
for a method other than 0) does not report `WALLET_CRYPTO_KEY_SIZE`; and whenever it
returns `false` the cipher still has no key bound, so `Encrypt` and `Decrypt` of any buffer
then return failure. -/
theorem setKeyFromPassphrase_fails_closed (env : Prims) (c : CCrypter)
    (hc : c.fKeySet = false) (strKeyData chSalt : Bytes) (nRounds nDerivationMethod : Nat) :
    ((c.SetKeyFromPassphrase env strKeyData chSalt nRounds nDerivationMethod).1 = false ↔
      (nRounds < 1 ∨ chSalt.length ≠ WALLET_CRYPTO_SALT_SIZE ∨
        (if nDerivationMethod = 0 then (env.bytesToKey chSalt strKeyData nRounds).1 else 0)
          ≠ WALLET_CRYPTO_KEY_SIZE)) ∧
    ((c.SetKeyFromPassphrase env strKeyData chSalt nRounds nDerivationMethod).1 = false →
      (c.SetKeyFromPassphrase env strKeyData chSalt nRounds nDerivationMethod).2.fKeySet = false ∧
      ∀ buf out : Bytes,
        ((c.SetKeyFromPassphrase env strKeyData chSalt nRounds nDerivationMethod).2.Encrypt
          env buf out).1 = false ∧
        ((c.SetKeyFromPassphrase env strKeyData chSalt nRounds nDerivationMethod).2.Decrypt
          env buf out).1 = false) := by
  have key : (c.SetKeyFromPassphrase env strKeyData chSalt nRounds nDerivationMethod).1 = false →
      (c.SetKeyFromPassphrase env strKeyData chSalt nRounds nDerivationMethod).2.fKeySet
        = false := by
    unfold CCrypter.SetKeyFromPassphrase
    by_cases h1 : nRounds < 1 ∨ chSalt.length ≠ WALLET_CRYPTO_SALT_SIZE
    · rw [if_pos h1]
      intro _; exact hc
    · rw [if_neg h1]
      by_cases h2 : nDerivationMethod = 0
      · by_cases h3 : (env.bytesToKey chSalt strKeyData nRounds).1 = WALLET_CRYPTO_KEY_SIZE
        · simp [h2, h3]
        · simp [h2, h3, hc]
      · simp [h2, hc, WALLET_CRYPTO_KEY_SIZE]
  refine ⟨?_, fun hf => ⟨key hf, fun buf out => ?_⟩⟩
  · unfold CCrypter.SetKeyFromPassphrase
    by_cases h1 : nRounds < 1 ∨ chSalt.length ≠ WALLET_CRYPTO_SALT_SIZE
    · rw [if_pos h1]
      simp only [true_iff]
      rcases h1 with h | h
      · exact Or.inl h
      · exact Or.inr (Or.inl h)
    · rw [if_neg h1]
      push_neg at h1
      by_cases h2 : nDerivationMethod = 0
      · simp only [h2, if_true]
        by_cases h3 : (env.bytesToKey chSalt strKeyData nRounds).1 = WALLET_CRYPTO_KEY_SIZE
        · simp [h3, h1.2]; omega
        · simp [h3]
      · simp [h2, WALLET_CRYPTO_KEY_SIZE]
  · rw [encrypt_unbound env _ (key hf), decrypt_unbound env _ (key hf)]
    exact ⟨rfl, rfl⟩

theorem setKeyFromPassphrase_fails_closed_witness :
    (CCrypter.new.SetKeyFromPassphrase refPrims [1, 2] (List.replicate 8 5) 0 0).2.fKeySet
      = false ∧
    ∀ buf out : Bytes,
      ((CCrypter.new.SetKeyFromPassphrase refPrims [1, 2] (List.replicate 8 5) 0 0).2.Encrypt
        refPrims buf out).1 = false ∧
      ((CCrypter.new.SetKeyFromPassphrase refPrims [1, 2] (List.replicate 8 5) 0 0).2.Decrypt
        refPrims buf out).1 = false :=
  (setKeyFromPassphrase_fails_closed refPrims CCrypter.new rfl [1, 2] (List.replicate 8 5)
    0 0).2 (by decide)

/-- C3, as stated, fails: `Decrypt` with a bound key on a ciphertext whose final block is
rejected returns failure, and the caller's buffer, `[9, 9]` before the call, then holds the
three bytes of the working buffer; `Encrypt` with a failing context allocation returns
failure and leaves the zeroed working buffer in place of the caller's `[7]`. -/
theorem failure_overwrites_output :
    ((CCrypter.new.SetKey (List.replicate 32 1) (List.replicate 16 2)).2.Decrypt
        refPrims [1, 2, 3] [9, 9] = (false, [0, 0, 0])) ∧
    ((CCrypter.new.SetKey (List.replicate 32 1) (List.replicate 16 2)).2.Encrypt
        refPrimsNoCtx [5] [7] = (false, List.replicate 17 0)) := by
  constructor <;> decide

/-- C3, amended. When `Encrypt` or `Decrypt` returns failure, either no key was bound and
the caller's output buffer holds exactly what it held before the call, or a key was bound
and the output buffer has been replaced by the call's working buffer, whose length is the
plaintext length plus `AES_BLOCK_SIZE` for `Encrypt` and the ciphertext length for
`Decrypt`. -/
theorem failure_output_buffer (env : Prims) (c : CCrypter) (input out : Bytes) :
    ((c.Encrypt env input out).1 = false →
      (c.fKeySet = false ∧ (c.Encrypt env input out).2 = out) ∨
      (c.fKeySet = true ∧ (c.Encrypt env input out).2.length = input.length + AES_BLOCK_SIZE)) ∧
    ((c.Decrypt env input out).1 = false →
      (c.fKeySet = false ∧ (c.Decrypt env input out).2 = out) ∨
      (c.fKeySet = true ∧ (c.Decrypt env input out).2.length = input.length)) := by
  constructor
  · intro hfail
    cases hk : c.fKeySet
    · left
      exact ⟨rfl, by rw [encrypt_unbound env c hk]⟩
    · right
      refine ⟨rfl, ?_⟩
      revert hfail
      unfold CCrypter.Encrypt
      simp only [hk, Bool.not_true, Bool.false_eq_true, if_false]
      split
      · simp
      · split
        · simp
        · split
          · simp
          · split
            · simp [writeAt_length]
            · simp
  · intro hfail
    cases hk : c.fKeySet
    · left
      exact ⟨rfl, by rw [decrypt_unbound env c hk]⟩
    · right
      refine ⟨rfl, ?_⟩
      revert hfail
      unfold CCrypter.Decrypt
      simp only [hk, Bool.not_true, Bool.false_eq_true, if_false]
      split
      · simp
      · split
        · simp
        · split
          · simp
          · split
            · simp [writeAt_length]
            · simp

theorem failure_output_buffer_witness :
    ((CCrypter.new.SetKey (List.replicate 32 1) (List.replicate 16 2)).2.fKeySet = false ∧
      ((CCrypter.new.SetKey (List.replicate 32 1) (List.replicate 16 2)).2.Decrypt
        refPrims [1, 2, 3] [9, 9]).2 = [9, 9]) ∨
    ((CCrypter.new.SetKey (List.replicate 32 1) (List.replicate 16 2)).2.fKeySet = true ∧
      ((CCrypter.new.SetKey (List.replicate 32 1) (List.replicate 16 2)).2.Decrypt
        refPrims [1, 2, 3] [9, 9]).2.length = [1, 2, 3].length) :=
  (failure_output_buffer refPrims
    (CCrypter.new.SetKey (List.replicate 32 1) (List.replicate 16 2)).2 [1, 2, 3] [9, 9]).2
    (by decide)

/-! ## The store: mode flag -/

namespace CCryptoKeyStore

theorem SetCrypted_of_crypted (s : CCryptoKeyStore) (h : s.fUseCrypto = true) :
    s.SetCrypted = (true, s) := by
  simp [SetCrypted, h]

theorem SetCrypted_of_keys (s : CCryptoKeyStore) (h : s.fUseCrypto = false)
    (hk : s.mapKeys ≠ []) : s.SetCrypted = (false, s) := by
  simp [SetCrypted, h, hk]

theorem SetCrypted_of_no_keys (s : CCryptoKeyStore) (h : s.fUseCrypto = false)
    (hk : s.mapKeys = []) : s.SetCrypted = (true, { s with fUseCrypto := true }) := by
  simp [SetCrypted, h, hk]

/-- The loop over `mapKeys` of `EncryptKeys`, run on a store already in Encrypted mode,
changes `mapCryptedKeys` only. -/
theorem encryptKeysLoop_frame (env : Prims) (M : Bytes) (l : List (CKeyID × CKey)) :
    ∀ s : CCryptoKeyStore, s.fUseCrypto = true →
      ∃ m, (encryptKeysLoop env M l s).2 = { s with mapCryptedKeys := m } := by
  induction l with
  | nil => intro s _; exact ⟨s.mapCryptedKeys, rfl⟩
  | cons e rest ih =>
    intro s h
    obtain ⟨id, key⟩ := e
    unfold encryptKeysLoop
    simp only [AddCryptedKey, SetCrypted_of_crypted s h, Bool.not_true, Bool.false_eq_true,
      if_false]
    split
    · exact ⟨s.mapCryptedKeys, rfl⟩
    · obtain ⟨m, hm⟩ := ih { s with mapCryptedKeys := (mapSet s.mapCryptedKeys
        (CPubKey.GetID env (env.keyGetPubKey key)) (env.keyGetPubKey key,
          (EncryptSecret env M key.vch (CPubKey.GetHash env (env.keyGetPubKey key)) []).2)) } h
      exact ⟨m, by rw [hm]⟩

/-- The loop over `mapDHTKeys` of `EncryptKeys`, run on a store already in Encrypted mode,
changes `mapCryptedDHTKeys` only. -/
theorem encryptDHTKeysLoop_frame (env : Prims) (M : Bytes) (l : List (CKeyID × CKeyEd25519)) :
    ∀ s : CCryptoKeyStore, s.fUseCrypto = true →
      ∃ m, (encryptDHTKeysLoop env M l s).2 = { s with mapCryptedDHTKeys := m } := by
  induction l with
  | nil => intro s _; exact ⟨s.mapCryptedDHTKeys, rfl⟩
  | cons e rest ih =>
    intro s h
    obtain ⟨id, key⟩ := e
    unfold encryptDHTKeysLoop
    simp only [AddCryptedDHTKey, SetCrypted_of_crypted s h, Bool.not_true, Bool.false_eq_true,
      if_false]
    split
    · exact ⟨s.mapCryptedDHTKeys, rfl⟩
    · obtain ⟨m, hm⟩ := ih { s with mapCryptedDHTKeys := (mapSet s.mapCryptedDHTKeys
        (env.Hash160 key.publicKey) (key.publicKey,
          (EncryptSecret env M key.seed (CKeyEd25519.GetHash env key) []).2)) } h
      exact ⟨m, by rw [hm]⟩

/-- What `EncryptKeys` can leave behind: the store untouched (refused at entry), or the
store switched to Encrypted mode with new encrypted maps and each plaintext map either
kept or emptied. -/
theorem EncryptKeys_state (env : Prims) (s : CCryptoKeyStore) (M : Bytes) :
    (s.EncryptKeys env M).2 = s ∨
    ∃ m1 m2 k d, (s.EncryptKeys env M).2 =
      { s with fUseCrypto := true, mapCryptedKeys := m1, mapCryptedDHTKeys := m2,
               mapKeys := k, mapDHTKeys := d } := by
  unfold EncryptKeys
  split
  · left; rfl
  · right
    obtain ⟨m1, h1⟩ := encryptKeysLoop_frame env M s.mapKeys { s with fUseCrypto := true } rfl
    simp only [h1]
    split
    · exact ⟨m1, s.mapCryptedDHTKeys, s.mapKeys, s.mapDHTKeys, rfl⟩
    · obtain ⟨m2, h2⟩ := encryptDHTKeysLoop_frame env M s.mapDHTKeys
        { s with fUseCrypto := true, mapCryptedKeys := m1, mapKeys := [] } rfl
      simp only [h2]
      split
      · exact ⟨m1, m2, [], s.mapDHTKeys, rfl⟩
      · exact ⟨m1, m2, [], [], rfl⟩

/-- What `Unlock` can leave behind: the store as `SetCrypted` left it, with the master key
and the two flags possibly changed. -/
theorem Unlock_state (env : Prims) (s : CCryptoKeyStore) (K : Bytes) (f : Bool) :
    ∃ mk tc om, (s.Unlock env K f).2 =
      { s.SetCrypted.2 with vMasterKey := mk, fDecryptionThoroughlyChecked := tc,
                            fOnlyMixingAllowed := om } := by
  unfold Unlock
  simp only []
  split_ifs <;> exact ⟨_, _, _, rfl⟩

theorem encryptHDChainMnemonic_state (env : Prims) (s : CCryptoKeyStore) (M : Bytes) :
    ∃ c, (s.encryptHDChainMnemonic env M).2 = { s with cryptedHDChain := c } := by
  unfold encryptHDChainMnemonic
  simp only []
  split_ifs <;> exact ⟨_, rfl⟩

/-- What `EncryptHDChain` can leave behind: only the two chains change. -/
theorem EncryptHDChain_state (env : Prims) (s : CCryptoKeyStore) (M : Bytes) :
    ∃ h c, (s.EncryptHDChain env M).2 = { s with hdChain := h, cryptedHDChain := c } := by
  unfold EncryptHDChain
  simp only []
  split_ifs
  any_goals exact ⟨_, _, rfl⟩
  all_goals
    obtain ⟨c, hc⟩ := encryptHDChainMnemonic_state env
      { s with cryptedHDChain := (CHDChain.SetSeed env { s.hdChain with fCrypted := true }
        (EncryptSecret env M s.hdChain.vchSeed s.hdChain.id []).2 false).2 } M
    rw [hc]
    exact ⟨_, _, rfl⟩

end CCryptoKeyStore

/-- C4, at the failing input: on a Plain store in which an identity key is resident in
`mapDHTKeys` (and `mapKeys` is empty), `SetCrypted` returns success and switches the store
to Encrypted mode with the plaintext identity key still resident. -/
theorem setCrypted_ignores_mapDHTKeys :
    dhtOnlyStore.fUseCrypto = false ∧ dhtOnlyStore.mapDHTKeys ≠ [] ∧
    dhtOnlyStore.SetCrypted.1 = true ∧ dhtOnlyStore.SetCrypted.2.fUseCrypto = true ∧
    dhtOnlyStore.SetCrypted.2.mapDHTKeys = dhtOnlyStore.mapDHTKeys := by
  decide

/-- A call on a store in Encrypted mode leaves it in Encrypted mode. -/
theorem Op.apply_crypted (env : Prims) (s : CCryptoKeyStore) (op : Op)
    (h : s.fUseCrypto = true) : (op.apply env s).fUseCrypto = true := by
  have hsc := CCryptoKeyStore.SetCrypted_of_crypted s h
  cases op with
  | SetCrypted => simp [Op.apply, hsc, h]
  | Lock f =>
    simp only [Op.apply, CCryptoKeyStore.Lock, hsc]
    cases f <;> simp [h]
  | Unlock K f =>
    obtain ⟨mk, tc, om, hu⟩ := CCryptoKeyStore.Unlock_state env s K f
    simp only [Op.apply, hu, hsc, h]
  | AddKeyPubKey key pubkey =>
    simp only [Op.apply, CCryptoKeyStore.AddKeyPubKey, CCryptoKeyStore.IsCrypted, h,
      CCryptoKeyStore.AddCryptedKey, hsc, Bool.not_true, Bool.false_eq_true, if_false]
    split_ifs <;> simp [h]
  | AddDHTKey key pubkey =>
    simp only [Op.apply, CCryptoKeyStore.AddDHTKey, CCryptoKeyStore.IsCrypted, h,
      CCryptoKeyStore.AddCryptedDHTKey, hsc, Bool.not_true, Bool.false_eq_true, if_false]
    split_ifs <;> simp [h]
  | AddCryptedKey p c => simp [Op.apply, CCryptoKeyStore.AddCryptedKey, hsc, h]
  | AddCryptedDHTKey p c => simp [Op.apply, CCryptoKeyStore.AddCryptedDHTKey, hsc, h]
  | GetKey a k => exact h
  | GetDHTKey a k => exact h
  | GetPubKey a k => exact h
  | EncryptKeys M =>
    simp only [Op.apply]
    rcases CCryptoKeyStore.EncryptKeys_state env s M with he | ⟨m1, m2, k, d, he⟩
    · rw [he]; exact h
    · rw [he]
  | EncryptHDChain M =>
    obtain ⟨hd, c, he⟩ := CCryptoKeyStore.EncryptHDChain_state env s M
    simp only [Op.apply, he, h]
  | DecryptHDChain r => exact h
  | SetHDChain c => simp [Op.apply, CCryptoKeyStore.SetHDChain, CCryptoKeyStore.IsCrypted, h]
  | SetCryptedHDChain c =>
    simp only [Op.apply, CCryptoKeyStore.SetCryptedHDChain, hsc]
    split_ifs <;> simp [h]
  | GetHDChain r => exact h

/-- C5. Once `fUseCrypto` is true, every store operation (`SetCrypted`, `Lock`, `Unlock`,
`AddKeyPubKey`, `AddDHTKey`, `AddCryptedKey`, `AddCryptedDHTKey`, `GetKey`, `GetDHTKey`,
`GetPubKey`, `EncryptKeys`, `EncryptHDChain`, `DecryptHDChain`, `SetHDChain`,
`SetCryptedHDChain`, `GetHDChain`), whatever its arguments and result, leaves it true. -/
theorem fUseCrypto_never_reverts (env : Prims) (s : CCryptoKeyStore) (op : Op)
    (h : s.fUseCrypto = true) : (op.apply env s).fUseCrypto = true := by
  cases op with
  | GetKey a k => exact h
  | GetDHTKey a k => exact h
  | GetPubKey a k => exact h
  | DecryptHDChain r => exact h
  | GetHDChain r => exact h
  | SetCrypted => exact Op.apply_crypted env s .SetCrypted h
  | Lock f => exact Op.apply_crypted env s (.Lock f) h
  | Unlock K f => exact Op.apply_crypted env s (.Unlock K f) h
  | AddKeyPubKey key pubkey => exact Op.apply_crypted env s (.AddKeyPubKey key pubkey) h
  | AddDHTKey key pubkey => exact Op.apply_crypted env s (.AddDHTKey key pubkey) h
  | AddCryptedKey pk c => exact Op.apply_crypted env s (.AddCryptedKey pk c) h
  | AddCryptedDHTKey pk c => exact Op.apply_crypted env s (.AddCryptedDHTKey pk c) h
  | EncryptKeys M => exact Op.apply_crypted env s (.EncryptKeys M) h
  | EncryptHDChain M => exact Op.apply_crypted env s (.EncryptHDChain M) h
  | SetHDChain c => exact Op.apply_crypted env s (.SetHDChain c) h
  | SetCryptedHDChain c => exact Op.apply_crypted env s (.SetCryptedHDChain c) h

theorem fUseCrypto_never_reverts_witness :
    ((Op.EncryptKeys []).apply refPrims (CCryptoKeyStore.new.SetCrypted).2).fUseCrypto = true :=
  fUseCrypto_never_reverts refPrims (CCryptoKeyStore.new.SetCrypted).2 (Op.EncryptKeys [])
    (by decide)

/-! ## The store: Plain and Encrypted states -/

namespace CCryptoKeyStore

theorem SetCrypted_cases (s : CCryptoKeyStore) :
    (s.SetCrypted = (true, s) ∧ s.fUseCrypto = true) ∨
    (s.SetCrypted = (false, s) ∧ s.fUseCrypto = false ∧ s.mapKeys ≠ []) ∨
    (s.SetCrypted = (true, { s with fUseCrypto := true }) ∧ s.fUseCrypto = false ∧
      s.mapKeys = []) := by
  cases h : s.fUseCrypto
  · by_cases hk : s.mapKeys = []
    · exact Or.inr (Or.inr ⟨SetCrypted_of_no_keys s h hk, rfl, hk⟩)
    · exact Or.inr (Or.inl ⟨SetCrypted_of_keys s h hk, rfl, hk⟩)
  · exact Or.inl ⟨SetCrypted_of_crypted s h, rfl⟩

theorem Unlock_of_not_crypted (env : Prims) (s : CCryptoKeyStore) (K : Bytes) (f : Bool)
    (h : s.SetCrypted = (false, s)) : s.Unlock env K f = (.failure, s) := by
  simp [Unlock, h]

/-- A successful `EncryptKeys` leaves the store in Encrypted mode with both plaintext maps
empty; apart from the two encrypted maps nothing else changes. -/
theorem EncryptKeys_success_state (env : Prims) (s : CCryptoKeyStore) (M : Bytes)
    (h : (s.EncryptKeys env M).1 = true) :
    ∃ m1 m2, (s.EncryptKeys env M).2 =
      { s with fUseCrypto := true, mapCryptedKeys := m1, mapCryptedDHTKeys := m2,
               mapKeys := [], mapDHTKeys := [] } := by
  revert h
  unfold EncryptKeys
  split
  · simp
  · obtain ⟨m1, h1⟩ := encryptKeysLoop_frame env M s.mapKeys { s with fUseCrypto := true } rfl
    simp only [h1]
    split
    · simp
    · obtain ⟨m2, h2⟩ := encryptDHTKeysLoop_frame env M s.mapDHTKeys
        { s with fUseCrypto := true, mapCryptedKeys := m1, mapKeys := [] } rfl
      simp only [h2]
      split
      · simp
      · intro _
        exact ⟨m1, m2, rfl⟩

/-- `EncryptKeys` on a store that is in Encrypted mode or holds an encrypted record is
refused at entry. -/
theorem EncryptKeys_refused (env : Prims) (s : CCryptoKeyStore) (M : Bytes)
    (h : s.fUseCrypto = true ∨ s.mapCryptedKeys ≠ [] ∨ s.mapCryptedDHTKeys ≠ []) :
    s.EncryptKeys env M = (false, s) := by
  unfold EncryptKeys
  rw [if_pos]
  rcases h with h | h | h
  · simp [IsCrypted, h]
  · simp [h]
  · simp [h]

end CCryptoKeyStore

theorem PlainInv_step (env : Prims) (s : CCryptoKeyStore) (op : Op) (hinv : PlainInv s) :
    PlainInv (op.apply env s) := by
  intro hplain
  have hs : s.fUseCrypto = false := by
    cases h : s.fUseCrypto
    · rfl
    · rw [Op.apply_crypted env s op h] at hplain
      exact absurd hplain (by simp)
  have hi := hinv hs
  have hsc : s.SetCrypted = (false, s) ∨ s.SetCrypted = (true, { s with fUseCrypto := true }) := by
    rcases CCryptoKeyStore.SetCrypted_cases s with h | h | h
    · rw [hs] at h; exact absurd h.2 (by simp)
    · exact Or.inl h.1
    · exact Or.inr h.1
  cases op with
  | SetCrypted =>
    rcases hsc with h | h
    · simpa [Op.apply, h] using hi
    · simp [Op.apply, h] at hplain
  | Lock f =>
    rcases hsc with h | h
    · simpa [Op.apply, CCryptoKeyStore.Lock, h] using hi
    · cases f <;> simp [Op.apply, CCryptoKeyStore.Lock, h] at hplain
  | Unlock K f =>
    rcases hsc with h | h
    · simpa [Op.apply, CCryptoKeyStore.Unlock_of_not_crypted env s K f h] using hi
    · obtain ⟨mk, tc, om, hu⟩ := CCryptoKeyStore.Unlock_state env s K f
      simp [Op.apply, hu, h] at hplain
  | AddKeyPubKey key pubkey =>
    simpa [Op.apply, CCryptoKeyStore.AddKeyPubKey, CCryptoKeyStore.IsCrypted, hs,
      CCryptoKeyStore.basicAddKeyPubKey] using hi
  | AddDHTKey key pubkey =>
    simpa [Op.apply, CCryptoKeyStore.AddDHTKey, CCryptoKeyStore.IsCrypted, hs,
      CCryptoKeyStore.basicAddDHTKey] using hi
  | AddCryptedKey pk c =>
    rcases hsc with h | h
    · simpa [Op.apply, CCryptoKeyStore.AddCryptedKey, h] using hi
    · simp [Op.apply, CCryptoKeyStore.AddCryptedKey, h] at hplain
  | AddCryptedDHTKey pk c =>
    rcases hsc with h | h
    · simpa [Op.apply, CCryptoKeyStore.AddCryptedDHTKey, h] using hi
    · simp [Op.apply, CCryptoKeyStore.AddCryptedDHTKey, h] at hplain
  | GetKey a k => exact hi
  | GetDHTKey a k => exact hi
  | GetPubKey a k => exact hi
  | EncryptKeys M =>
    rcases CCryptoKeyStore.EncryptKeys_state env s M with he | ⟨m1, m2, k, d, he⟩
    · simpa [Op.apply, he] using hi
    · simp [Op.apply, he] at hplain
  | EncryptHDChain M =>
    simpa [Op.apply, CCryptoKeyStore.EncryptHDChain, CCryptoKeyStore.IsCrypted, hs] using hi
  | DecryptHDChain r => exact hi
  | SetHDChain c =>
    simp only [Op.apply, CCryptoKeyStore.SetHDChain, CCryptoKeyStore.IsCrypted, hs]
    split_ifs <;> simpa using hi
  | SetCryptedHDChain c =>
    rcases hsc with h | h
    · simpa [Op.apply, CCryptoKeyStore.SetCryptedHDChain, h] using hi
    · simp only [Op.apply, CCryptoKeyStore.SetCryptedHDChain, h] at hplain
      split_ifs at hplain
  | GetHDChain r => exact hi

theorem PlainInv_run (env : Prims) (ops : List Op) :
    ∀ s : CCryptoKeyStore, PlainInv s → PlainInv (run env s ops) := by
  induction ops with
  | nil => intro s h; exact h
  | cons op ops ih => intro s h; exact ih _ (PlainInv_step env s op h)

/-- Every reachable store in Plain mode holds no encrypted record, no master key and no
crypted HD chain. -/
theorem Reachable.plain (env : Prims) (s : CCryptoKeyStore) (hr : Reachable env s)
    (hp : s.fUseCrypto = false) :
    s.mapCryptedKeys = [] ∧ s.mapCryptedDHTKeys = [] ∧ s.vMasterKey = [] ∧
    s.cryptedHDChain = CHDChain.null := by
  obtain ⟨ops, rfl⟩ := hr
  exact PlainInv_run env ops CCryptoKeyStore.new (fun _ => ⟨rfl, rfl, rfl, rfl⟩) hp

theorem ExclInv_step (env : Prims) (s : CCryptoKeyStore) (op : Op) (hinv : ExclInv s)
    (hop : op.noPartialMigration env s) : ExclInv (op.apply env s) := by
  obtain ⟨hi1, hi2⟩ := hinv
  rcases CCryptoKeyStore.SetCrypted_cases s with ⟨hsc, hs⟩ | ⟨hsc, hs, hk⟩ | ⟨hsc, hs, hk⟩
  · -- Encrypted mode
    have hk := hi2 hs
    refine ⟨fun h => ?_, fun _ => ?_⟩
    · rw [Op.apply_crypted env s op hs] at h
      exact absurd h (by simp)
    · cases op with
      | SetCrypted => simpa [Op.apply, hsc] using hk
      | Lock f => cases f <;> simpa [Op.apply, CCryptoKeyStore.Lock, hsc] using hk
      | Unlock K f =>
        obtain ⟨mk, tc, om, hu⟩ := CCryptoKeyStore.Unlock_state env s K f
        simpa [Op.apply, hu, hsc] using hk
      | AddKeyPubKey key pubkey =>
        simp only [Op.apply, CCryptoKeyStore.AddKeyPubKey, CCryptoKeyStore.IsCrypted, hs,
          CCryptoKeyStore.AddCryptedKey, hsc, Bool.not_true, Bool.false_eq_true, if_false]
        split_ifs <;> simpa using hk
      | AddDHTKey key pubkey =>
        simp only [Op.apply, CCryptoKeyStore.AddDHTKey, CCryptoKeyStore.IsCrypted, hs,
          CCryptoKeyStore.AddCryptedDHTKey, hsc, Bool.not_true, Bool.false_eq_true, if_false]
        split_ifs <;> simpa using hk
      | AddCryptedKey pk c => simpa [Op.apply, CCryptoKeyStore.AddCryptedKey, hsc] using hk
      | AddCryptedDHTKey pk c =>
        simpa [Op.apply, CCryptoKeyStore.AddCryptedDHTKey, hsc] using hk
      | GetKey a k => exact hk
      | GetDHTKey a k => exact hk
      | GetPubKey a k => exact hk
      | EncryptKeys M =>
        simpa [Op.apply, CCryptoKeyStore.EncryptKeys_refused env s M (Or.inl hs)] using hk
      | EncryptHDChain M =>
        obtain ⟨hd, c, he⟩ := CCryptoKeyStore.EncryptHDChain_state env s M
        simpa [Op.apply, he] using hk
      | DecryptHDChain r => exact hk
      | SetHDChain c =>
        simpa [Op.apply, CCryptoKeyStore.SetHDChain, CCryptoKeyStore.IsCrypted, hs] using hk
      | SetCryptedHDChain c =>
        simp only [Op.apply, CCryptoKeyStore.SetCryptedHDChain, hsc]
        split_ifs <;> simpa using hk
      | GetHDChain r => exact hk
  · -- Plain mode, a standard key resident: `SetCrypted` refuses
    have hc := hi1 hs
    cases op with
    | SetCrypted => simpa [Op.apply, hsc] using ⟨hi1, hi2⟩
    | Lock f => simpa [Op.apply, CCryptoKeyStore.Lock, hsc] using ⟨hi1, hi2⟩
    | Unlock K f =>
      simpa [Op.apply, CCryptoKeyStore.Unlock_of_not_crypted env s K f hsc] using ⟨hi1, hi2⟩
    | AddKeyPubKey key pubkey =>
      simp [Op.apply, CCryptoKeyStore.AddKeyPubKey, CCryptoKeyStore.IsCrypted, hs,
        CCryptoKeyStore.basicAddKeyPubKey, ExclInv, hc]
    | AddDHTKey key pubkey =>
      simp [Op.apply, CCryptoKeyStore.AddDHTKey, CCryptoKeyStore.IsCrypted, hs,
        CCryptoKeyStore.basicAddDHTKey, ExclInv, hc]
    | AddCryptedKey pk c => simpa [Op.apply, CCryptoKeyStore.AddCryptedKey, hsc] using ⟨hi1, hi2⟩
    | AddCryptedDHTKey pk c =>
      simpa [Op.apply, CCryptoKeyStore.AddCryptedDHTKey, hsc] using ⟨hi1, hi2⟩
    | GetKey a k => exact ⟨hi1, hi2⟩
    | GetDHTKey a k => exact ⟨hi1, hi2⟩
    | GetPubKey a k => exact ⟨hi1, hi2⟩
    | EncryptKeys M =>
      rcases hop with hok | hsame
      · obtain ⟨m1, m2, he⟩ := CCryptoKeyStore.EncryptKeys_success_state env s M hok
        simp [Op.apply, he, ExclInv]
      · simpa [Op.apply, hsame] using ⟨hi1, hi2⟩
    | EncryptHDChain M =>
      simpa [Op.apply, CCryptoKeyStore.EncryptHDChain, CCryptoKeyStore.IsCrypted, hs]
        using ⟨hi1, hi2⟩
    | DecryptHDChain r => exact ⟨hi1, hi2⟩
    | SetHDChain c =>
      simp only [Op.apply, CCryptoKeyStore.SetHDChain, CCryptoKeyStore.IsCrypted, hs]
      split_ifs <;> simpa [ExclInv, hs] using hc
    | SetCryptedHDChain c =>
      simpa [Op.apply, CCryptoKeyStore.SetCryptedHDChain, hsc] using ⟨hi1, hi2⟩
    | GetHDChain r => exact ⟨hi1, hi2⟩
  · -- Plain mode, no standard key resident: `SetCrypted` switches the mode
    have hc := hi1 hs
    cases op with
    | SetCrypted => simp [Op.apply, hsc, ExclInv, hk]
    | Lock f => cases f <;> simp [Op.apply, CCryptoKeyStore.Lock, hsc, ExclInv, hk]
    | Unlock K f =>
      obtain ⟨mk, tc, om, hu⟩ := CCryptoKeyStore.Unlock_state env s K f
      simp [Op.apply, hu, hsc, ExclInv, hk]
    | AddKeyPubKey key pubkey =>
      simp [Op.apply, CCryptoKeyStore.AddKeyPubKey, CCryptoKeyStore.IsCrypted, hs,
        CCryptoKeyStore.basicAddKeyPubKey, ExclInv, hc]
    | AddDHTKey key pubkey =>
      simp [Op.apply, CCryptoKeyStore.AddDHTKey, CCryptoKeyStore.IsCrypted, hs,
        CCryptoKeyStore.basicAddDHTKey, ExclInv, hc]
    | AddCryptedKey pk c => simp [Op.apply, CCryptoKeyStore.AddCryptedKey, hsc, ExclInv, hk]
    | AddCryptedDHTKey pk c =>
      simp [Op.apply, CCryptoKeyStore.AddCryptedDHTKey, hsc, ExclInv, hk]
    | GetKey a k => exact ⟨hi1, hi2⟩
    | GetDHTKey a k => exact ⟨hi1, hi2⟩
    | GetPubKey a k => exact ⟨hi1, hi2⟩
    | EncryptKeys M =>
      rcases hop with hok | hsame
      · obtain ⟨m1, m2, he⟩ := CCryptoKeyStore.EncryptKeys_success_state env s M hok
        simp [Op.apply, he, ExclInv]
      · simpa [Op.apply, hsame] using ⟨hi1, hi2⟩
    | EncryptHDChain M =>
      simpa [Op.apply, CCryptoKeyStore.EncryptHDChain, CCryptoKeyStore.IsCrypted, hs]
        using ⟨hi1, hi2⟩
    | DecryptHDChain r => exact ⟨hi1, hi2⟩
    | SetHDChain c =>
      simp only [Op.apply, CCryptoKeyStore.SetHDChain, CCryptoKeyStore.IsCrypted, hs]
      split_ifs <;> simpa [ExclInv, hs] using hc
    | SetCryptedHDChain c =>
      simp only [Op.apply, CCryptoKeyStore.SetCryptedHDChain, hsc]
      split_ifs <;> simp [ExclInv, hk]
    | GetHDChain r => exact ⟨hi1, hi2⟩

theorem ExclInv_run (env : Prims) (ops : List Op) :
    ∀ s : CCryptoKeyStore, ExclInv s → runNoPartialMigration env s ops →
      ExclInv (run env s ops) := by
  induction ops with
  | nil => intro s h _; exact h
  | cons op ops ih =>
    intro s h hrun
    exact ih _ (ExclInv_step env s op h hrun.1) hrun.2

/-- C6, as stated, fails: from the empty Plain store, adding a standard key and then
calling `EncryptKeys` with a master key of the wrong size (the call returns failure)
leaves the store in Encrypted mode with the plaintext key still in `mapKeys`; and adding
an identity key and then calling `SetCrypted` leaves it in Encrypted mode with the
plaintext identity key still in `mapDHTKeys`. -/
theorem encrypted_mode_with_plaintext_key :
    ((run refPrims CCryptoKeyStore.new
      [Op.AddKeyPubKey refKeyA (refPrims.keyGetPubKey refKeyA)]).EncryptKeys refPrims []).1
      = false ∧
    (run refPrims CCryptoKeyStore.new opsPartialMigration).fUseCrypto = true ∧
    (run refPrims CCryptoKeyStore.new opsPartialMigration).mapKeys ≠ [] ∧
    (run refPrims CCryptoKeyStore.new opsSetCryptedWithDHTKey).fUseCrypto = true ∧
    (run refPrims CCryptoKeyStore.new opsSetCryptedWithDHTKey).mapDHTKeys ≠ [] := by
  decide

/-- C6, amended. In every state reached from the empty Plain store through a sequence of
the store's operations (calls that return failure included) in which no `EncryptKeys` call
fails after it has begun to migrate, the store is never in Encrypted mode, nor holding an
encrypted record, while a plaintext standard key is resident in `mapKeys`. -/
theorem no_plaintext_standard_key_when_encrypted (env : Prims) (ops : List Op)
    (hops : runNoPartialMigration env CCryptoKeyStore.new ops)
    (henc : (run env CCryptoKeyStore.new ops).fUseCrypto = true ∨
      (run env CCryptoKeyStore.new ops).mapCryptedKeys ≠ [] ∨
      (run env CCryptoKeyStore.new ops).mapCryptedDHTKeys ≠ []) :
    (run env CCryptoKeyStore.new ops).mapKeys = [] := by
  have hinv := ExclInv_run env ops CCryptoKeyStore.new
    ⟨fun _ => ⟨rfl, rfl⟩, fun _ => rfl⟩ hops
  cases hc : (run env CCryptoKeyStore.new ops).fUseCrypto
  · obtain ⟨h1, h2⟩ := hinv.1 hc
    rcases henc with h | h | h
    · rw [hc] at h; exact absurd h (by simp)
    · exact absurd h1 h
    · exact absurd h2 h
  · exact hinv.2 hc

theorem no_plaintext_standard_key_when_encrypted_witness :
    (run refPrims CCryptoKeyStore.new opsMigrate).mapKeys = [] :=
  no_plaintext_standard_key_when_encrypted refPrims opsMigrate
    ⟨trivial, trivial, Or.inl (by decide), trivial⟩ (Or.inl (by decide))

/-! ## `std::map` lemmas -/

theorem mapFind_mapSet {V : Type} (m : List (CKeyID × V)) (k : CKeyID) (v : V) (k1 : CKeyID) :
    mapFind (mapSet m k v) k1 = if k = k1 then some v else mapFind m k1 := by
  induction m with
  | nil => simp [mapSet, mapFind]
  | cons e rest ih =>
    obtain ⟨k0, v0⟩ := e
    unfold mapSet
    by_cases h1 : k < k0
    · simp [h1, mapFind]
    · by_cases h2 : k = k0
      · subst h2
        by_cases h3 : k = k1 <;> simp [mapFind, h3]
      · simp only [h1, h2, if_false, mapFind, ih]
        by_cases h3 : k0 = k1
        · subst h3
          simp [h2]
        · simp [h3]

theorem mem_keys_mapSet {V : Type} (m : List (CKeyID × V)) (k : CKeyID) (v : V) (x : CKeyID) :
    x ∈ (mapSet m k v).map Prod.fst ↔ x = k ∨ x ∈ m.map Prod.fst := by
  induction m with
  | nil => simp [mapSet]
  | cons e rest ih =>
    obtain ⟨k0, v0⟩ := e
    unfold mapSet
    by_cases h1 : k < k0
    · simp [h1]
    · by_cases h2 : k = k0
      · subst h2
        simp
      · simp only [h1, h2, if_false, List.map_cons, List.mem_cons, ih]
        tauto

theorem mapSorted_mapSet {V : Type} (m : List (CKeyID × V)) (k : CKeyID) (v : V)
    (h : mapSorted m) : mapSorted (mapSet m k v) := by
  induction m with
  | nil => simp [mapSet, mapSorted]
  | cons e rest ih =>
    obtain ⟨k0, v0⟩ := e
    unfold mapSorted at h ⊢
    simp only [List.map_cons, List.pairwise_cons] at h
    unfold mapSet
    by_cases h1 : k < k0
    · simp only [h1, if_true, List.map_cons, List.pairwise_cons, List.mem_cons]
      refine ⟨?_, h.1, h.2⟩
      rintro a (rfl | ha)
      · exact h1
      · exact lt_trans h1 (h.1 a ha)
    · by_cases h2 : k = k0
      · subst h2
        simpa using h
      · simp only [h1, h2, if_false, List.map_cons, List.pairwise_cons]
        refine ⟨?_, ih h.2⟩
        intro a ha
        rcases (mem_keys_mapSet rest k v a).1 ha with rfl | ha
        · exact lt_of_le_of_ne (Nat.le_of_not_lt h1) (Ne.symm h2)
        · exact h.1 a ha

theorem mapSorted_mapSetAll {V : Type} (l : List (CKeyID × V)) :
    ∀ m : List (CKeyID × V), mapSorted m → mapSorted (mapSetAll m l) := by
  induction l with
  | nil => intro m h; exact h
  | cons r rest ih => intro m h; exact ih _ (mapSorted_mapSet m r.1 r.2 h)

/-- Looking a key up after a sequence of assignments in which equal keys carry equal
values: the value assigned to that key if there is one, else the earlier content. -/
theorem mapFind_mapSetAll {V : Type} (l : List (CKeyID × V)) :
    ∀ m : List (CKeyID × V),
      (∀ a ∈ l, ∀ b ∈ l, a.1 = b.1 → a.2 = b.2) →
      ∀ (k : CKeyID) (v : V), mapFind (mapSetAll m l) k = some v ↔
        (∃ r ∈ l, r = (k, v)) ∨ ((∀ r ∈ l, r.1 ≠ k) ∧ mapFind m k = some v) := by
  induction l with
  | nil => intro m _ k v; simp [mapSetAll]
  | cons r rest ih =>
    intro m hfun k v
    have hrest : ∀ a ∈ rest, ∀ b ∈ rest, a.1 = b.1 → a.2 = b.2 :=
      fun a ha b hb => hfun a (List.mem_cons_of_mem _ ha) b (List.mem_cons_of_mem _ hb)
    have := ih (mapSet m r.1 r.2) hrest k v
    simp only [mapSetAll, List.foldl_cons] at this ⊢
    rw [this, mapFind_mapSet]
    obtain ⟨rk, rv⟩ := r
    constructor
    · rintro (⟨x, hx, rfl⟩ | ⟨hne, hfind⟩)
      · exact Or.inl ⟨_, List.mem_cons_of_mem _ hx, rfl⟩
      · by_cases hk : rk = k
        · simp only [hk, if_true, Option.some.injEq] at hfind
          subst hk hfind
          exact Or.inl ⟨_, List.mem_cons_self _ _, rfl⟩
        · simp only [hk, if_false] at hfind
          refine Or.inr ⟨?_, hfind⟩
          intro x hx
          rcases List.mem_cons.1 hx with rfl | hx
          · exact hk
          · exact hne x hx
    · rintro (⟨x, hx, rfl⟩ | ⟨hne, hfind⟩)
      · rcases List.mem_cons.1 hx with heq | hx
        · by_cases hex : ∃ y ∈ rest, y.1 = k
          · obtain ⟨y, hy, hyk⟩ := hex
            left
            refine ⟨y, hy, ?_⟩
            have h1 : (rk, rv).1 = y.1 := by
              rw [hyk]; exact (congrArg Prod.fst heq).symm
            have h2 := hfun (rk, rv) (List.mem_cons_self _ _) y (List.mem_cons_of_mem _ hy) h1
            have h3 : v = rv := congrArg Prod.snd heq
            exact Prod.ext hyk (by rw [← h2, h3])
          · right
            push_neg at hex
            refine ⟨hex, ?_⟩
            have h1 : rk = k := (congrArg Prod.fst heq).symm
            have h3 : v = rv := congrArg Prod.snd heq
            simp [h1, h3]
        · exact Or.inl ⟨_, hx, rfl⟩
      · right
        refine ⟨fun x hx => hne x (List.mem_cons_of_mem _ hx), ?_⟩
        have : rk ≠ k := hne (rk, rv) (List.mem_cons_self _ _)
        simp [this, hfind]

/-! ## `EncryptKeys` -/

namespace CCryptoKeyStore

theorem encryptKeysLoop_success (env : Prims) (M : Bytes) (l : List (CKeyID × CKey)) :
    ∀ s : CCryptoKeyStore, s.fUseCrypto = true →
      (∀ e ∈ l, (EncryptSecret env M e.2.vch ((env.keyGetPubKey e.2).GetHash env) []).1 = true) →
      encryptKeysLoop env M l s = (true, { s with mapCryptedKeys :=
        (mapSetAll s.mapCryptedKeys (l.map (fun e => cryptedRecord env M e.2))) }) := by
  induction l with
  | nil => intro s _ _; rfl
  | cons e rest ih =>
    intro s h henc
    obtain ⟨id, key⟩ := e
    have he := henc (id, key) (List.mem_cons_self _ _)
    simp only at he
    unfold encryptKeysLoop
    simp only [AddCryptedKey, SetCrypted_of_crypted s h, he, Bool.not_true, Bool.false_eq_true,
      if_false]
    refine (ih _ ?_ ?_).trans ?_
    · exact h
    · exact fun e1 h1 => henc e1 (List.mem_cons_of_mem _ h1)
    · rfl

theorem encryptDHTKeysLoop_success (env : Prims) (M : Bytes)
    (l : List (CKeyID × CKeyEd25519)) :
    ∀ s : CCryptoKeyStore, s.fUseCrypto = true →
      (∀ e ∈ l, (EncryptSecret env M e.2.seed (e.2.GetHash env) []).1 = true) →
      encryptDHTKeysLoop env M l s = (true, { s with mapCryptedDHTKeys :=
        (mapSetAll s.mapCryptedDHTKeys (l.map (fun e => cryptedDHTRecord env M e.2))) }) := by
  induction l with
  | nil => intro s _ _; rfl
  | cons e rest ih =>
    intro s h henc
    obtain ⟨id, key⟩ := e
    have he := henc (id, key) (List.mem_cons_self _ _)
    simp only at he
    unfold encryptDHTKeysLoop
    simp only [AddCryptedDHTKey, SetCrypted_of_crypted s h, he, Bool.not_true,
      Bool.false_eq_true, if_false]
    refine (ih _ ?_ ?_).trans ?_
    · exact h
    · exact fun e1 h1 => henc e1 (List.mem_cons_of_mem _ h1)
    · rfl

/-- The result of `EncryptKeys` on a Plain store without encrypted records when every
per-key encryption succeeds. -/
theorem EncryptKeys_success (env : Prims) (s : CCryptoKeyStore) (M : Bytes)
    (hp : s.fUseCrypto = false) (hc1 : s.mapCryptedKeys = []) (hc2 : s.mapCryptedDHTKeys = [])
    (hencA : ∀ e ∈ s.mapKeys,
      (EncryptSecret env M e.2.vch ((env.keyGetPubKey e.2).GetHash env) []).1 = true)
    (hencB : ∀ e ∈ s.mapDHTKeys, (EncryptSecret env M e.2.seed (e.2.GetHash env) []).1 = true) :
    s.EncryptKeys env M = (true, { s with
      fUseCrypto := true
      mapKeys := []
      mapDHTKeys := []
      mapCryptedKeys := (mapSetAll [] (s.mapKeys.map (fun e => cryptedRecord env M e.2)))
      mapCryptedDHTKeys :=
        (mapSetAll [] (s.mapDHTKeys.map (fun e => cryptedDHTRecord env M e.2))) }) := by
  unfold EncryptKeys
  simp only [hc1, hc2, IsCrypted, hp, List.isEmpty_nil, Bool.and_self, Bool.not_true,
    Bool.or_self, Bool.false_eq_true, if_false]
  rw [encryptKeysLoop_success env M s.mapKeys _ rfl hencA]
  simp only [Bool.not_true, Bool.false_eq_true, if_false]
  rw [encryptDHTKeysLoop_success env M s.mapDHTKeys _ rfl hencB]
  simp [hc1, hc2]

end CCryptoKeyStore

/-- C7. For every reachable store in Plain mode and every master key `M` for which each
per-key encryption succeeds (distinct resident keys having distinct `KeyID`s),
`EncryptKeys(M)` returns success and afterwards the store is in Encrypted mode with no
resident master key, `mapKeys` and `mapDHTKeys` are empty, and `mapCryptedKeys` and
`mapCryptedDHTKeys` are maps without repeated keys in which a record is found under a
`KeyID` exactly when it is the record of a formerly resident key of that family: that
key's public key with the encrypted private bytes, filed under the `KeyID` of that public
key. -/
theorem EncryptKeys_migrates (env : Prims) (s : CCryptoKeyStore) (M : Bytes)
    (hr : Reachable env s) (hp : s.fUseCrypto = false)
    (hencA : ∀ e ∈ s.mapKeys,
      (EncryptSecret env M e.2.vch ((env.keyGetPubKey e.2).GetHash env) []).1 = true)
    (hencB : ∀ e ∈ s.mapDHTKeys, (EncryptSecret env M e.2.seed (e.2.GetHash env) []).1 = true)
    (hidA : ∀ a ∈ s.mapKeys, ∀ b ∈ s.mapKeys,
      (env.keyGetPubKey a.2).GetID env = (env.keyGetPubKey b.2).GetID env → a.2 = b.2)
    (hidB : ∀ a ∈ s.mapDHTKeys, ∀ b ∈ s.mapDHTKeys,
      env.Hash160 a.2.publicKey = env.Hash160 b.2.publicKey → a.2 = b.2) :
    ∃ s1 : CCryptoKeyStore, s.EncryptKeys env M = (true, s1) ∧
      s1.fUseCrypto = true ∧ s1.vMasterKey = [] ∧ s1.mapKeys = [] ∧ s1.mapDHTKeys = [] ∧
      mapSorted s1.mapCryptedKeys ∧ mapSorted s1.mapCryptedDHTKeys ∧
      (∀ (id : CKeyID) (r : CPubKey × Bytes), mapFind s1.mapCryptedKeys id = some r ↔
        ∃ e ∈ s.mapKeys, cryptedRecord env M e.2 = (id, r)) ∧
      (∀ (id : CKeyID) (r : Bytes × Bytes), mapFind s1.mapCryptedDHTKeys id = some r ↔
        ∃ e ∈ s.mapDHTKeys, cryptedDHTRecord env M e.2 = (id, r)) := by
  obtain ⟨hc1, hc2, hmk, _⟩ := Reachable.plain env s hr hp
  refine ⟨_, CCryptoKeyStore.EncryptKeys_success env s M hp hc1 hc2 hencA hencB, rfl, hmk,
    rfl, rfl, ?_, ?_, ?_, ?_⟩
  · exact mapSorted_mapSetAll _ [] (by simp [mapSorted])
  · exact mapSorted_mapSetAll _ [] (by simp [mapSorted])
  · intro id r
    have hfun : ∀ a ∈ s.mapKeys.map (fun e => cryptedRecord env M e.2),
        ∀ b ∈ s.mapKeys.map (fun e => cryptedRecord env M e.2), a.1 = b.1 → a.2 = b.2 := by
      intro a ha b hb hab
      obtain ⟨x, hx, rfl⟩ := List.mem_map.1 ha
      obtain ⟨y, hy, rfl⟩ := List.mem_map.1 hb
      have := hidA x hx y hy hab
      simp only [cryptedRecord, this]
    have := mapFind_mapSetAll _ [] hfun id r
    simp only [mapFind, and_false, or_false, reduceCtorEq] at this
    rw [this]
    constructor
    · rintro ⟨x, hx, rfl⟩
      obtain ⟨e, he, heq⟩ := List.mem_map.1 hx
      exact ⟨e, he, heq⟩
    · rintro ⟨e, he, heq⟩
      exact ⟨_, List.mem_map.2 ⟨e, he, rfl⟩, heq⟩
  · intro id r
    have hfun : ∀ a ∈ s.mapDHTKeys.map (fun e => cryptedDHTRecord env M e.2),
        ∀ b ∈ s.mapDHTKeys.map (fun e => cryptedDHTRecord env M e.2), a.1 = b.1 → a.2 = b.2 := by
      intro a ha b hb hab
      obtain ⟨x, hx, rfl⟩ := List.mem_map.1 ha
      obtain ⟨y, hy, rfl⟩ := List.mem_map.1 hb
      have := hidB x hx y hy hab
      simp only [cryptedDHTRecord, this]
    have := mapFind_mapSetAll _ [] hfun id r
    simp only [mapFind, and_false, or_false, reduceCtorEq] at this
    rw [this]
    constructor
    · rintro ⟨x, hx, rfl⟩
      obtain ⟨e, he, heq⟩ := List.mem_map.1 hx
      exact ⟨e, he, heq⟩
    · rintro ⟨e, he, heq⟩
      exact ⟨_, List.mem_map.2 ⟨e, he, rfl⟩, heq⟩

theorem EncryptKeys_migrates_witness :
    ∃ s1 : CCryptoKeyStore,
      (run refPrims CCryptoKeyStore.new opsAddKeys).EncryptKeys refPrims refMasterKey
        = (true, s1) ∧
      s1.fUseCrypto = true ∧ s1.vMasterKey = [] ∧ s1.mapKeys = [] ∧ s1.mapDHTKeys = [] ∧
      mapSorted s1.mapCryptedKeys ∧ mapSorted s1.mapCryptedDHTKeys ∧
      (∀ (id : CKeyID) (r : CPubKey × Bytes), mapFind s1.mapCryptedKeys id = some r ↔
        ∃ e ∈ (run refPrims CCryptoKeyStore.new opsAddKeys).mapKeys,
          cryptedRecord refPrims refMasterKey e.2 = (id, r)) ∧
      (∀ (id : CKeyID) (r : Bytes × Bytes), mapFind s1.mapCryptedDHTKeys id = some r ↔
        ∃ e ∈ (run refPrims CCryptoKeyStore.new opsAddKeys).mapDHTKeys,
          cryptedDHTRecord refPrims refMasterKey e.2 = (id, r)) :=
  EncryptKeys_migrates refPrims (run refPrims CCryptoKeyStore.new opsAddKeys) refMasterKey
    ⟨opsAddKeys, rfl⟩ (by decide) (by decide) (by decide) (by decide) (by decide)

/-- C8. `EncryptKeys` is not idempotent: on a store that is the result of a successful
`EncryptKeys`, and on a store that already holds an encrypted record of either family, a
further `EncryptKeys` call with any master key returns failure and leaves the store, in
particular `mapCryptedKeys` and `mapCryptedDHTKeys`, exactly as it was. -/
theorem EncryptKeys_not_idempotent (env : Prims) (t : CCryptoKeyStore) (M1 : Bytes)
    (h : (∃ (s : CCryptoKeyStore) (M : Bytes), s.EncryptKeys env M = (true, t)) ∨
      t.mapCryptedKeys ≠ [] ∨ t.mapCryptedDHTKeys ≠ []) :
    t.EncryptKeys env M1 = (false, t) ∧
    (t.EncryptKeys env M1).2.mapCryptedKeys = t.mapCryptedKeys ∧
    (t.EncryptKeys env M1).2.mapCryptedDHTKeys = t.mapCryptedDHTKeys := by
  have key : t.EncryptKeys env M1 = (false, t) := by
    apply CCryptoKeyStore.EncryptKeys_refused
    rcases h with ⟨s, M, hs⟩ | h | h
    · left
      obtain ⟨m1, m2, he⟩ := CCryptoKeyStore.EncryptKeys_success_state env s M
        (by rw [hs])
      rw [hs] at he
      simp only at he
      rw [he]
    · exact Or.inr (Or.inl h)
    · exact Or.inr (Or.inr h)
  exact ⟨key, by rw [key], by rw [key]⟩

theorem EncryptKeys_not_idempotent_witness :
    (run refPrims CCryptoKeyStore.new opsMigrate).EncryptKeys refPrims [1, 2, 3]
      = (false, run refPrims CCryptoKeyStore.new opsMigrate) ∧
    ((run refPrims CCryptoKeyStore.new opsMigrate).EncryptKeys refPrims
      [1, 2, 3]).2.mapCryptedKeys = (run refPrims CCryptoKeyStore.new opsMigrate).mapCryptedKeys ∧
    ((run refPrims CCryptoKeyStore.new opsMigrate).EncryptKeys refPrims
      [1, 2, 3]).2.mapCryptedDHTKeys
      = (run refPrims CCryptoKeyStore.new opsMigrate).mapCryptedDHTKeys :=
  EncryptKeys_not_idempotent refPrims (run refPrims CCryptoKeyStore.new opsMigrate) [1, 2, 3]
    (Or.inl ⟨run refPrims CCryptoKeyStore.new opsAddKeys, refMasterKey, rfl⟩)

/-! ## Secrets under the master key -/

theorem SetKey_new (K iv : Bytes) (hK : K.length = WALLET_CRYPTO_KEY_SIZE)
    (hiv : iv.length = WALLET_CRYPTO_IV_SIZE) :
    CCrypter.new.SetKey K iv = (true, { vchKey := K, vchIV := iv, fKeySet := true }) := by
  unfold CCrypter.SetKey CCrypter.new
  simp only [hK, hiv, ne_eq, not_true_eq_false, or_self, if_false]
  rw [writeAt_of_fits _ _ _ (by simp [hK]), writeAt_of_fits _ _ _ (by simp [hiv])]
  simp [hK, hiv]

theorem SetKey_bad_key (c : CCrypter) (K iv : Bytes) (hK : K.length ≠ WALLET_CRYPTO_KEY_SIZE) :
    c.SetKey K iv = (false, c) := by
  simp [CCrypter.SetKey, hK]

theorem ivOf_length (nIV : Bytes) : (ivOf nIV).length = WALLET_CRYPTO_IV_SIZE := by
  simp [ivOf, writeAt_length]

/-- With sound cipher stages and a 32-byte master key, `EncryptSecret` succeeds and
`DecryptSecret` of its output under the same master key and IV source returns the
plaintext. -/
theorem EncryptSecret_DecryptSecret (env : Prims) (hs : env.CipherSound) (M : Bytes)
    (hM : M.length = WALLET_CRYPTO_KEY_SIZE) (P nIV out : Bytes) :
    (EncryptSecret env M P nIV out).1 = true ∧
    ∀ out1 : Bytes, DecryptSecret env M (EncryptSecret env M P nIV out).2 nIV out1
      = (true, P) := by
  obtain ⟨hctx, hst⟩ := hs
  obtain ⟨hei, hdi, u, f, hu, hf, hlen, u1, f1, hu1, hf1, hlen1, hP⟩ :=
    hst M (ivOf nIV) P hM (ivOf_length nIV)
  have he : EncryptSecret env M P nIV out = (true, u ++ f) := by
    unfold EncryptSecret
    simp only [SetKey_new M (ivOf nIV) hM (ivOf_length nIV), Bool.not_true, Bool.false_eq_true,
      if_false]
    exact encrypt_of_stages env _ P out u f rfl hctx hei hu hf hlen
  rw [he]
  refine ⟨rfl, fun out1 => ?_⟩
  unfold DecryptSecret
  simp only [SetKey_new M (ivOf nIV) hM (ivOf_length nIV), Bool.not_true, Bool.false_eq_true,
    if_false]
  rw [← hP]
  exact decrypt_of_stages env _ (u ++ f) out1 u1 f1 rfl hctx hdi hu1 hf1 hlen1

theorem DecryptSecret_bad_key (env : Prims) (K C nIV out : Bytes)
    (hK : K.length ≠ WALLET_CRYPTO_KEY_SIZE) : DecryptSecret env K C nIV out = (false, out) := by
  simp [DecryptSecret, SetKey_bad_key _ K _ hK]

theorem DecryptKey_bad_key (env : Prims) (K C : Bytes) (pub : CPubKey) (key : CKey)
    (hK : K.length ≠ WALLET_CRYPTO_KEY_SIZE) : DecryptKey env K C pub key = (false, key) := by
  simp [DecryptKey, DecryptSecret_bad_key env K C _ _ hK]

theorem DecryptKeyEd25519_bad_key (env : Prims) (K C pub : Bytes) (key : CKeyEd25519)
    (hK : K.length ≠ WALLET_CRYPTO_KEY_SIZE) :
    DecryptKeyEd25519 env K C pub key = (false, key) := by
  simp [DecryptKeyEd25519, DecryptSecret_bad_key env K C _ _ hK]

/-! ## `Unlock` -/

namespace CCryptoKeyStore

end CCryptoKeyStore

namespace CCryptoKeyStore

end CCryptoKeyStore

set_option maxRecDepth 20000 in
/-- The key-separation contract cannot be left out: the first small cipher meets the
round-trip contract but shifts by the sum of the key bytes, and on the store migrated
under `refMasterKey` a different 32-byte key with the same sum unlocks. -/
theorem Unlock_other_key_same_shift :
    (10 :: 8 :: List.replicate 30 9 : Bytes) ≠ refMasterKey ∧
    (10 :: 8 :: List.replicate 30 9 : Bytes).length = WALLET_CRYPTO_KEY_SIZE ∧
    ((run refPrims CCryptoKeyStore.new opsMigrate).Unlock refPrims
      (10 :: 8 :: List.replicate 30 9) false).1 = .success := by
  decide

/-- `DecryptKey` gives back a standard key from the record `EncryptKeys` files for it, when
the key object is rebuilt from its private bytes and verifies against its public key. -/
theorem DecryptKey_cryptedRecord (env : Prims) (hs : env.CipherSound) (M : Bytes)
    (hM : M.length = WALLET_CRYPTO_KEY_SIZE) (privA : CKey) (hlenA : privA.vch.length = 32)
    (hsetA : env.keySet privA.vch (env.pubIsCompressed (env.keyGetPubKey privA)) = privA)
    (hverA : env.keyVerifyPubKey privA (env.keyGetPubKey privA) = true) (out : CKey) :
    DecryptKey env M (cryptedRecord env M privA).2.2 (cryptedRecord env M privA).2.1 out
      = (true, privA) := by
  unfold DecryptKey cryptedRecord
  simp only [(EncryptSecret_DecryptSecret env hs M hM privA.vch _ []).2 [], Bool.not_true,
    Bool.false_eq_true, if_false, hlenA, ne_eq, not_true_eq_false, hsetA, hverA]

/-- `DecryptKeyEd25519` gives back an identity key from the record `EncryptKeys` files for
it, when the key object is determined by its seed. -/
theorem DecryptKeyEd25519_cryptedDHTRecord (env : Prims) (hs : env.CipherSound) (M : Bytes)
    (hM : M.length = WALLET_CRYPTO_KEY_SIZE) (keyB : CKeyEd25519)
    (hlenB : keyB.seed.length = 64) (hB : env.edFromSeed keyB.seed = keyB)
    (out : CKeyEd25519) :
    DecryptKeyEd25519 env M (cryptedDHTRecord env M keyB).2.2 (cryptedDHTRecord env M keyB).2.1
      out = (true, keyB) := by
  unfold DecryptKeyEd25519 cryptedDHTRecord
  simp only [CKeyEd25519.GetHash,
    (EncryptSecret_DecryptSecret env hs M hM keyB.seed _ []).2 [], Bool.not_true,
    Bool.false_eq_true, if_false, hlenB, ne_eq, not_true_eq_false, hB, decide_True]

namespace CCryptoKeyStore

/-- `Unlock` on an encrypted store that holds one record of each family, both verifying
under the key, and no crypted HD chain: success, the key installed. -/
theorem Unlock_one_of_each (env : Prims) (s : CCryptoKeyStore) (K : Bytes) (f : Bool)
    (ra : CKeyID × (CPubKey × Bytes)) (rb : CKeyID × (Bytes × Bytes))
    (hc : s.fUseCrypto = true) (hnull : s.cryptedHDChain.IsNull = true)
    (hma : s.mapCryptedKeys = [ra]) (hmb : s.mapCryptedDHTKeys = [rb])
    (ha : (DecryptKey env K ra.2.2 ra.2.1 CKey.new).1 = true)
    (hb : (DecryptKeyEd25519 env K rb.2.2 rb.2.1 CKeyEd25519.new).1 = true) :
    s.Unlock env K f = (.success,
      { s with vMasterKey := K, fDecryptionThoroughlyChecked := true,
               fOnlyMixingAllowed := f }) := by
  obtain ⟨ida, puba, cta⟩ := ra
  obtain ⟨idb, pubb, ctb⟩ := rb
  simp only at ha hb
  have h1 : (unlockScanKeys env K s.fDecryptionThoroughlyChecked [(ida, puba, cta)]
      (false, false)).2 = false := by
    unfold unlockScanKeys
    by_cases hct : cta.length > 0
    · simp only [hct, if_true, ha, Bool.not_true, Bool.false_eq_true, if_false]
      split <;> rfl
    · simp only [hct, if_false]
      rfl
  have h2 : unlockScanDHTKeys env K s.fDecryptionThoroughlyChecked [(idb, pubb, ctb)]
      (unlockScanKeys env K s.fDecryptionThoroughlyChecked [(ida, puba, cta)] (false, false))
      = (true, false) := by
    rw [show unlockScanKeys env K s.fDecryptionThoroughlyChecked [(ida, puba, cta)]
      (false, false) = ((unlockScanKeys env K s.fDecryptionThoroughlyChecked
        [(ida, puba, cta)] (false, false)).1, false) from Prod.ext rfl h1]
    unfold unlockScanDHTKeys
    simp only [hb, Bool.not_true, Bool.false_eq_true, if_false]
    split
    · rfl
    · rfl
  unfold Unlock
  simp only [SetCrypted_of_crypted s hc, hma, hmb, h2, hnull, Bool.not_true,
    Bool.false_eq_true, if_false, Bool.and_false, Bool.or_self, Bool.and_self, Bool.not_false]
  rfl

end CCryptoKeyStore

/-- C9. For every reachable Plain store holding one standard key pair `(pubA, privA)` and
one identity key pair `(pubB, keyB)`, and every 32-byte master key `M`: `EncryptKeys(M)`
succeeds and empties the plaintext maps, `Unlock(M)` then returns success,
`GetKey(KeyID(pubA))` succeeds and returns a key equal to `privA`, and
`GetDHTKey(KeyID(pubB))` succeeds and returns a key whose private seed is that of `keyB`;
assuming the cipher round trip, that `privA` is a 32-byte key that derives `pubA`, is
rebuilt from its bytes and verifies against `pubA`, and that `keyB` has a 64-byte
(hex-encoded) seed, is determined by it, and has public key `pubB`. -/
theorem migrate_unlock_get (env : Prims) (hs : env.CipherSound) (s : CCryptoKeyStore)
    (M : Bytes) (f : Bool) (idA idB : CKeyID) (pubA : CPubKey) (privA : CKey) (pubB : Bytes)
    (keyB : CKeyEd25519)
    (hr : Reachable env s) (hp : s.fUseCrypto = false)
    (hkeys : s.mapKeys = [(idA, privA)]) (hdht : s.mapDHTKeys = [(idB, keyB)])
    (hM : M.length = WALLET_CRYPTO_KEY_SIZE)
    (hpubA : env.keyGetPubKey privA = pubA) (hlenA : privA.vch.length = 32)
    (hsetA : env.keySet privA.vch (env.pubIsCompressed pubA) = privA)
    (hverA : env.keyVerifyPubKey privA pubA = true)
    (hpubB : keyB.publicKey = pubB) (hlenB : keyB.seed.length = 64)
    (hB : env.edFromSeed keyB.seed = keyB) :
    ∃ s1 s2 : CCryptoKeyStore,
      s.EncryptKeys env M = (true, s1) ∧ s1.mapKeys = [] ∧ s1.mapDHTKeys = [] ∧
      s1.Unlock env M f = (.success, s2) ∧
      (∀ out : CKey, s2.GetKey env (pubA.GetID env) out = (true, privA)) ∧
      (∀ out : CKeyEd25519, (s2.GetDHTKey env (env.Hash160 pubB) out).1 = true ∧
        (s2.GetDHTKey env (env.Hash160 pubB) out).2.seed = keyB.seed) := by
  obtain ⟨hc1, hc2, hmk, hchain⟩ := Reachable.plain env s hr hp
  subst hpubA hpubB
  have hencA : ∀ e ∈ s.mapKeys,
      (EncryptSecret env M e.2.vch ((env.keyGetPubKey e.2).GetHash env) []).1 = true :=
    fun e _ => (EncryptSecret_DecryptSecret env hs M hM _ _ _).1
  have hencB : ∀ e ∈ s.mapDHTKeys,
      (EncryptSecret env M e.2.seed (e.2.GetHash env) []).1 = true :=
    fun e _ => (EncryptSecret_DecryptSecret env hs M hM _ _ _).1
  have hA := DecryptKey_cryptedRecord env hs M hM privA hlenA hsetA hverA
  have hBd := DecryptKeyEd25519_cryptedDHTRecord env hs M hM keyB hlenB hB
  refine ⟨_, _, CCryptoKeyStore.EncryptKeys_success env s M hp hc1 hc2 hencA hencB, rfl, rfl,
    CCryptoKeyStore.Unlock_one_of_each env _ M f (cryptedRecord env M privA)
      (cryptedDHTRecord env M keyB) rfl ?_ ?_ ?_ ?_ ?_, ?_, ?_⟩
  · simp only [hchain]; rfl
  · simp [hkeys, mapSetAll, mapSet]
  · simp [hdht, mapSetAll, mapSet]
  · rw [hA]
  · rw [hBd]
  · intro out
    simp only [CCryptoKeyStore.GetKey, CCryptoKeyStore.IsCrypted, hkeys, mapSetAll,
      List.map_cons, List.map_nil, List.foldl_cons, List.foldl_nil, mapSet, Bool.not_true,
      Bool.false_eq_true, if_false]
    have : mapFind [cryptedRecord env M privA] (CPubKey.GetID env (env.keyGetPubKey privA))
        = some (cryptedRecord env M privA).2 := by
      simp [mapFind, cryptedRecord]
    simp only [this]
    exact hA out
  · intro out
    simp only [CCryptoKeyStore.GetDHTKey, CCryptoKeyStore.IsCrypted, hdht, mapSetAll,
      List.map_cons, List.map_nil, List.foldl_cons, List.foldl_nil, mapSet, Bool.not_true,
      Bool.false_eq_true, if_false]
    have : mapFind [cryptedDHTRecord env M keyB] (env.Hash160 keyB.publicKey)
        = some (cryptedDHTRecord env M keyB).2 := by
      simp [mapFind, cryptedDHTRecord]
    simp only [this]
    rw [hBd out]
    exact ⟨rfl, rfl⟩

theorem migrate_unlock_get_witness :
    ∃ s1 s2 : CCryptoKeyStore,
      (run refPrims CCryptoKeyStore.new opsAddKeys).EncryptKeys refPrims refMasterKey
        = (true, s1) ∧
      s1.mapKeys = [] ∧ s1.mapDHTKeys = [] ∧
      s1.Unlock refPrims refMasterKey false = (.success, s2) ∧
      (∀ out : CKey,
        s2.GetKey refPrims ((refPrims.keyGetPubKey refKeyA).GetID refPrims) out
          = (true, refKeyA)) ∧
      (∀ out : CKeyEd25519,
        (s2.GetDHTKey refPrims (refPrims.Hash160 refKeyB.publicKey) out).1 = true ∧
        (s2.GetDHTKey refPrims (refPrims.Hash160 refKeyB.publicKey) out).2.seed
          = refKeyB.seed) :=
  migrate_unlock_get refPrims refPrims_cipherSound (run refPrims CCryptoKeyStore.new opsAddKeys)
    refMasterKey false ((refPrims.keyGetPubKey refKeyA).GetID refPrims)
    (refPrims.Hash160 refKeyB.publicKey) (refPrims.keyGetPubKey refKeyA) refKeyA
    refKeyB.publicKey refKeyB ⟨opsAddKeys, rfl⟩ (by decide) rfl rfl rfl rfl rfl rfl rfl rfl
    rfl rfl

/-! ## `Unlock`: outcomes -/

namespace CCryptoKeyStore

/-- `Unlock` written with its checks named. -/
theorem Unlock_eq (env : Prims) (s : CCryptoKeyStore) (K : Bytes) (f : Bool) :
    s.Unlock env K f =
      if !s.SetCrypted.1 then (.failure, s.SetCrypted.2)
      else if (s.SetCrypted.2.unlockKeyFlags env K).1 && (s.SetCrypted.2.unlockKeyFlags env K).2
        then (.integrityViolation, s.SetCrypted.2)
      else if (s.SetCrypted.2.unlockKeyFlags env K).2 ||
          (!(s.SetCrypted.2.unlockKeyFlags env K).1 && s.SetCrypted.2.cryptedHDChain.IsNull)
        then (.failure, s.SetCrypted.2)
      else if !s.SetCrypted.2.unlockChainPass env K
        then (.failure, { s.SetCrypted.2 with vMasterKey := [] })
      else (.success, { s.SetCrypted.2 with vMasterKey := K,
                                            fDecryptionThoroughlyChecked := true,
                                            fOnlyMixingAllowed := f }) := by
  rfl

end CCryptoKeyStore

/-- The first loop of `Unlock` sets `keyPass` exactly when a scanned record verifies and
`keyFail` exactly when a scanned record does not. -/
theorem unlockScanKeys_eq (env : Prims) (K : Bytes) (tc : Bool)
    (l : List (CKeyID × (CPubKey × Bytes))) :
    ∀ kp kf : Bool, unlockScanKeys env K tc l (kp, kf) =
      (kp || (unlockScannedKeys env K tc l).any (keyVerifies env K),
       kf || (unlockScannedKeys env K tc l).any (fun r => !keyVerifies env K r)) := by
  induction l with
  | nil => intro kp kf; simp [unlockScanKeys, unlockScannedKeys]
  | cons r rest ih =>
    intro kp kf
    obtain ⟨id, pub, ct⟩ := r
    unfold unlockScanKeys unlockScannedKeys
    by_cases hct : ct.length > 0
    · simp only [hct, if_true]
      cases hv : keyVerifies env K (id, pub, ct)
      · have hv1 : (DecryptKey env K ct pub CKey.new).1 = false := hv
        simp [hv1, hv]
      · have hv1 : (DecryptKey env K ct pub CKey.new).1 = true := hv
        cases tc
        · simp [hv1, hv, ih]
        · simp [hv1, hv]
    · simp only [hct, if_false]
      exact ih kp kf

/-- The second loop of `Unlock`, likewise. -/
theorem unlockScanDHTKeys_eq (env : Prims) (K : Bytes) (tc : Bool)
    (l : List (CKeyID × (Bytes × Bytes))) :
    ∀ kp kf : Bool, unlockScanDHTKeys env K tc l (kp, kf) =
      (kp || (unlockScannedDHTKeys env K tc l).any (dhtKeyVerifies env K),
       kf || (unlockScannedDHTKeys env K tc l).any (fun r => !dhtKeyVerifies env K r)) := by
  induction l with
  | nil => intro kp kf; simp [unlockScanDHTKeys, unlockScannedDHTKeys]
  | cons r rest ih =>
    intro kp kf
    obtain ⟨id, pub, ct⟩ := r
    unfold unlockScanDHTKeys unlockScannedDHTKeys
    cases hv : dhtKeyVerifies env K (id, pub, ct)
    · have hv1 : (DecryptKeyEd25519 env K ct pub CKeyEd25519.new).1 = false := hv
      simp [hv1, hv]
    · have hv1 : (DecryptKeyEd25519 env K ct pub CKeyEd25519.new).1 = true := hv
      cases tc
      · simp [hv1, hv, ih]
      · simp [hv1, hv]

namespace CCryptoKeyStore

theorem SetCrypted_fst_true (s : CCryptoKeyStore) (h : s.SetCrypted.1 = true) :
    s.SetCrypted.2 = { s with fUseCrypto := true } := by
  rcases SetCrypted_cases s with ⟨h1, h2⟩ | ⟨h1, _, _⟩ | ⟨h1, _, _⟩
  · rw [h1]
    cases s
    simp only at h2
    simp [h2]
  · rw [h1] at h; exact absurd h (by simp)
  · rw [h1]

theorem SetCrypted_fst_false (s : CCryptoKeyStore) (h : s.SetCrypted.1 = false) :
    s.SetCrypted.2 = s ∧ s.fUseCrypto = false ∧ s.mapKeys ≠ [] := by
  rcases SetCrypted_cases s with ⟨h1, _⟩ | ⟨h1, h2, h3⟩ | ⟨h1, _, _⟩
  · rw [h1] at h; exact absurd h (by simp)
  · rw [h1]; exact ⟨rfl, h2, h3⟩
  · rw [h1] at h; exact absurd h (by simp)

/-- `keyPass` is set by `Unlock` exactly when a scanned record verified. -/
theorem keyPass_iff (env : Prims) (s : CCryptoKeyStore) (K : Bytes)
    (h : s.SetCrypted.1 = true) :
    (s.SetCrypted.2.unlockKeyFlags env K).1 = true ↔ true ∈ s.unlockVerdicts env K := by
  unfold unlockKeyFlags unlockVerdicts
  rw [unlockScanKeys_eq, unlockScanDHTKeys_eq]
  simp [h, List.any_eq_true]

/-- `keyFail` is set by `Unlock` exactly when a scanned record did not verify. -/
theorem keyFail_iff (env : Prims) (s : CCryptoKeyStore) (K : Bytes)
    (h : s.SetCrypted.1 = true) :
    (s.SetCrypted.2.unlockKeyFlags env K).2 = true ↔ false ∈ s.unlockVerdicts env K := by
  unfold unlockKeyFlags unlockVerdicts
  rw [unlockScanKeys_eq, unlockScanDHTKeys_eq]
  simp [h, List.any_eq_true]

theorem unlockVerdicts_of_refused (env : Prims) (s : CCryptoKeyStore) (K : Bytes)
    (h : s.SetCrypted.1 = false) : s.unlockVerdicts env K = [] := by
  simp [unlockVerdicts, h]

/-- How `Unlock` comes to return success. -/
theorem Unlock_success_cases (env : Prims) (s : CCryptoKeyStore) (K : Bytes) (f : Bool)
    (h : (s.Unlock env K f).1 = .success) :
    s.SetCrypted.1 = true ∧ (s.SetCrypted.2.unlockKeyFlags env K).2 = false ∧
    ((s.SetCrypted.2.unlockKeyFlags env K).1 = true ∨
      s.SetCrypted.2.cryptedHDChain.IsNull = false) ∧
    s.SetCrypted.2.unlockChainPass env K = true ∧
    (s.Unlock env K f).2 = { s.SetCrypted.2 with vMasterKey := K,
                                                 fDecryptionThoroughlyChecked := true,
                                                 fOnlyMixingAllowed := f } := by
  rw [Unlock_eq] at h ⊢
  cases h1 : s.SetCrypted.1 <;> cases h2 : (s.SetCrypted.2.unlockKeyFlags env K).1 <;>
    cases h3 : (s.SetCrypted.2.unlockKeyFlags env K).2 <;>
    cases h4 : s.SetCrypted.2.cryptedHDChain.IsNull <;>
    cases h5 : s.SetCrypted.2.unlockChainPass env K <;>
    simp [h1, h2, h3, h4, h5] at h ⊢

/-- How `Unlock` comes to return the ordinary failure, and the store it leaves. -/
theorem Unlock_failure_cases (env : Prims) (s : CCryptoKeyStore) (K : Bytes) (f : Bool)
    (h : (s.Unlock env K f).1 = .failure) :
    ((s.Unlock env K f).2 = s.SetCrypted.2 ∧
      (s.SetCrypted.1 = false ∨ (s.SetCrypted.2.unlockKeyFlags env K).1 = false)) ∨
    ((s.Unlock env K f).2 = { s.SetCrypted.2 with vMasterKey := [] } ∧
      s.SetCrypted.1 = true ∧ (s.SetCrypted.2.unlockKeyFlags env K).2 = false ∧
      s.SetCrypted.2.unlockChainPass env K = false) := by
  rw [Unlock_eq] at h ⊢
  cases h1 : s.SetCrypted.1 <;> cases h2 : (s.SetCrypted.2.unlockKeyFlags env K).1 <;>
    cases h3 : (s.SetCrypted.2.unlockKeyFlags env K).2 <;>
    cases h4 : s.SetCrypted.2.cryptedHDChain.IsNull <;>
    cases h5 : s.SetCrypted.2.unlockChainPass env K <;>
    simp [h1, h2, h3, h4, h5] at h ⊢

end CCryptoKeyStore

/-- C11. In `Unlock`, whenever a scanned record decrypts and verifies under the supplied
master key while another scanned record (of either family) does not, the call ends in the
integrity-violation signal (the `assert(false)` branch), neither success nor the ordinary
failure, and the master key is not installed (the resident one is as before); and `Unlock`
never returns success when a record it scanned failed to decrypt. -/
theorem Unlock_integrity_violation (env : Prims) (s : CCryptoKeyStore) (K : Bytes) (f : Bool) :
    (true ∈ s.unlockVerdicts env K → false ∈ s.unlockVerdicts env K →
      s.Unlock env K f = (.integrityViolation, s.SetCrypted.2) ∧
      (s.Unlock env K f).2.vMasterKey = s.vMasterKey) ∧
    ((s.Unlock env K f).1 = .success → false ∉ s.unlockVerdicts env K) := by
  constructor
  · intro hp hf
    have hsc : s.SetCrypted.1 = true := by
      cases h : s.SetCrypted.1
      · rw [CCryptoKeyStore.unlockVerdicts_of_refused env s K h] at hp
        exact absurd hp (by simp)
      · rfl
    have h1 := (CCryptoKeyStore.keyPass_iff env s K hsc).2 hp
    have h2 := (CCryptoKeyStore.keyFail_iff env s K hsc).2 hf
    have : s.Unlock env K f = (.integrityViolation, s.SetCrypted.2) := by
      rw [CCryptoKeyStore.Unlock_eq]
      simp [hsc, h1, h2]
    rw [this]
    exact ⟨rfl, by rw [CCryptoKeyStore.SetCrypted_fst_true s hsc]⟩
  · intro hs hf
    obtain ⟨hsc, hkf, _⟩ := CCryptoKeyStore.Unlock_success_cases env s K f hs
    rw [(CCryptoKeyStore.keyFail_iff env s K hsc).2 hf] at hkf
    exact absurd hkf (by simp)

set_option maxRecDepth 20000 in
theorem Unlock_integrity_violation_witness :
    (run refPrims CCryptoKeyStore.new opsTampered).Unlock refPrims refMasterKey false
      = (.integrityViolation, (run refPrims CCryptoKeyStore.new opsTampered).SetCrypted.2) ∧
    ((run refPrims CCryptoKeyStore.new opsTampered).Unlock refPrims refMasterKey false).2.vMasterKey
      = (run refPrims CCryptoKeyStore.new opsTampered).vMasterKey :=
  (Unlock_integrity_violation refPrims (run refPrims CCryptoKeyStore.new opsTampered)
    refMasterKey false).1 (by decide) (by decide)

namespace CCryptoKeyStore

/-- When `DecryptHDChain` succeeds on a store in Encrypted mode, the crypted chain is
present and marked crypted, its seed decrypted under the resident master key, and the
hash of the decrypted seed is the stored chain id. -/
theorem DecryptHDChain_success (env : Prims) (s : CCryptoKeyStore) (ret : CHDChain)
    (hc : s.fUseCrypto = true) (h : (s.DecryptHDChain env ret).1 = true) :
    s.cryptedHDChain.IsNull = false ∧ s.cryptedHDChain.fCrypted = true ∧
    (DecryptSecret env s.vMasterKey s.cryptedHDChain.vchSeed s.cryptedHDChain.id []).1 = true ∧
    env.Hash (DecryptSecret env s.vMasterKey s.cryptedHDChain.vchSeed s.cryptedHDChain.id []).2
      = s.cryptedHDChain.id := by
  unfold DecryptHDChain at h
  simp only [IsCrypted, hc, Bool.not_true, Bool.false_eq_true, if_false] at h
  cases h1 : s.cryptedHDChain.IsNull
  · cases h2 : s.cryptedHDChain.fCrypted
    · simp [h1, h2] at h
    · cases h3 : (DecryptSecret env s.vMasterKey s.cryptedHDChain.vchSeed
        s.cryptedHDChain.id []).1
      · simp [h1, h2, h3] at h
      · refine ⟨rfl, rfl, rfl, ?_⟩
        by_contra h4
        simp only [h1, h2, h3, Bool.not_true, Bool.false_eq_true, if_false, Bool.not_false,
          if_true] at h
        have h5 : CHDChain.GetSeedHash env (CHDChain.SetSeed env s.cryptedHDChain
            (DecryptSecret env s.vMasterKey s.cryptedHDChain.vchSeed s.cryptedHDChain.id []).2
            false).2 ≠ s.cryptedHDChain.id := h4
        split_ifs at h
  · simp [h1] at h

/-- With the chain's seed failing to decrypt under the key, or decrypting to a seed whose
hash is not the chain id, the chain check of `Unlock` fails. -/
theorem unlockChainPass_false (env : Prims) (s : CCryptoKeyStore) (K : Bytes)
    (hc : s.fUseCrypto = true) (hnn : s.cryptedHDChain.IsNull = false)
    (hbad : (DecryptSecret env K s.cryptedHDChain.vchSeed s.cryptedHDChain.id []).1 = false ∨
      env.Hash (DecryptSecret env K s.cryptedHDChain.vchSeed s.cryptedHDChain.id []).2
        ≠ s.cryptedHDChain.id) :
    s.unlockChainPass env K = false := by
  unfold unlockChainPass
  simp only [hnn, Bool.not_false, if_true]
  cases h : (({ s with vMasterKey := K } : CCryptoKeyStore).DecryptHDChain env CHDChain.null).1
  · simp
  · obtain ⟨_, _, h3, h4⟩ := DecryptHDChain_success env { s with vMasterKey := K }
      CHDChain.null hc h
    rcases hbad with hb | hb
    · rw [h3] at hb; exact absurd hb (by simp)
    · exact absurd h4 hb

end CCryptoKeyStore

/-- C12, as stated, fails: on an encrypted store with a crypted HD chain that is already
unlocked (master key `refMasterKey` resident), `Unlock` with another key, under which the
chain's seed does not decrypt, returns failure at the key check and the earlier master key
is still resident afterwards. -/
theorem Unlock_chain_failure_keeps_resident_key :
    (run refPrims CCryptoKeyStore.new opsUnlockedWithChain).fUseCrypto = true ∧
    (run refPrims CCryptoKeyStore.new opsUnlockedWithChain).cryptedHDChain.IsNull = false ∧
    (DecryptSecret refPrims refWrongKey
      (run refPrims CCryptoKeyStore.new opsUnlockedWithChain).cryptedHDChain.vchSeed
      (run refPrims CCryptoKeyStore.new opsUnlockedWithChain).cryptedHDChain.id []).1 = false ∧
    ((run refPrims CCryptoKeyStore.new opsUnlockedWithChain).Unlock refPrims refWrongKey
      false).1 = .failure ∧
    ((run refPrims CCryptoKeyStore.new opsUnlockedWithChain).Unlock refPrims refWrongKey
      false).2.vMasterKey = refMasterKey := by
  decide

/-- C12, amended. For every encrypted store with a non-null crypted HD chain whose seed,
under the supplied master key, fails to decrypt or decrypts to a seed whose hash differs
from the stored chain id: `Unlock` does not return success; when no scanned key record
failed to decrypt (so also when every sampled record decrypted correctly) it returns
failure and no master key is resident afterwards (`vMasterKey` is empty); when a scanned
record failed and none verified it returns failure at the key check and leaves the store,
the resident master key included, as it was. -/
theorem Unlock_chain_mismatch (env : Prims) (s : CCryptoKeyStore) (K : Bytes) (f : Bool)
    (hc : s.fUseCrypto = true) (hnn : s.cryptedHDChain.IsNull = false)
    (hbad : (DecryptSecret env K s.cryptedHDChain.vchSeed s.cryptedHDChain.id []).1 = false ∨
      env.Hash (DecryptSecret env K s.cryptedHDChain.vchSeed s.cryptedHDChain.id []).2
        ≠ s.cryptedHDChain.id) :
    (s.Unlock env K f).1 ≠ .success ∧
    (false ∉ s.unlockVerdicts env K →
      s.Unlock env K f = (.failure, { s with vMasterKey := [] })) ∧
    (false ∈ s.unlockVerdicts env K → true ∉ s.unlockVerdicts env K →
      s.Unlock env K f = (.failure, s)) := by
  have hsc := CCryptoKeyStore.SetCrypted_of_crypted s hc
  have hsc1 : s.SetCrypted.1 = true := by rw [hsc]
  have hcp := CCryptoKeyStore.unlockChainPass_false env s K hc hnn hbad
  have hkp := CCryptoKeyStore.keyPass_iff env s K hsc1
  have hkf := CCryptoKeyStore.keyFail_iff env s K hsc1
  rw [hsc] at hkp hkf
  simp only at hkp hkf
  refine ⟨?_, ?_, ?_⟩
  · intro hs
    have := (CCryptoKeyStore.Unlock_success_cases env s K f hs).2.2.2.1
    rw [hsc] at this
    simp only at this
    rw [hcp] at this
    exact absurd this (by simp)
  · intro hnf
    have h2 : (s.unlockKeyFlags env K).2 = false := by
      cases h : (s.unlockKeyFlags env K).2
      · rfl
      · exact absurd (hkf.1 h) hnf
    rw [CCryptoKeyStore.Unlock_eq]
    simp [hsc, h2, hnn, hcp]
  · intro hf hnp
    have h2 : (s.unlockKeyFlags env K).2 = true := hkf.2 hf
    have h1 : (s.unlockKeyFlags env K).1 = false := by
      cases h : (s.unlockKeyFlags env K).1
      · rfl
      · exact absurd (hkp.1 h) hnp
    rw [CCryptoKeyStore.Unlock_eq]
    simp [hsc, h1, h2]

set_option maxRecDepth 20000 in
theorem Unlock_chain_mismatch_witness :
    (run refPrims CCryptoKeyStore.new opsChainOnlyUnlocked).Unlock refPrims refWrongKey false
      = (.failure,
        { run refPrims CCryptoKeyStore.new opsChainOnlyUnlocked with vMasterKey := [] }) :=
  (Unlock_chain_mismatch refPrims (run refPrims CCryptoKeyStore.new opsChainOnlyUnlocked)
    refWrongKey false (by decide) (by decide) (Or.inl (by decide))).2.1 (by decide)

/-- C13, as stated, fails: `Unlock` on the empty Plain store returns failure after
`SetCrypted` has switched the store to Encrypted mode; and `Unlock` with a key under which
the HD chain does not verify, on a store unlocked earlier, returns failure after wiping the
master key that was resident. -/
theorem Unlock_failure_changes_store :
    (CCryptoKeyStore.new.Unlock refPrims refMasterKey false).1 = .failure ∧
    CCryptoKeyStore.new.fUseCrypto = false ∧
    (CCryptoKeyStore.new.Unlock refPrims refMasterKey false).2.fUseCrypto = true ∧
    ((run refPrims CCryptoKeyStore.new opsChainOnlyUnlocked).Unlock refPrims refWrongKey
      false).1 = .failure ∧
    (run refPrims CCryptoKeyStore.new opsChainOnlyUnlocked).vMasterKey = refMasterKey ∧
    ((run refPrims CCryptoKeyStore.new opsChainOnlyUnlocked).Unlock refPrims refWrongKey
      false).2.vMasterKey = [] := by
  decide

/-- C13, amended. Whenever `Unlock` returns the ordinary failure result: the key maps, the
HD chains, the mixing-only flag and the thoroughly-checked flag are exactly as before the
call; the mode flag is as before, except that a Plain store with no standard key in
`mapKeys` has been switched to Encrypted mode; the resident master key is as before, except
that it has been wiped when the failure comes from the check of a present HD chain. In
particular the whole store is exactly as before for a Plain store holding a standard key,
for an encrypted store with no resident master key, and for an encrypted store without a
crypted HD chain. -/
theorem Unlock_failure_frame (env : Prims) (s : CCryptoKeyStore) (K : Bytes) (f : Bool)
    (h : (s.Unlock env K f).1 = .failure) :
    (s.Unlock env K f).2.mapKeys = s.mapKeys ∧
    (s.Unlock env K f).2.mapDHTKeys = s.mapDHTKeys ∧
    (s.Unlock env K f).2.mapWatchKeys = s.mapWatchKeys ∧
    (s.Unlock env K f).2.mapCryptedKeys = s.mapCryptedKeys ∧
    (s.Unlock env K f).2.mapCryptedDHTKeys = s.mapCryptedDHTKeys ∧
    (s.Unlock env K f).2.hdChain = s.hdChain ∧
    (s.Unlock env K f).2.cryptedHDChain = s.cryptedHDChain ∧
    (s.Unlock env K f).2.fOnlyMixingAllowed = s.fOnlyMixingAllowed ∧
    (s.Unlock env K f).2.fDecryptionThoroughlyChecked = s.fDecryptionThoroughlyChecked ∧
    ((s.Unlock env K f).2.fUseCrypto = s.fUseCrypto ∨
      (s.fUseCrypto = false ∧ s.mapKeys = [] ∧ (s.Unlock env K f).2.fUseCrypto = true)) ∧
    ((s.Unlock env K f).2.vMasterKey = s.vMasterKey ∨
      (s.cryptedHDChain.IsNull = false ∧ (s.Unlock env K f).2.vMasterKey = [])) ∧
    (s.fUseCrypto = false → s.mapKeys ≠ [] → (s.Unlock env K f).2 = s) ∧
    (s.fUseCrypto = true → s.vMasterKey = [] → (s.Unlock env K f).2 = s) ∧
    (s.fUseCrypto = true → s.cryptedHDChain.IsNull = true → (s.Unlock env K f).2 = s) := by
  rcases CCryptoKeyStore.SetCrypted_cases s with ⟨hsc, hs⟩ | ⟨hsc, hs, hk⟩ | ⟨hsc, hs, hk⟩
  · -- Encrypted mode
    rcases CCryptoKeyStore.Unlock_failure_cases env s K f h with ⟨hu, _⟩ | ⟨hu, _, hkf, hcp⟩
    · rw [hu, hsc]
      simp
    · rw [hsc] at hu hkf hcp
      simp only at hu hkf hcp
      have hnn : s.cryptedHDChain.IsNull = false := by
        cases hn : s.cryptedHDChain.IsNull
        · rfl
        · simp [CCryptoKeyStore.unlockChainPass, hn] at hcp
      rw [hu]
      refine ⟨rfl, rfl, rfl, rfl, rfl, rfl, rfl, rfl, rfl, Or.inl rfl, Or.inr ⟨hnn, rfl⟩,
        ?_, ?_, ?_⟩
      · intro h1; rw [hs] at h1; exact absurd h1 (by simp)
      · intro _ hm
        cases s
        simp only at hm
        simp [hm]
      · intro _ hn; rw [hnn] at hn; exact absurd hn (by simp)
  · -- Plain mode, a standard key resident
    rw [CCryptoKeyStore.Unlock_of_not_crypted env s K f hsc]
    simp
  · -- Plain mode, no standard key resident
    rcases CCryptoKeyStore.Unlock_failure_cases env s K f h with ⟨hu, _⟩ | ⟨hu, _, hkf, hcp⟩
    · rw [hu, hsc]
      simp [hs, hk]
    · rw [hsc] at hu hkf hcp
      simp only at hu hkf hcp
      have hnn : s.cryptedHDChain.IsNull = false := by
        cases hn : s.cryptedHDChain.IsNull
        · rfl
        · simp [CCryptoKeyStore.unlockChainPass, hn] at hcp
      rw [hu]
      simp [hs, hk, hnn]

theorem Unlock_failure_frame_witness :
    ((run refPrims CCryptoKeyStore.new opsMigrate).Unlock refPrims [] false).2.mapKeys
      = (run refPrims CCryptoKeyStore.new opsMigrate).mapKeys ∧
    ((run refPrims CCryptoKeyStore.new opsMigrate).Unlock refPrims [] false).2.mapCryptedKeys
      = (run refPrims CCryptoKeyStore.new opsMigrate).mapCryptedKeys :=
  ⟨(Unlock_failure_frame refPrims (run refPrims CCryptoKeyStore.new opsMigrate) [] false
      (by decide)).1,
   (Unlock_failure_frame refPrims (run refPrims CCryptoKeyStore.new opsMigrate) [] false
      (by decide)).2.2.2.1⟩

/-- C14. Whenever `Unlock(masterKey, forMixingOnly)` returns success, the store afterwards
is in Encrypted mode, the resident master key is `masterKey`, the mixing-only flag is
`forMixingOnly`, the thoroughly-checked flag is set, and all key maps and both HD chains
are as before the call. -/
theorem Unlock_success_installs (env : Prims) (s : CCryptoKeyStore) (K : Bytes) (f : Bool)
    (h : (s.Unlock env K f).1 = .success) :
    (s.Unlock env K f).2.fUseCrypto = true ∧
    (s.Unlock env K f).2.vMasterKey = K ∧
    (s.Unlock env K f).2.fOnlyMixingAllowed = f ∧
    (s.Unlock env K f).2.fDecryptionThoroughlyChecked = true ∧
    (s.Unlock env K f).2.mapKeys = s.mapKeys ∧
    (s.Unlock env K f).2.mapDHTKeys = s.mapDHTKeys ∧
    (s.Unlock env K f).2.mapWatchKeys = s.mapWatchKeys ∧
    (s.Unlock env K f).2.mapCryptedKeys = s.mapCryptedKeys ∧
    (s.Unlock env K f).2.mapCryptedDHTKeys = s.mapCryptedDHTKeys ∧
    (s.Unlock env K f).2.cryptedHDChain = s.cryptedHDChain ∧
    (s.Unlock env K f).2.hdChain = s.hdChain := by
  obtain ⟨hsc, _, _, _, hu⟩ := CCryptoKeyStore.Unlock_success_cases env s K f h
  rw [hu, CCryptoKeyStore.SetCrypted_fst_true s hsc]
  exact ⟨rfl, rfl, rfl, rfl, rfl, rfl, rfl, rfl, rfl, rfl, rfl⟩

set_option maxRecDepth 20000 in
theorem Unlock_success_installs_witness :
    ((run refPrims CCryptoKeyStore.new opsMigrate).Unlock refPrims refMasterKey true).2.fUseCrypto
      = true ∧
    ((run refPrims CCryptoKeyStore.new opsMigrate).Unlock refPrims refMasterKey true).2.vMasterKey
      = refMasterKey ∧
    ((run refPrims CCryptoKeyStore.new opsMigrate).Unlock refPrims refMasterKey
      true).2.fOnlyMixingAllowed = true :=
  ⟨(Unlock_success_installs refPrims (run refPrims CCryptoKeyStore.new opsMigrate)
      refMasterKey true (by decide)).1,
   (Unlock_success_installs refPrims (run refPrims CCryptoKeyStore.new opsMigrate)
      refMasterKey true (by decide)).2.1,
   (Unlock_success_installs refPrims (run refPrims CCryptoKeyStore.new opsMigrate)
      refMasterKey true (by decide)).2.2.1⟩

/-! ## `Unlock`: what a success has checked -/

/-- When no scanned standard record failed, and some standard record has non-empty
ciphertext, a standard record with non-empty ciphertext verified. -/
theorem exists_verified_key (env : Prims) (K : Bytes) (tc : Bool)
    (l : List (CKeyID × (CPubKey × Bytes)))
    (hne : ∃ r ∈ l, r.2.2.length > 0)
    (hall : (unlockScannedKeys env K tc l).any (fun r => !keyVerifies env K r) = false) :
    ∃ r ∈ l, r.2.2.length > 0 ∧ keyVerifies env K r = true := by
  induction l with
  | nil => obtain ⟨r, hr, _⟩ := hne; exact absurd hr (by simp)
  | cons r rest ih =>
    by_cases hct : r.2.2.length > 0
    · refine ⟨r, List.mem_cons_self _ _, hct, ?_⟩
      cases hv : keyVerifies env K r
      · simp [unlockScannedKeys, hct, hv] at hall
      · rfl
    · have hrest : ∃ x ∈ rest, x.2.2.length > 0 := by
        obtain ⟨x, hx, hxl⟩ := hne
        rcases List.mem_cons.1 hx with rfl | hx
        · exact absurd hxl hct
        · exact ⟨x, hx, hxl⟩
      simp only [unlockScannedKeys, hct, if_false] at hall
      obtain ⟨x, hx, h1, h2⟩ := ih hrest hall
      exact ⟨x, List.mem_cons_of_mem _ hx, h1, h2⟩

/-- When no scanned identity record failed, and there is an identity record, an identity
record verified. -/
theorem exists_verified_dhtKey (env : Prims) (K : Bytes) (tc : Bool)
    (l : List (CKeyID × (Bytes × Bytes))) (hne : l ≠ [])
    (hall : (unlockScannedDHTKeys env K tc l).any (fun r => !dhtKeyVerifies env K r) = false) :
    ∃ r ∈ l, dhtKeyVerifies env K r = true := by
  cases l with
  | nil => exact absurd rfl hne
  | cons r rest =>
    refine ⟨r, List.mem_cons_self _ _, ?_⟩
    cases hv : dhtKeyVerifies env K r
    · simp [unlockScannedDHTKeys, hv] at hall
    · rfl

set_option maxRecDepth 20000 in
/-- C15, as stated, fails: on a store whose only standard record has empty ciphertext and
whose identity record is well formed, `Unlock` returns success although the standard family
has a record and no standard record decrypted under the master key. -/
theorem Unlock_success_without_standard_check :
    (run refPrims CCryptoKeyStore.new opsEmptyCiphertext).mapCryptedKeys ≠ [] ∧
    ((run refPrims CCryptoKeyStore.new opsEmptyCiphertext).Unlock refPrims refMasterKey
      false).1 = .success ∧
    ∀ r ∈ (run refPrims CCryptoKeyStore.new opsEmptyCiphertext).mapCryptedKeys,
      keyVerifies refPrims refMasterKey r = false := by
  decide

/-- C15, amended. Whenever `Unlock` returns success and commits the master key: if the
standard family has at least one encrypted record with non-empty ciphertext, a standard
record with non-empty ciphertext decrypted and matched its public key under the master key;
if the identity family has at least one encrypted record, an identity record decrypted and
matched its public key; and if a crypted HD chain is present, the chain's seed decrypted
to a seed whose hash equals the stored chain id. -/
theorem Unlock_success_validated (env : Prims) (s : CCryptoKeyStore) (K : Bytes) (f : Bool)
    (h : (s.Unlock env K f).1 = .success) :
    ((∃ r ∈ s.mapCryptedKeys, r.2.2.length > 0) →
      ∃ r ∈ s.mapCryptedKeys, r.2.2.length > 0 ∧ keyVerifies env K r = true) ∧
    (s.mapCryptedDHTKeys ≠ [] → ∃ r ∈ s.mapCryptedDHTKeys, dhtKeyVerifies env K r = true) ∧
    (s.cryptedHDChain.IsNull = false →
      (DecryptSecret env K s.cryptedHDChain.vchSeed s.cryptedHDChain.id []).1 = true ∧
      env.Hash (DecryptSecret env K s.cryptedHDChain.vchSeed s.cryptedHDChain.id []).2
        = s.cryptedHDChain.id) := by
  obtain ⟨hsc, hkf, _, hcp, _⟩ := CCryptoKeyStore.Unlock_success_cases env s K f h
  rw [CCryptoKeyStore.SetCrypted_fst_true s hsc] at hkf hcp
  unfold CCryptoKeyStore.unlockKeyFlags at hkf
  rw [unlockScanKeys_eq, unlockScanDHTKeys_eq] at hkf
  simp only [Bool.false_or, Bool.or_eq_false_iff] at hkf
  refine ⟨fun hne => exists_verified_key env K _ _ hne hkf.1,
    fun hne => exists_verified_dhtKey env K _ _ hne hkf.2, fun hnn => ?_⟩
  unfold CCryptoKeyStore.unlockChainPass at hcp
  simp only [hnn, Bool.not_false, if_true, Bool.and_eq_true] at hcp
  obtain ⟨_, _, h3, h4⟩ := CCryptoKeyStore.DecryptHDChain_success env
    { s with fUseCrypto := true, vMasterKey := K } CHDChain.null rfl hcp.1
  exact ⟨h3, h4⟩

set_option maxRecDepth 20000 in
theorem Unlock_success_validated_witness :
    ∃ r ∈ (run refPrims CCryptoKeyStore.new opsMigrate).mapCryptedKeys,
      r.2.2.length > 0 ∧ keyVerifies refPrims refMasterKey r = true :=
  (Unlock_success_validated refPrims (run refPrims CCryptoKeyStore.new opsMigrate)
    refMasterKey false (by decide)).1 (by decide)

/-! ## `Lock` -/

/-- C16. For every store on which `Lock(allowMixing)` returns success: with `allowMixing`
false the resident master key is empty afterwards and the mixing-only flag is false; with
`allowMixing` true the resident master key is the one held before the call and the
mixing-only flag is true; in both cases the key maps and the HD chains are unchanged. -/
theorem Lock_success (s : CCryptoKeyStore) (fAllowMixing : Bool)
    (h : (s.Lock fAllowMixing).1 = true) :
    (fAllowMixing = false →
      (s.Lock fAllowMixing).2.vMasterKey = [] ∧
      (s.Lock fAllowMixing).2.fOnlyMixingAllowed = false) ∧
    (fAllowMixing = true →
      (s.Lock fAllowMixing).2.vMasterKey = s.vMasterKey ∧
      (s.Lock fAllowMixing).2.fOnlyMixingAllowed = true) ∧
    (s.Lock fAllowMixing).2.mapKeys = s.mapKeys ∧
    (s.Lock fAllowMixing).2.mapDHTKeys = s.mapDHTKeys ∧
    (s.Lock fAllowMixing).2.mapWatchKeys = s.mapWatchKeys ∧
    (s.Lock fAllowMixing).2.mapCryptedKeys = s.mapCryptedKeys ∧
    (s.Lock fAllowMixing).2.mapCryptedDHTKeys = s.mapCryptedDHTKeys ∧
    (s.Lock fAllowMixing).2.hdChain = s.hdChain ∧
    (s.Lock fAllowMixing).2.cryptedHDChain = s.cryptedHDChain := by
  have hsc : s.SetCrypted.1 = true := by
    cases hh : s.SetCrypted.1
    · simp [CCryptoKeyStore.Lock, hh] at h
    · rfl
  have hs2 := CCryptoKeyStore.SetCrypted_fst_true s hsc
  unfold CCryptoKeyStore.Lock
  simp only [hsc, hs2, Bool.not_true, Bool.false_eq_true, if_false]
  cases fAllowMixing <;> simp

set_option maxRecDepth 20000 in
theorem Lock_success_witness :
    ((run refPrims CCryptoKeyStore.new opsUnlocked).Lock false).2.vMasterKey = [] ∧
    ((run refPrims CCryptoKeyStore.new opsUnlocked).Lock false).2.fOnlyMixingAllowed = false :=
  (Lock_success (run refPrims CCryptoKeyStore.new opsUnlocked) false (by decide)).1 rfl

/-- C17, as stated, fails: `Lock` on the empty Plain store returns success and leaves the
store in Encrypted mode. -/
theorem Lock_switches_empty_plain_store :
    CCryptoKeyStore.new.fUseCrypto = false ∧
    (CCryptoKeyStore.new.Lock false).1 = true ∧
    (CCryptoKeyStore.new.Lock false).2.fUseCrypto = true ∧
    (CCryptoKeyStore.new.Lock true).1 = true ∧
    (CCryptoKeyStore.new.Lock true).2.fUseCrypto = true := by
  decide

/-- C17, amended. `Lock` relies on `SetCrypted`: for every store in Plain mode with a
standard key resident in `mapKeys`, and either value of `allowMixing`, `Lock` returns
failure and the store stays in Plain mode with its state unchanged; for a store in Plain
mode with no plaintext key resident, `Lock` returns success and the store is in Encrypted
mode afterwards. -/
theorem Lock_on_plain (s : CCryptoKeyStore) (fAllowMixing : Bool)
    (hp : s.fUseCrypto = false) :
    (s.mapKeys ≠ [] → s.Lock fAllowMixing = (false, s)) ∧
    (s.mapKeys = [] → s.mapDHTKeys = [] →
      (s.Lock fAllowMixing).1 = true ∧ (s.Lock fAllowMixing).2.fUseCrypto = true) := by
  constructor
  · intro hk
    simp [CCryptoKeyStore.Lock, CCryptoKeyStore.SetCrypted_of_keys s hp hk]
  · intro hk _
    simp only [CCryptoKeyStore.Lock, CCryptoKeyStore.SetCrypted_of_no_keys s hp hk]
    cases fAllowMixing <;> simp

theorem Lock_on_plain_witness :
    (run refPrims CCryptoKeyStore.new opsAddKeys).Lock true
      = (false, run refPrims CCryptoKeyStore.new opsAddKeys) :=
  (Lock_on_plain (run refPrims CCryptoKeyStore.new opsAddKeys) true (by decide)).1 (by decide)

/-! ## Reading and adding keys in Encrypted mode -/

/-- C18. After a successful `Lock(allowMixing = false)` on an encrypted store, `GetKey` and
`GetDHTKey` return failure for every key id and every output argument (which they leave
as it was), whether or not an encrypted record exists for the id, while `GetPubKey` returns
for every key id the same result and public key as before the `Lock`. -/
theorem locked_store_reads (env : Prims) (s : CCryptoKeyStore) (hc : s.fUseCrypto = true) :
    (s.Lock false).1 = true ∧
    (∀ (address : CKeyID) (keyOut : CKey),
      (s.Lock false).2.GetKey env address keyOut = (false, keyOut)) ∧
    (∀ (address : CKeyID) (keyOut : CKeyEd25519),
      (s.Lock false).2.GetDHTKey env address keyOut = (false, keyOut)) ∧
    (∀ (address : CKeyID) (vchPubKeyOut : CPubKey),
      (s.Lock false).2.GetPubKey env address vchPubKeyOut
        = s.GetPubKey env address vchPubKeyOut) ∧
    (∀ (address : CKeyID) (vchPubKeyOut : CPubKey) (r : CPubKey × Bytes),
      mapFind s.mapCryptedKeys address = some r →
      (s.Lock false).2.GetPubKey env address vchPubKeyOut = (true, r.1)) ∧
    (∀ (address : CKeyID) (vchPubKeyOut watched : CPubKey),
      mapFind s.mapCryptedKeys address = none →
      mapFind s.mapWatchKeys address = some watched →
      (s.Lock false).2.GetPubKey env address vchPubKeyOut = (true, watched)) := by
  have hl : s.Lock false = (true, { s with vMasterKey := [], fOnlyMixingAllowed := false }) := by
    simp [CCryptoKeyStore.Lock, CCryptoKeyStore.SetCrypted_of_crypted s hc]
  have hbad : ([] : Bytes).length ≠ WALLET_CRYPTO_KEY_SIZE := by decide
  rw [hl]
  refine ⟨rfl, ?_, ?_, ?_, ?_, ?_⟩
  · intro address keyOut
    simp only [CCryptoKeyStore.GetKey, CCryptoKeyStore.IsCrypted, hc, Bool.not_true,
      Bool.false_eq_true, if_false]
    cases hfind : mapFind s.mapCryptedKeys address with
    | none => rfl
    | some r => exact DecryptKey_bad_key env [] _ _ _ hbad
  · intro address keyOut
    simp only [CCryptoKeyStore.GetDHTKey, CCryptoKeyStore.IsCrypted, hc, Bool.not_true,
      Bool.false_eq_true, if_false]
    cases hfind : mapFind s.mapCryptedDHTKeys address with
    | none => rfl
    | some r => exact DecryptKeyEd25519_bad_key env [] _ _ _ hbad
  · intro address vchPubKeyOut
    simp only [CCryptoKeyStore.GetPubKey, CCryptoKeyStore.IsCrypted, hc, Bool.not_true,
      Bool.false_eq_true, if_false]
    cases hfind : mapFind s.mapCryptedKeys address with
    | none =>
      simp [CCryptoKeyStore.basicGetPubKey, CCryptoKeyStore.GetKey, CCryptoKeyStore.IsCrypted,
        hc, hfind]
    | some r => rfl
  · intro address vchPubKeyOut r hfind
    simp [CCryptoKeyStore.GetPubKey, CCryptoKeyStore.IsCrypted, hc, hfind]
  · intro address vchPubKeyOut watched hfind hw
    simp [CCryptoKeyStore.GetPubKey, CCryptoKeyStore.basicGetPubKey, CCryptoKeyStore.GetKey,
      CCryptoKeyStore.IsCrypted, hc, hfind, hw]

set_option maxRecDepth 20000 in
theorem locked_store_reads_witness :
    ((run refPrims CCryptoKeyStore.new opsUnlocked).Lock false).1 = true ∧
    (∀ (address : CKeyID) (keyOut : CKey),
      ((run refPrims CCryptoKeyStore.new opsUnlocked).Lock false).2.GetKey refPrims address
        keyOut = (false, keyOut)) ∧
    (∀ (address : CKeyID) (keyOut : CKeyEd25519),
      ((run refPrims CCryptoKeyStore.new opsUnlocked).Lock false).2.GetDHTKey refPrims address
        keyOut = (false, keyOut)) ∧
    (∀ (address : CKeyID) (vchPubKeyOut : CPubKey),
      ((run refPrims CCryptoKeyStore.new opsUnlocked).Lock false).2.GetPubKey refPrims address
        vchPubKeyOut
        = (run refPrims CCryptoKeyStore.new opsUnlocked).GetPubKey refPrims address
          vchPubKeyOut) :=
  ⟨(locked_store_reads refPrims (run refPrims CCryptoKeyStore.new opsUnlocked)
      (by decide)).1,
   (locked_store_reads refPrims (run refPrims CCryptoKeyStore.new opsUnlocked)
      (by decide)).2.1,
   (locked_store_reads refPrims (run refPrims CCryptoKeyStore.new opsUnlocked)
      (by decide)).2.2.1,
   (locked_store_reads refPrims (run refPrims CCryptoKeyStore.new opsUnlocked)
      (by decide)).2.2.2.1⟩

/-- C19. For every store in Encrypted mode with no resident master key, `AddKeyPubKey` and
`AddDHTKey` return failure for every key and leave the whole store, every plaintext and
encrypted map of both families included, unchanged. -/
theorem add_key_locked (env : Prims) (s : CCryptoKeyStore) (hc : s.fUseCrypto = true)
    (hm : s.vMasterKey = []) (key : CKey) (pubkey : CPubKey) (dhtKey : CKeyEd25519)
    (dhtPubkey : Bytes) :
    s.AddKeyPubKey env key pubkey = (false, s) ∧
    s.AddDHTKey env dhtKey dhtPubkey = (false, s) := by
  constructor
  · simp [CCryptoKeyStore.AddKeyPubKey, CCryptoKeyStore.IsCrypted, CCryptoKeyStore.IsLocked,
      hc, hm]
  · simp [CCryptoKeyStore.AddDHTKey, CCryptoKeyStore.IsCrypted, CCryptoKeyStore.IsLocked,
      hc, hm]

theorem add_key_locked_witness :
    (run refPrims CCryptoKeyStore.new opsMigrate).AddKeyPubKey refPrims refKeyC
        (refPrims.keyGetPubKey refKeyC)
      = (false, run refPrims CCryptoKeyStore.new opsMigrate) ∧
    (run refPrims CCryptoKeyStore.new opsMigrate).AddDHTKey refPrims refKeyD refKeyD.publicKey
      = (false, run refPrims CCryptoKeyStore.new opsMigrate) :=
  add_key_locked refPrims (run refPrims CCryptoKeyStore.new opsMigrate) (by decide) (by decide)
    refKeyC (refPrims.keyGetPubKey refKeyC) refKeyD refKeyD.publicKey

/-- C20. Add-then-get gives the same results on an encrypted store as on a Plain store.
On a store in Encrypted mode with a 32-byte master key resident, for a standard key `k`
with public key `pub`: `AddKeyPubKey(k, pub)` succeeds, leaves the plaintext map as it was,
and then `GetKey(KeyID(pub))` returns `k` and `GetPubKey(KeyID(pub))` returns `pub`; for an
identity key with public key `dhtPub`: `AddDHTKey` succeeds, leaves the plaintext map as it
was, and then `GetDHTKey(KeyID(dhtPub))` returns the key. On a store in Plain mode the same
calls give the same results. Assumed: the cipher round trip, that `k` is a 32-byte key
that derives `pub`, is rebuilt from its bytes and verifies against `pub`, and that the
identity key has a 64-byte seed and is determined by it. -/
theorem add_then_get (env : Prims) (hs : env.CipherSound) (s p : CCryptoKeyStore)
    (hc : s.fUseCrypto = true) (hM : s.vMasterKey.length = WALLET_CRYPTO_KEY_SIZE)
    (hp : p.fUseCrypto = false)
    (k : CKey) (pub : CPubKey) (dhtKey : CKeyEd25519) (dhtPub : Bytes)
    (hpub : env.keyGetPubKey k = pub) (hlen : k.vch.length = 32)
    (hset : env.keySet k.vch (env.pubIsCompressed pub) = k)
    (hver : env.keyVerifyPubKey k pub = true)
    (hdpub : dhtKey.publicKey = dhtPub) (hdlen : dhtKey.seed.length = 64)
    (hd : env.edFromSeed dhtKey.seed = dhtKey) :
    ((s.AddKeyPubKey env k pub).1 = true ∧
      (s.AddKeyPubKey env k pub).2.mapKeys = s.mapKeys ∧
      (∀ out : CKey, (s.AddKeyPubKey env k pub).2.GetKey env (pub.GetID env) out = (true, k)) ∧
      (∀ out : CPubKey,
        (s.AddKeyPubKey env k pub).2.GetPubKey env (pub.GetID env) out = (true, pub))) ∧
    ((s.AddDHTKey env dhtKey dhtPub).1 = true ∧
      (s.AddDHTKey env dhtKey dhtPub).2.mapDHTKeys = s.mapDHTKeys ∧
      (∀ out : CKeyEd25519,
        (s.AddDHTKey env dhtKey dhtPub).2.GetDHTKey env (env.Hash160 dhtPub) out
          = (true, dhtKey))) ∧
    ((p.AddKeyPubKey env k pub).1 = true ∧
      (∀ out : CKey, (p.AddKeyPubKey env k pub).2.GetKey env (pub.GetID env) out = (true, k)) ∧
      (∀ out : CPubKey,
        (p.AddKeyPubKey env k pub).2.GetPubKey env (pub.GetID env) out = (true, pub))) ∧
    ((p.AddDHTKey env dhtKey dhtPub).1 = true ∧
      (∀ out : CKeyEd25519,
        (p.AddDHTKey env dhtKey dhtPub).2.GetDHTKey env (env.Hash160 dhtPub) out
          = (true, dhtKey))) := by
  subst hpub hdpub
  have hne : s.vMasterKey.isEmpty = false := by
    cases hv : s.vMasterKey with
    | nil => rw [hv] at hM; exact absurd hM (by decide)
    | cons a l => rfl
  have hsc := CCryptoKeyStore.SetCrypted_of_crypted s hc
  have heA := EncryptSecret_DecryptSecret env hs s.vMasterKey hM k.vch
    ((env.keyGetPubKey k).GetHash env) []
  have heB := EncryptSecret_DecryptSecret env hs s.vMasterKey hM dhtKey.seed
    (dhtKey.GetHash env) []
  have hA := DecryptKey_cryptedRecord env hs s.vMasterKey hM k hlen hset hver
  have hB := DecryptKeyEd25519_cryptedDHTRecord env hs s.vMasterKey hM dhtKey hdlen hd
  have haddA : s.AddKeyPubKey env k (env.keyGetPubKey k) = (true, { s with mapCryptedKeys :=
      (mapSet s.mapCryptedKeys (cryptedRecord env s.vMasterKey k).1
        (cryptedRecord env s.vMasterKey k).2) }) := by
    simp [CCryptoKeyStore.AddKeyPubKey, CCryptoKeyStore.IsCrypted, CCryptoKeyStore.IsLocked,
      hc, hne, heA.1, CCryptoKeyStore.AddCryptedKey, hsc, cryptedRecord]
  have haddB : s.AddDHTKey env dhtKey dhtKey.publicKey = (true, { s with mapCryptedDHTKeys :=
      (mapSet s.mapCryptedDHTKeys (cryptedDHTRecord env s.vMasterKey dhtKey).1
        (cryptedDHTRecord env s.vMasterKey dhtKey).2) }) := by
    simp [CCryptoKeyStore.AddDHTKey, CCryptoKeyStore.IsCrypted, CCryptoKeyStore.IsLocked,
      hc, hne, heB.1, CCryptoKeyStore.AddCryptedDHTKey, hsc, cryptedDHTRecord]
  refine ⟨?_, ?_, ?_, ?_⟩
  · rw [haddA]
    refine ⟨rfl, rfl, fun out => ?_, fun out => ?_⟩
    · simp only [CCryptoKeyStore.GetKey, CCryptoKeyStore.IsCrypted, hc, Bool.not_true,
        Bool.false_eq_true, if_false, mapFind_mapSet]
      simp only [cryptedRecord, CPubKey.GetID, if_true]
      exact hA out
    · simp only [CCryptoKeyStore.GetPubKey, CCryptoKeyStore.IsCrypted, hc, Bool.not_true,
        Bool.false_eq_true, if_false, mapFind_mapSet]
      simp [cryptedRecord, CPubKey.GetID]
  · rw [haddB]
    refine ⟨rfl, rfl, fun out => ?_⟩
    simp only [CCryptoKeyStore.GetDHTKey, CCryptoKeyStore.IsCrypted, hc, Bool.not_true,
      Bool.false_eq_true, if_false, mapFind_mapSet]
    simp only [cryptedDHTRecord, if_true]
    exact hB out
  · simp [CCryptoKeyStore.AddKeyPubKey, CCryptoKeyStore.IsCrypted, hp,
      CCryptoKeyStore.basicAddKeyPubKey, CCryptoKeyStore.GetKey, CCryptoKeyStore.basicGetKey,
      CCryptoKeyStore.GetPubKey, CCryptoKeyStore.basicGetPubKey, mapFind_mapSet]
  · simp [CCryptoKeyStore.AddDHTKey, CCryptoKeyStore.IsCrypted, hp,
      CCryptoKeyStore.basicAddDHTKey, CCryptoKeyStore.GetDHTKey,
      CCryptoKeyStore.basicGetDHTKey, mapFind_mapSet]

set_option maxRecDepth 20000 in
theorem add_then_get_witness :
    ((run refPrims CCryptoKeyStore.new opsUnlocked).AddKeyPubKey refPrims refKeyC
        (refPrims.keyGetPubKey refKeyC)).1 = true ∧
    ((run refPrims CCryptoKeyStore.new opsUnlocked).AddKeyPubKey refPrims refKeyC
        (refPrims.keyGetPubKey refKeyC)).2.mapKeys
      = (run refPrims CCryptoKeyStore.new opsUnlocked).mapKeys ∧
    (∀ out : CKey,
      ((run refPrims CCryptoKeyStore.new opsUnlocked).AddKeyPubKey refPrims refKeyC
        (refPrims.keyGetPubKey refKeyC)).2.GetKey refPrims
          ((refPrims.keyGetPubKey refKeyC).GetID refPrims) out = (true, refKeyC)) ∧
    (∀ out : CPubKey,
      ((run refPrims CCryptoKeyStore.new opsUnlocked).AddKeyPubKey refPrims refKeyC
        (refPrims.keyGetPubKey refKeyC)).2.GetPubKey refPrims
          ((refPrims.keyGetPubKey refKeyC).GetID refPrims) out
        = (true, refPrims.keyGetPubKey refKeyC)) :=
  (add_then_get refPrims refPrims_cipherSound (run refPrims CCryptoKeyStore.new opsUnlocked)
    CCryptoKeyStore.new (by decide) (by decide) rfl refKeyC (refPrims.keyGetPubKey refKeyC)
    refKeyD refKeyD.publicKey rfl rfl rfl rfl rfl rfl rfl).1

/-! ## The HD chain -/

set_option maxRecDepth 20000 in
/-- C21, as stated, fails: on an encrypted store whose crypted chain is already present
and whose plaintext chain (cleared by the earlier encryption) has an id that differs from
the hash of its seed, `EncryptHDChain` returns success, not failure. -/
theorem EncryptHDChain_success_despite_mismatch :
    (run refPrims CCryptoKeyStore.new opsUnlockedWithChain).fUseCrypto = true ∧
    (run refPrims CCryptoKeyStore.new opsUnlockedWithChain).hdChain.id ≠
      (run refPrims CCryptoKeyStore.new opsUnlockedWithChain).hdChain.GetSeedHash refPrims ∧
    (run refPrims CCryptoKeyStore.new opsUnlockedWithChain).cryptedHDChain.IsNull = false ∧
    ((run refPrims CCryptoKeyStore.new opsUnlockedWithChain).EncryptHDChain refPrims
      refMasterKey).1 = true := by
  decide

/-- C21, amended. `EncryptHDChain(M)` encrypts only when it is permitted: if the store is
in Plain mode it returns failure; if an encrypted chain is already present (the crypted
chain is non-null or marked crypted) it returns success; otherwise, if the plaintext
chain's id differs from the hash of its seed, it returns failure; and in each of these
cases the store, in particular `hdChain` and `cryptedHDChain`, is left exactly as it
was. -/
theorem EncryptHDChain_guards (env : Prims) (s : CCryptoKeyStore) (M : Bytes) :
    (s.fUseCrypto = false → s.EncryptHDChain env M = (false, s)) ∧
    (s.fUseCrypto = true → (s.cryptedHDChain.IsNull = false ∨ s.cryptedHDChain.fCrypted = true) →
      s.EncryptHDChain env M = (true, s)) ∧
    (s.fUseCrypto = true → s.cryptedHDChain.IsNull = true → s.cryptedHDChain.fCrypted = false →
      s.hdChain.id ≠ s.hdChain.GetSeedHash env → s.EncryptHDChain env M = (false, s)) := by
  refine ⟨fun hp => ?_, fun hc hpres => ?_, fun hc hn hf hid => ?_⟩
  · simp [CCryptoKeyStore.EncryptHDChain, CCryptoKeyStore.IsCrypted, hp]
  · unfold CCryptoKeyStore.EncryptHDChain
    simp only [CCryptoKeyStore.IsCrypted, hc, Bool.not_true, Bool.false_eq_true, if_false]
    rcases hpres with h | h
    · simp [h]
    · cases hn : s.cryptedHDChain.IsNull <;> simp [hn, h]
  · unfold CCryptoKeyStore.EncryptHDChain
    simp only [CCryptoKeyStore.IsCrypted, hc, hn, hf, Bool.not_true, Bool.false_eq_true,
      if_false]
    rw [if_pos hid]

set_option maxRecDepth 20000 in
theorem EncryptHDChain_guards_witness :
    (run refPrims CCryptoKeyStore.new opsUnlockedWithChain).EncryptHDChain refPrims [1, 2]
      = (true, run refPrims CCryptoKeyStore.new opsUnlockedWithChain) :=
  (EncryptHDChain_guards refPrims (run refPrims CCryptoKeyStore.new opsUnlockedWithChain)
    [1, 2]).2.1 (by decide) (Or.inl (by decide))

namespace CCryptoKeyStore

/-- The mnemonic block of `DecryptHDChain` changes the mnemonic and the passphrase of the
output chain only. -/
theorem decryptHDChainMnemonic_frame (env : Prims) (s : CCryptoKeyStore) (c : CHDChain) :
    (s.decryptHDChainMnemonic env c).2.id = c.id ∧
    (s.decryptHDChainMnemonic env c).2.vchSeed = c.vchSeed ∧
    (s.decryptHDChainMnemonic env c).2.fCrypted = c.fCrypted := by
  unfold decryptHDChainMnemonic
  simp only []
  split_ifs <;> simp [CHDChain.SetMnemonic]

/-- The chain `DecryptHDChain` hands back with success on a store in Encrypted mode: not
marked crypted, with the id of the crypted chain, and with a seed whose hash is that
id. -/
theorem DecryptHDChain_result (env : Prims) (s : CCryptoKeyStore) (ret : CHDChain)
    (hc : s.fUseCrypto = true) (h : (s.DecryptHDChain env ret).1 = true) :
    (s.DecryptHDChain env ret).2.fCrypted = false ∧
    (s.DecryptHDChain env ret).2.id = s.cryptedHDChain.id ∧
    env.Hash (s.DecryptHDChain env ret).2.vchSeed = s.cryptedHDChain.id := by
  obtain ⟨h1, h2, h3, h4⟩ := DecryptHDChain_success env s ret hc h
  have hfr := decryptHDChainMnemonic_frame env s (CHDChain.SetSeed env s.cryptedHDChain
    (DecryptSecret env s.vMasterKey s.cryptedHDChain.vchSeed s.cryptedHDChain.id []).2 false).2
  revert h
  unfold DecryptHDChain
  simp only [IsCrypted, hc, h1, h2, h3, Bool.not_true, Bool.false_eq_true, if_false]
  split_ifs
  · simp
  · simp
  · simp
  · intro _
    refine ⟨rfl, ?_, ?_⟩
    · simp only [hfr.1]
      rfl
    · simp only [hfr.2.1]
      exact h4

end CCryptoKeyStore

/-- C23, as stated, fails: on a store in Plain mode `DecryptHDChain` returns success and
hands back the output argument as the caller passed it, here a chain marked crypted. -/
theorem DecryptHDChain_plain_returns_argument :
    CCryptoKeyStore.new.DecryptHDChain refPrims { refChain with fCrypted := true }
      = (true, { refChain with fCrypted := true }) := by
  decide

/-- C23, amended. For every store in Encrypted mode and every initial content of the
output argument: whenever `DecryptHDChain` returns success, the chain it hands back is
marked not-crypted, has the stored chain id, and the hash of its seed equals that id; and
when the seed fails to decrypt, or decrypts to a seed whose hash differs from the stored
id, `DecryptHDChain` does not return success. On a store in Plain mode `DecryptHDChain`
returns success and leaves the output argument as it was. -/
theorem DecryptHDChain_postcondition (env : Prims) (s : CCryptoKeyStore) (ret : CHDChain) :
    (s.fUseCrypto = true → (s.DecryptHDChain env ret).1 = true →
      (s.DecryptHDChain env ret).2.fCrypted = false ∧
      (s.DecryptHDChain env ret).2.id = s.cryptedHDChain.id ∧
      env.Hash (s.DecryptHDChain env ret).2.vchSeed = s.cryptedHDChain.id) ∧
    (s.fUseCrypto = true →
      ((DecryptSecret env s.vMasterKey s.cryptedHDChain.vchSeed s.cryptedHDChain.id []).1
          = false ∨
        env.Hash (DecryptSecret env s.vMasterKey s.cryptedHDChain.vchSeed
          s.cryptedHDChain.id []).2 ≠ s.cryptedHDChain.id) →
      (s.DecryptHDChain env ret).1 = false) ∧
    (s.fUseCrypto = false → s.DecryptHDChain env ret = (true, ret)) := by
  refine ⟨fun hc h => CCryptoKeyStore.DecryptHDChain_result env s ret hc h,
    fun hc hbad => ?_, fun hp => ?_⟩
  · cases h : (s.DecryptHDChain env ret).1
    · rfl
    · obtain ⟨_, _, h3, h4⟩ := CCryptoKeyStore.DecryptHDChain_success env s ret hc h
      rcases hbad with hb | hb
      · rw [h3] at hb; exact absurd hb (by simp)
      · exact absurd h4 hb
  · simp [CCryptoKeyStore.DecryptHDChain, CCryptoKeyStore.IsCrypted, hp]

set_option maxRecDepth 20000 in
theorem DecryptHDChain_postcondition_witness :
    ((run refPrims CCryptoKeyStore.new opsUnlockedWithChain).DecryptHDChain refPrims
      CHDChain.null).2.fCrypted = false ∧
    ((run refPrims CCryptoKeyStore.new opsUnlockedWithChain).DecryptHDChain refPrims
      CHDChain.null).2.id
      = (run refPrims CCryptoKeyStore.new opsUnlockedWithChain).cryptedHDChain.id ∧
    refPrims.Hash ((run refPrims CCryptoKeyStore.new opsUnlockedWithChain).DecryptHDChain
      refPrims CHDChain.null).2.vchSeed
      = (run refPrims CCryptoKeyStore.new opsUnlockedWithChain).cryptedHDChain.id :=
  (DecryptHDChain_postcondition refPrims (run refPrims CCryptoKeyStore.new opsUnlockedWithChain)
    CHDChain.null).1 (by decide) (by decide)

/-- With sound cipher stages and a 32-byte master key, the ciphertext `EncryptSecret`
gives is at least as long as the plaintext. -/
theorem EncryptSecret_length (env : Prims) (hs : env.CipherSound) (M : Bytes)
    (hM : M.length = WALLET_CRYPTO_KEY_SIZE) (P nIV out : Bytes) :
    P.length ≤ (EncryptSecret env M P nIV out).2.length := by
  obtain ⟨hctx, hst⟩ := hs
  obtain ⟨hei, hdi, u, f, hu, hf, hlen, u1, f1, hu1, hf1, hlen1, hP⟩ :=
    hst M (ivOf nIV) P hM (ivOf_length nIV)
  have he : EncryptSecret env M P nIV out = (true, u ++ f) := by
    unfold EncryptSecret
    simp only [SetKey_new M (ivOf nIV) hM (ivOf_length nIV), Bool.not_true, Bool.false_eq_true,
      if_false]
    exact encrypt_of_stages env _ P out u f rfl hctx hei hu hf hlen
  rw [he, ← hP]
  simpa using hlen1

theorem EncryptSecret_isEmpty (env : Prims) (hs : env.CipherSound) (M : Bytes)
    (hM : M.length = WALLET_CRYPTO_KEY_SIZE) (P nIV out : Bytes) (hP : P.isEmpty = false) :
    (EncryptSecret env M P nIV out).2.isEmpty = false := by
  have h := EncryptSecret_length env hs M hM P nIV out
  cases hc : (EncryptSecret env M P nIV out).2 with
  | nil =>
    rw [hc] at h
    cases P with
    | nil => simp at hP
    | cons a l => simp at h
  | cons a l => rfl

theorem CHDChain.IsNull_false (c : CHDChain) (h : c.IsNull = false) :
    c.vchSeed.isEmpty = false ∧ c.id.all (fun b => b == 0) = false := by
  unfold CHDChain.IsNull at h
  simpa [Bool.or_eq_false_iff] using h

theorem CHDChain.IsNull_mk (id : Bytes) (f : Bool) (seed m pp : Bytes) :
    (CHDChain.mk id f seed m pp).IsNull = (seed.isEmpty || id.all (fun b => b == 0)) := rfl

namespace CCryptoKeyStore

/-- `EncryptHDChain` on an encrypted store that holds a self-consistent plaintext chain
and no crypted chain, with sound cipher stages and a 32-byte master key: success, the
crypted chain is `encryptedChain` of the plaintext chain, the plaintext chain is cleared. -/
theorem EncryptHDChain_success (env : Prims) (hs : env.CipherSound) (s : CCryptoKeyStore)
    (M : Bytes) (hM : M.length = WALLET_CRYPTO_KEY_SIZE) (hc : s.fUseCrypto = true)
    (hn : s.cryptedHDChain.IsNull = true) (hf : s.cryptedHDChain.fCrypted = false)
    (hhold : s.hdChain.IsNull = false) (hid : s.hdChain.id = s.hdChain.GetSeedHash env) :
    s.EncryptHDChain env M = (true,
      { s with cryptedHDChain := encryptedChain env M s.hdChain, hdChain := CHDChain.null }) := by
  obtain ⟨hseed, hidnz⟩ := CHDChain.IsNull_false s.hdChain hhold
  have hes := (EncryptSecret_DecryptSecret env hs M hM s.hdChain.vchSeed s.hdChain.id []).1
  have hcs := EncryptSecret_isEmpty env hs M hM s.hdChain.vchSeed s.hdChain.id [] hseed
  have hnull : CHDChain.null.IsNull = true := by decide
  unfold EncryptHDChain
  simp only [IsCrypted, hc, hn, hf, Bool.not_true, Bool.false_eq_true, if_false]
  rw [if_neg (not_not.2 hid)]
  simp only [hes, Bool.not_true, Bool.false_eq_true, if_false, CHDChain.SetSeed,
    CHDChain.IsNull_mk, hcs, hidnz, Bool.or_self, Bool.not_false]
  unfold encryptHDChainMnemonic
  simp only [CHDChain.GetMnemonic, CHDChain.SetNull, hnull]
  cases hm : s.hdChain.vchMnemonic.isEmpty
  · have hem := (EncryptSecret_DecryptSecret env hs M hM s.hdChain.vchMnemonic
      s.hdChain.id []).1
    cases hp : s.hdChain.vchMnemonicPassphrase.isEmpty
    · have hep := (EncryptSecret_DecryptSecret env hs M hM s.hdChain.vchMnemonicPassphrase
        s.hdChain.id []).1
      simp only [hm, hp, hem, hep, CHDChain.SetMnemonic, CHDChain.IsNull_mk, hcs, hidnz,
        encryptedChain, Bool.not_true, Bool.false_eq_true, if_false, Bool.not_false, if_true,
        Bool.or_self]
    · simp only [hm, hp, hem, CHDChain.SetMnemonic, CHDChain.IsNull_mk, hcs, hidnz,
        encryptedChain, Bool.not_true, Bool.false_eq_true, if_false, Bool.not_false, if_true,
        Bool.or_self]
  · simp only [hm, encryptedChain, Bool.false_eq_true, if_false, if_true, Bool.not_true]

/-- `DecryptHDChain` under the master key that built `encryptedChain` gives the plaintext
chain back, marked not-crypted. -/
theorem DecryptHDChain_encryptedChain (env : Prims) (hs : env.CipherSound)
    (t : CCryptoKeyStore) (M : Bytes) (hM : M.length = WALLET_CRYPTO_KEY_SIZE) (c : CHDChain)
    (hc : t.fUseCrypto = true) (hk : t.vMasterKey = M)
    (hch : t.cryptedHDChain = encryptedChain env M c)
    (hhold : c.IsNull = false) (hid : c.id = c.GetSeedHash env) (ret : CHDChain) :
    t.DecryptHDChain env ret = (true, { c with fCrypted := false }) := by
  obtain ⟨hseed, hidnz⟩ := CHDChain.IsNull_false c hhold
  have hds := (EncryptSecret_DecryptSecret env hs M hM c.vchSeed c.id []).2 []
  have hcs := EncryptSecret_isEmpty env hs M hM c.vchSeed c.id [] hseed
  have hid1 : env.Hash c.vchSeed = c.id := hid.symm
  unfold DecryptHDChain
  simp only [IsCrypted, hc, hk, hch, encryptedChain, CHDChain.IsNull_mk, hcs, hidnz, hds,
    Bool.not_true, Bool.false_eq_true, if_false, Bool.or_self, CHDChain.SetSeed, hseed,
    Bool.not_false, CHDChain.GetSeedHash, hid1, ne_eq, not_true_eq_false]
  unfold decryptHDChainMnemonic
  simp only [hk, hch, encryptedChain, CHDChain.GetMnemonic]
  cases hm : c.vchMnemonic.isEmpty
  · have hdm := (EncryptSecret_DecryptSecret env hs M hM c.vchMnemonic c.id []).2 []
    have hcm := EncryptSecret_isEmpty env hs M hM c.vchMnemonic c.id [] hm
    cases hp : c.vchMnemonicPassphrase.isEmpty
    · have hdp := (EncryptSecret_DecryptSecret env hs M hM c.vchMnemonicPassphrase c.id []).2 []
      have hcp := EncryptSecret_isEmpty env hs M hM c.vchMnemonicPassphrase c.id [] hp
      simp [hm, hp, hcm, hcp, hdm, hdp, CHDChain.SetMnemonic, CHDChain.IsNull_mk, hseed, hidnz]
    · have hpe : c.vchMnemonicPassphrase = [] := List.isEmpty_iff.1 hp
      simp [hm, hp, hcm, hdm, CHDChain.SetMnemonic, CHDChain.IsNull_mk, hseed, hidnz, hpe]
  · have hme : c.vchMnemonic = [] := List.isEmpty_iff.1 hm
    simp [hm, hme]

end CCryptoKeyStore

/-- C22. For every store in Encrypted mode holding a self-consistent plaintext HD chain
(non-null, `id == hash(seed)`) and no crypted chain, and every 32-byte master key `M`,
with sound cipher stages: `EncryptHDChain(M)` succeeds, the crypted chain is marked crypted
and keeps the id, the plaintext chain is cleared; and then, on any store in Encrypted mode
that holds this crypted chain with `M` resident as the master key, `DecryptHDChain`
succeeds and returns the original chain marked not-crypted: the seed, the mnemonic and the
mnemonic passphrase are identical to the originals. -/
theorem EncryptHDChain_DecryptHDChain (env : Prims) (hs : env.CipherSound)
    (s : CCryptoKeyStore) (M : Bytes) (hM : M.length = WALLET_CRYPTO_KEY_SIZE)
    (hc : s.fUseCrypto = true)
    (hn : s.cryptedHDChain.IsNull = true) (hf : s.cryptedHDChain.fCrypted = false)
    (hhold : s.hdChain.IsNull = false) (hid : s.hdChain.id = s.hdChain.GetSeedHash env) :
    ∃ s1 : CCryptoKeyStore, s.EncryptHDChain env M = (true, s1) ∧
      s1.cryptedHDChain.fCrypted = true ∧ s1.cryptedHDChain.id = s.hdChain.id ∧
      s1.hdChain = CHDChain.null ∧
      ∀ (t : CCryptoKeyStore) (ret : CHDChain), t.fUseCrypto = true → t.vMasterKey = M →
        t.cryptedHDChain = s1.cryptedHDChain →
        t.DecryptHDChain env ret = (true, { s.hdChain with fCrypted := false }) ∧
        (t.DecryptHDChain env ret).2.vchSeed = s.hdChain.vchSeed ∧
        (t.DecryptHDChain env ret).2.vchMnemonic = s.hdChain.vchMnemonic ∧
        (t.DecryptHDChain env ret).2.vchMnemonicPassphrase = s.hdChain.vchMnemonicPassphrase := by
  refine ⟨_, CCryptoKeyStore.EncryptHDChain_success env hs s M hM hc hn hf hhold hid, rfl, rfl,
    rfl, fun t ret htc htk hch => ?_⟩
  have h := CCryptoKeyStore.DecryptHDChain_encryptedChain env hs t M hM s.hdChain htc htk hch
    hhold hid ret
  rw [h]
  exact ⟨rfl, rfl, rfl, rfl⟩

set_option maxRecDepth 20000 in
theorem EncryptHDChain_DecryptHDChain_witness :
    ∃ s1 : CCryptoKeyStore,
      (run refPrims CCryptoKeyStore.new opsChainMigrated).EncryptHDChain refPrims refMasterKey
        = (true, s1) ∧
      s1.cryptedHDChain.fCrypted = true ∧
      s1.cryptedHDChain.id = (run refPrims CCryptoKeyStore.new opsChainMigrated).hdChain.id ∧
      s1.hdChain = CHDChain.null ∧
      ∀ (t : CCryptoKeyStore) (ret : CHDChain), t.fUseCrypto = true →
        t.vMasterKey = refMasterKey → t.cryptedHDChain = s1.cryptedHDChain →
        t.DecryptHDChain refPrims ret
          = (true, { (run refPrims CCryptoKeyStore.new opsChainMigrated).hdChain with
              fCrypted := false }) ∧
        (t.DecryptHDChain refPrims ret).2.vchSeed
          = (run refPrims CCryptoKeyStore.new opsChainMigrated).hdChain.vchSeed ∧
        (t.DecryptHDChain refPrims ret).2.vchMnemonic
          = (run refPrims CCryptoKeyStore.new opsChainMigrated).hdChain.vchMnemonic ∧
        (t.DecryptHDChain refPrims ret).2.vchMnemonicPassphrase
          = (run refPrims CCryptoKeyStore.new opsChainMigrated).hdChain.vchMnemonicPassphrase :=
  EncryptHDChain_DecryptHDChain refPrims refPrims_cipherSound
    (run refPrims CCryptoKeyStore.new opsChainMigrated) refMasterKey rfl (by decide)
    (by decide) (by decide) (by decide) (by decide)

/-! ## `Unlock`: scan order -/

/-- With the thoroughly-checked flag set, the first loop of `Unlock` calls `DecryptKey` on
the first record with non-empty ciphertext only. -/
theorem unlockScannedKeys_thorough (env : Prims) (K : Bytes)
    (l : List (CKeyID × (CPubKey × Bytes))) :
    unlockScannedKeys env K true l
      = (l.find? (fun r => decide (r.2.2.length > 0))).toList := by
  induction l with
  | nil => rfl
  | cons r rest ih =>
    unfold unlockScannedKeys
    by_cases hct : r.2.2.length > 0
    · simp [hct, List.find?]
    · simp [hct, List.find?, ih]

/-- With the thoroughly-checked flag set, the second loop of `Unlock` calls `DecryptKey` on
the first identity record only. -/
theorem unlockScannedDHTKeys_thorough (env : Prims) (K : Bytes)
    (l : List (CKeyID × (Bytes × Bytes))) :
    unlockScannedDHTKeys env K true l = l.head?.toList := by
  cases l with
  | nil => rfl
  | cons r rest =>
    unfold unlockScannedDHTKeys
    simp

/-- When the first standard record with non-empty ciphertext does not verify, it is the
only standard record `Unlock` scans. -/
theorem unlockScannedKeys_first_fails (env : Prims) (K : Bytes) (tc : Bool)
    (l : List (CKeyID × (CPubKey × Bytes))) (r : CKeyID × (CPubKey × Bytes))
    (hfirst : l.find? (fun r => decide (r.2.2.length > 0)) = some r)
    (hfail : keyVerifies env K r = false) :
    unlockScannedKeys env K tc l = [r] := by
  induction l with
  | nil => simp at hfirst
  | cons a rest ih =>
    unfold unlockScannedKeys
    by_cases hct : a.2.2.length > 0
    · simp only [List.find?, hct, decide_True, Option.some.injEq] at hfirst
      subst hfirst
      simp [hct, hfail]
    · simp only [List.find?, hct, decide_False] at hfirst
      simp only [hct, if_false]
      exact ih hfirst

/-- When no standard record has non-empty ciphertext, `Unlock` scans no standard record. -/
theorem unlockScannedKeys_all_empty (env : Prims) (K : Bytes) (tc : Bool)
    (l : List (CKeyID × (CPubKey × Bytes))) (h : ∀ r ∈ l, r.2.2.length = 0) :
    unlockScannedKeys env K tc l = [] := by
  induction l with
  | nil => rfl
  | cons a rest ih =>
    unfold unlockScannedKeys
    have ha := h a (List.mem_cons_self _ _)
    simp only [ha, gt_iff_lt, lt_self_iff_false, if_false]
    exact ih (fun r hr => h r (List.mem_cons_of_mem _ hr))

/-- With the thoroughly-checked flag not set, if no scanned standard record failed then
every standard record with non-empty ciphertext verified. -/
theorem all_keys_verified (env : Prims) (K : Bytes) (l : List (CKeyID × (CPubKey × Bytes)))
    (h : (unlockScannedKeys env K false l).any (fun r => !keyVerifies env K r) = false) :
    ∀ r ∈ l, r.2.2.length > 0 → keyVerifies env K r = true := by
  induction l with
  | nil => intro r hr; exact absurd hr (by simp)
  | cons a rest ih =>
    unfold unlockScannedKeys at h
    intro r hr hlen
    by_cases hct : a.2.2.length > 0
    · cases hv : keyVerifies env K a
      · simp [hct, hv] at h
      · simp only [hct, if_true, hv, Bool.not_true, Bool.false_eq_true, if_false,
          List.any_cons, Bool.false_or] at h
        rcases List.mem_cons.1 hr with rfl | hr
        · exact hv
        · exact ih h r hr hlen
    · simp only [hct, if_false] at h
      rcases List.mem_cons.1 hr with rfl | hr
      · exact absurd hlen hct
      · exact ih h r hr hlen

/-- With the thoroughly-checked flag not set, if no scanned identity record failed then
every identity record verified. -/
theorem all_dhtKeys_verified (env : Prims) (K : Bytes) (l : List (CKeyID × (Bytes × Bytes)))
    (h : (unlockScannedDHTKeys env K false l).any (fun r => !dhtKeyVerifies env K r) = false) :
    ∀ r ∈ l, dhtKeyVerifies env K r = true := by
  induction l with
  | nil => intro r hr; exact absurd hr (by simp)
  | cons a rest ih =>
    unfold unlockScannedDHTKeys at h
    intro r hr
    cases hv : dhtKeyVerifies env K a
    · simp [hv] at h
    · simp only [hv, Bool.not_true, Bool.false_eq_true, if_false, List.any_cons,
        Bool.false_or] at h
      rcases List.mem_cons.1 hr with rfl | hr
      · exact hv
      · exact ih h r hr

/-- When no identity record verifies, the second loop of `Unlock` does not set
`keyPass`. -/
theorem unlockScannedDHTKeys_none_verifies (env : Prims) (K : Bytes) (tc : Bool)
    (l : List (CKeyID × (Bytes × Bytes))) (h : ∀ r ∈ l, dhtKeyVerifies env K r = false) :
    (unlockScannedDHTKeys env K tc l).any (dhtKeyVerifies env K) = false := by
  cases l with
  | nil => rfl
  | cons a rest =>
    unfold unlockScannedDHTKeys
    simp [h a (List.mem_cons_self _ _)]

namespace CCryptoKeyStore

/-- `DecryptHDChain` reads the mode flag, the crypted chain and the master key only. -/
theorem DecryptHDChain_congr (env : Prims) (s t : CCryptoKeyStore) (ret : CHDChain)
    (h1 : s.fUseCrypto = t.fUseCrypto) (h2 : s.cryptedHDChain = t.cryptedHDChain)
    (h3 : s.vMasterKey = t.vMasterKey) : s.DecryptHDChain env ret = t.DecryptHDChain env ret := by
  unfold DecryptHDChain decryptHDChainMnemonic IsCrypted
  rw [h1, h2, h3]

/-- The HD-chain check of `Unlock` reads the mode flag and the crypted chain only. -/
theorem unlockChainPass_congr (env : Prims) (s t : CCryptoKeyStore) (K : Bytes)
    (h1 : s.fUseCrypto = t.fUseCrypto) (h2 : s.cryptedHDChain = t.cryptedHDChain) :
    s.unlockChainPass env K = t.unlockChainPass env K := by
  unfold unlockChainPass
  rw [DecryptHDChain_congr env { s with vMasterKey := K } { t with vMasterKey := K }
    CHDChain.null h1 h2 rfl, h2]

end CCryptoKeyStore

/-- C24. With the thoroughly-checked flag set, `Unlock` scans in each family only up to
its first decryption, so its result does not depend on later records: for two encrypted
stores that agree on the first standard record with non-empty ciphertext, on the first
identity record and on the crypted HD chain, whatever the other records hold, `Unlock`
with the same master key returns the same result; and it returns success when those first
records verify and the chain check passes. -/
theorem Unlock_short_circuit (env : Prims) (s t : CCryptoKeyStore) (K : Bytes) (f g : Bool)
    (hs : s.fUseCrypto = true) (ht : t.fUseCrypto = true)
    (hfs : s.fDecryptionThoroughlyChecked = true) (hft : t.fDecryptionThoroughlyChecked = true)
    (hstd : s.mapCryptedKeys.find? (fun r => decide (r.2.2.length > 0))
      = t.mapCryptedKeys.find? (fun r => decide (r.2.2.length > 0)))
    (hdht : s.mapCryptedDHTKeys.head? = t.mapCryptedDHTKeys.head?)
    (hch : s.cryptedHDChain = t.cryptedHDChain) :
    (s.Unlock env K f).1 = (t.Unlock env K g).1 ∧
    ((∀ r1, s.mapCryptedKeys.find? (fun r => decide (r.2.2.length > 0)) = some r1 →
        keyVerifies env K r1 = true) →
      (∀ r2, s.mapCryptedDHTKeys.head? = some r2 → dhtKeyVerifies env K r2 = true) →
      ((s.mapCryptedKeys.find? (fun r => decide (r.2.2.length > 0))).isSome = true ∨
        s.mapCryptedDHTKeys.head?.isSome = true ∨ s.cryptedHDChain.IsNull = false) →
      s.unlockChainPass env K = true →
      (s.Unlock env K f).1 = .success ∧ (t.Unlock env K g).1 = .success) := by
  have hscs := CCryptoKeyStore.SetCrypted_of_crypted s hs
  have hsct := CCryptoKeyStore.SetCrypted_of_crypted t ht
  have hflags : s.unlockKeyFlags env K = t.unlockKeyFlags env K := by
    unfold CCryptoKeyStore.unlockKeyFlags
    rw [unlockScanKeys_eq, unlockScanDHTKeys_eq, unlockScanKeys_eq, unlockScanDHTKeys_eq,
      hfs, hft, unlockScannedKeys_thorough, unlockScannedKeys_thorough,
      unlockScannedDHTKeys_thorough, unlockScannedDHTKeys_thorough, hstd, hdht]
  have hcp := CCryptoKeyStore.unlockChainPass_congr env s t K (by rw [hs, ht]) hch
  have hres : (s.Unlock env K f).1 = (t.Unlock env K g).1 := by
    rw [CCryptoKeyStore.Unlock_eq, CCryptoKeyStore.Unlock_eq, hscs, hsct]
    simp only [hflags, hcp, hch]
    split_ifs <;> rfl
  refine ⟨hres, fun hv1 hv2 hex hc => ?_⟩
  have hfl : (s.unlockKeyFlags env K).2 = false ∧
      ((s.unlockKeyFlags env K).1 = true ∨ s.cryptedHDChain.IsNull = false) := by
    unfold CCryptoKeyStore.unlockKeyFlags
    rw [unlockScanKeys_eq, unlockScanDHTKeys_eq, hfs, unlockScannedKeys_thorough,
      unlockScannedDHTKeys_thorough]
    cases h1 : s.mapCryptedKeys.find? (fun r => decide (r.2.2.length > 0)) with
    | none =>
      cases h2 : s.mapCryptedDHTKeys.head? with
      | none => simpa [h1, h2] using hex
      | some r2 => simp [hv2 r2 h2]
    | some r1 =>
      cases h2 : s.mapCryptedDHTKeys.head? with
      | none => simp [hv1 r1 h1]
      | some r2 => simp [hv1 r1 h1, hv2 r2 h2]
  have hsu : (s.Unlock env K f).1 = .success := by
    rw [CCryptoKeyStore.Unlock_eq, hscs]
    rcases hfl.2 with hp | hn
    · simp [hfl.1, hp, hc]
    · simp [hfl.1, hn, hc]
  exact ⟨hsu, by rw [← hres]; exact hsu⟩

set_option maxRecDepth 20000 in
theorem Unlock_short_circuit_witness :
    ((run refPrims CCryptoKeyStore.new opsTwoKeysChecked).Unlock refPrims refMasterKey false).1
      = ((run refPrims CCryptoKeyStore.new opsTwoKeysLaterTampered).Unlock refPrims
          refMasterKey false).1 :=
  (Unlock_short_circuit refPrims (run refPrims CCryptoKeyStore.new opsTwoKeysChecked)
    (run refPrims CCryptoKeyStore.new opsTwoKeysLaterTampered) refMasterKey false false
    (by decide) (by decide) (by decide) (by decide) (by decide) (by decide) (by decide)).1

/-- C25. When the thoroughly-checked flag is not yet set, `Unlock(K)` returns success only
if every standard record with non-empty ciphertext in `mapCryptedKeys` and every record in
`mapCryptedDHTKeys` decrypts under `K` to a private key matching the record's public key,
and the crypted HD chain, if present, has a seed that decrypts under `K` to a seed whose
hash is the chain id; standard records with empty ciphertext are not checked. -/
theorem Unlock_first_is_full (env : Prims) (s : CCryptoKeyStore) (K : Bytes) (f : Bool)
    (hflag : s.fDecryptionThoroughlyChecked = false)
    (h : (s.Unlock env K f).1 = .success) :
    (∀ r ∈ s.mapCryptedKeys, r.2.2.length > 0 → keyVerifies env K r = true) ∧
    (∀ r ∈ s.mapCryptedDHTKeys, dhtKeyVerifies env K r = true) ∧
    (s.cryptedHDChain.IsNull = false →
      (DecryptSecret env K s.cryptedHDChain.vchSeed s.cryptedHDChain.id []).1 = true ∧
      env.Hash (DecryptSecret env K s.cryptedHDChain.vchSeed s.cryptedHDChain.id []).2
        = s.cryptedHDChain.id) := by
  obtain ⟨hsc, hkf, _, hcp, _⟩ := CCryptoKeyStore.Unlock_success_cases env s K f h
  rw [CCryptoKeyStore.SetCrypted_fst_true s hsc] at hkf hcp
  unfold CCryptoKeyStore.unlockKeyFlags at hkf
  rw [unlockScanKeys_eq, unlockScanDHTKeys_eq] at hkf
  simp only [Bool.false_or, Bool.or_eq_false_iff, hflag] at hkf
  refine ⟨all_keys_verified env K _ hkf.1, all_dhtKeys_verified env K _ hkf.2, fun hnn => ?_⟩
  unfold CCryptoKeyStore.unlockChainPass at hcp
  simp only [hnn, Bool.not_false, if_true, Bool.and_eq_true] at hcp
  obtain ⟨_, _, h3, h4⟩ := CCryptoKeyStore.DecryptHDChain_success env
    { s with fUseCrypto := true, vMasterKey := K } CHDChain.null rfl hcp.1
  exact ⟨h3, h4⟩

set_option maxRecDepth 20000 in
theorem Unlock_first_is_full_witness :
    (∀ r ∈ (run refPrims CCryptoKeyStore.new opsMigrate).mapCryptedKeys,
      r.2.2.length > 0 → keyVerifies refPrims refMasterKey r = true) ∧
    (∀ r ∈ (run refPrims CCryptoKeyStore.new opsMigrate).mapCryptedDHTKeys,
      dhtKeyVerifies refPrims refMasterKey r = true) :=
  ⟨(Unlock_first_is_full refPrims (run refPrims CCryptoKeyStore.new opsMigrate) refMasterKey
      false (by decide) (by decide)).1,
   (Unlock_first_is_full refPrims (run refPrims CCryptoKeyStore.new opsMigrate) refMasterKey
      false (by decide) (by decide)).2.1⟩

/-- C26. Each family's scan stops at the first record that fails: on a reachable store, if
the first standard record with non-empty ciphertext (in map order) fails to decrypt under
the supplied key and no identity record decrypts (or none exists), `Unlock` returns the
ordinary failure result with the store unchanged, not the integrity-violation signal,
whatever the later standard records are, also when one of them would decrypt correctly. -/
theorem Unlock_first_failure_is_ordinary (env : Prims) (s : CCryptoKeyStore) (K : Bytes)
    (f : Bool) (r : CKeyID × (CPubKey × Bytes)) (hr : Reachable env s)
    (hfirst : s.mapCryptedKeys.find? (fun r => decide (r.2.2.length > 0)) = some r)
    (hfail : keyVerifies env K r = false)
    (hdht : ∀ r ∈ s.mapCryptedDHTKeys, dhtKeyVerifies env K r = false) :
    s.Unlock env K f = (.failure, s) := by
  have hc : s.fUseCrypto = true := by
    cases h : s.fUseCrypto
    · have := (Reachable.plain env s hr h).1
      rw [this] at hfirst
      simp at hfirst
    · rfl
  have hfl : s.unlockKeyFlags env K = (false, true) := by
    unfold CCryptoKeyStore.unlockKeyFlags
    rw [unlockScanKeys_eq, unlockScanDHTKeys_eq,
      unlockScannedKeys_first_fails env K _ _ r hfirst hfail,
      unlockScannedDHTKeys_none_verifies env K _ _ hdht]
    simp [hfail]
  rw [CCryptoKeyStore.Unlock_eq, CCryptoKeyStore.SetCrypted_of_crypted s hc]
  simp [hfl]

set_option maxRecDepth 20000 in
theorem Unlock_first_failure_is_ordinary_witness :
    (run refPrims CCryptoKeyStore.new opsTwoKeysFirstTampered).Unlock refPrims refMasterKey
      false = (.failure, run refPrims CCryptoKeyStore.new opsTwoKeysFirstTampered) ∧
    ∃ r ∈ (run refPrims CCryptoKeyStore.new opsTwoKeysFirstTampered).mapCryptedKeys,
      keyVerifies refPrims refMasterKey r = true :=
  ⟨Unlock_first_failure_is_ordinary refPrims
      (run refPrims CCryptoKeyStore.new opsTwoKeysFirstTampered) refMasterKey false
      ((refPrims.keyGetPubKey refKeyA).GetID refPrims, (refPrims.keyGetPubKey refKeyA, [1, 2, 3]))
      ⟨opsTwoKeysFirstTampered, rfl⟩ (by decide) (by decide) (by decide),
   by decide⟩

/-- C27. An encrypted store with nothing to verify cannot be unlocked: if no standard
record has non-empty ciphertext, no identity record exists and the crypted HD chain is
null, `Unlock` returns failure for every master key (a well-formed 32-byte one included)
and installs no master key: the store is left as it was. -/
theorem Unlock_nothing_to_verify (env : Prims) (s : CCryptoKeyStore) (K : Bytes) (f : Bool)
    (hc : s.fUseCrypto = true)
    (hstd : ∀ r ∈ s.mapCryptedKeys, r.2.2.length = 0)
    (hdht : s.mapCryptedDHTKeys = [])
    (hnull : s.cryptedHDChain.IsNull = true) :
    s.Unlock env K f = (.failure, s) ∧ (s.Unlock env K f).2.vMasterKey = s.vMasterKey := by
  have hfl : s.unlockKeyFlags env K = (false, false) := by
    unfold CCryptoKeyStore.unlockKeyFlags
    rw [unlockScanKeys_eq, unlockScanDHTKeys_eq,
      unlockScannedKeys_all_empty env K _ _ hstd, hdht]
    simp [unlockScannedDHTKeys]
  have : s.Unlock env K f = (.failure, s) := by
    rw [CCryptoKeyStore.Unlock_eq, CCryptoKeyStore.SetCrypted_of_crypted s hc]
    simp [hfl, hnull]
  rw [this]
  exact ⟨rfl, rfl⟩

theorem Unlock_nothing_to_verify_witness :
    (run refPrims CCryptoKeyStore.new opsEmptyMigrated).Unlock refPrims refMasterKey false
      = (.failure, run refPrims CCryptoKeyStore.new opsEmptyMigrated) ∧
    ((run refPrims CCryptoKeyStore.new opsEmptyMigrated).Unlock refPrims refMasterKey
      false).2.vMasterKey = (run refPrims CCryptoKeyStore.new opsEmptyMigrated).vMasterKey :=
  Unlock_nothing_to_verify refPrims (run refPrims CCryptoKeyStore.new opsEmptyMigrated)
    refMasterKey false (by decide) (by decide) (by decide) (by decide)

/-! ## `SetKeyFromPassphrase` with an unknown derivation method -/

theorem SetKeyFromPassphrase_other_method (env : Prims) (c : CCrypter)
    (strKeyData chSalt : Bytes) (nRounds nDerivationMethod : Nat)
    (hr : 1 ≤ nRounds) (hs : chSalt.length = WALLET_CRYPTO_SALT_SIZE)
    (hm : nDerivationMethod ≠ 0) :
    c.SetKeyFromPassphrase env strKeyData chSalt nRounds nDerivationMethod =
      (false, { vchKey := List.replicate c.vchKey.length 0
                vchIV := List.replicate c.vchIV.length 0
                fKeySet := c.fKeySet }) := by
  unfold CCrypter.SetKeyFromPassphrase
  rw [if_neg (by rw [not_or, not_not]; exact ⟨Nat.not_lt.2 hr, hs⟩)]
  simp only [if_neg hm]
  rw [if_pos (by decide)]

/-- C28. `SetKeyFromPassphrase` with at least one round and a salt of
`WALLET_CRYPTO_SALT_SIZE` bytes but a derivation method other than 0 returns `false`, leaves
the key and IV buffers filled with zeros and leaves `fKeySet` as it was. On a cipher that
had a key bound (in buffers of the fixed sizes, cipher stages meeting their contract),
`Encrypt` afterwards succeeds, and what it produces decrypts to the plaintext both on that
cipher and on a fresh one bound to the all-zero key and IV. A call rejected for
`nRounds < 1` or for the salt size returns `false` with the cipher untouched. -/
theorem SetKeyFromPassphrase_unknown_method (env : Prims) (c : CCrypter)
    (strKeyData chSalt : Bytes) (nRounds nDerivationMethod : Nat)
    (hr : 1 ≤ nRounds) (hs : chSalt.length = WALLET_CRYPTO_SALT_SIZE)
    (hm : nDerivationMethod ≠ 0) :
    (c.SetKeyFromPassphrase env strKeyData chSalt nRounds nDerivationMethod).1 = false ∧
    (c.SetKeyFromPassphrase env strKeyData chSalt nRounds nDerivationMethod).2.vchKey
      = List.replicate c.vchKey.length 0 ∧
    (c.SetKeyFromPassphrase env strKeyData chSalt nRounds nDerivationMethod).2.vchIV
      = List.replicate c.vchIV.length 0 ∧
    (c.SetKeyFromPassphrase env strKeyData chSalt nRounds nDerivationMethod).2.fKeySet
      = c.fKeySet ∧
    (c.fKeySet = true → c.vchKey.length = WALLET_CRYPTO_KEY_SIZE →
      c.vchIV.length = WALLET_CRYPTO_IV_SIZE → env.CipherSound →
      ∀ P out out1 : Bytes, ∃ C : Bytes,
        (c.SetKeyFromPassphrase env strKeyData chSalt nRounds nDerivationMethod).2.Encrypt
          env P out = (true, C) ∧
        (c.SetKeyFromPassphrase env strKeyData chSalt nRounds nDerivationMethod).2.Decrypt
          env C out1 = (true, P) ∧
        (CCrypter.new.SetKey (List.replicate WALLET_CRYPTO_KEY_SIZE 0)
          (List.replicate WALLET_CRYPTO_IV_SIZE 0)).2.Decrypt env C out1 = (true, P)) ∧
    (∀ (chSalt1 : Bytes) (nRounds1 nDerivationMethod1 : Nat),
      nRounds1 < 1 ∨ chSalt1.length ≠ WALLET_CRYPTO_SALT_SIZE →
      c.SetKeyFromPassphrase env strKeyData chSalt1 nRounds1 nDerivationMethod1
        = (false, c)) := by
  rw [SetKeyFromPassphrase_other_method env c strKeyData chSalt nRounds nDerivationMethod
    hr hs hm]
  refine ⟨rfl, rfl, rfl, rfl, ?_, ?_⟩
  · intro hk hkl hil hsound P out out1
    rw [SetKey_new _ _ (List.length_replicate _ _) (List.length_replicate _ _)]
    simp only [hk, hkl, hil]
    obtain ⟨hctx, hst⟩ := hsound
    obtain ⟨hei, hdi, u, f, hu, hf, hlen, u1, f1, hu1, hf1, hlen1, hP⟩ :=
      hst (List.replicate WALLET_CRYPTO_KEY_SIZE 0) (List.replicate WALLET_CRYPTO_IV_SIZE 0) P
        (List.length_replicate _ _) (List.length_replicate _ _)
    refine ⟨u ++ f, encrypt_of_stages env _ P out u f rfl hctx hei hu hf hlen, ?_, ?_⟩
    · rw [← hP]
      exact decrypt_of_stages env _ (u ++ f) out1 u1 f1 rfl hctx hdi hu1 hf1 hlen1
    · rw [← hP]
      exact decrypt_of_stages env _ (u ++ f) out1 u1 f1 rfl hctx hdi hu1 hf1 hlen1
  · intro chSalt1 nRounds1 nDerivationMethod1 h
    unfold CCrypter.SetKeyFromPassphrase
    rw [if_pos h]

set_option maxRecDepth 20000 in
theorem SetKeyFromPassphrase_unknown_method_witness :
    ((CCrypter.new.SetKey (List.replicate 32 1) (List.replicate 16 2)).2.SetKeyFromPassphrase
      refPrims [1, 2, 3] (List.replicate 8 5) 1000 1).1 = false ∧
    ((CCrypter.new.SetKey (List.replicate 32 1) (List.replicate 16 2)).2.SetKeyFromPassphrase
      refPrims [1, 2, 3] (List.replicate 8 5) 1000 1).2
      = { vchKey := List.replicate 32 0, vchIV := List.replicate 16 0, fKeySet := true } ∧
    (∃ C : Bytes,
      ((CCrypter.new.SetKey (List.replicate 32 1)
        (List.replicate 16 2)).2.SetKeyFromPassphrase
        refPrims [1, 2, 3] (List.replicate 8 5) 1000 1).2.Encrypt refPrims [10, 20, 30] [7]
        = (true, C) ∧
      ((CCrypter.new.SetKey (List.replicate 32 1)
        (List.replicate 16 2)).2.SetKeyFromPassphrase
        refPrims [1, 2, 3] (List.replicate 8 5) 1000 1).2.Decrypt refPrims C [8]
        = (true, [10, 20, 30]) ∧
      (CCrypter.new.SetKey (List.replicate WALLET_CRYPTO_KEY_SIZE 0)
        (List.replicate WALLET_CRYPTO_IV_SIZE 0)).2.Decrypt refPrims C [8]
        = (true, [10, 20, 30])) ∧
    (CCrypter.new.SetKey (List.replicate 32 1) (List.replicate 16 2)).2.SetKeyFromPassphrase
      refPrims [1, 2, 3] (List.replicate 8 5) 0 1
      = (false, (CCrypter.new.SetKey (List.replicate 32 1) (List.replicate 16 2)).2) :=
  ⟨(SetKeyFromPassphrase_unknown_method refPrims
      (CCrypter.new.SetKey (List.replicate 32 1) (List.replicate 16 2)).2
      [1, 2, 3] (List.replicate 8 5) 1000 1 (by decide) (by decide) (by decide)).1,
    by decide,
    (SetKeyFromPassphrase_unknown_method refPrims
      (CCrypter.new.SetKey (List.replicate 32 1) (List.replicate 16 2)).2
      [1, 2, 3] (List.replicate 8 5) 1000 1 (by decide) (by decide) (by decide)).2.2.2.2.1
      (by decide) (by decide) (by decide) refPrims_cipherSound [10, 20, 30] [7] [8],
    (SetKeyFromPassphrase_unknown_method refPrims
      (CCrypter.new.SetKey (List.replicate 32 1) (List.replicate 16 2)).2
      [1, 2, 3] (List.replicate 8 5) 1000 1 (by decide) (by decide) (by decide)).2.2.2.2.2
      (List.replicate 8 5) 0 1 (Or.inl (by decide))⟩

/-! ## `CheckSalt` -/

theorem splitColon_ne_nil (l : List Char) : splitColon l ≠ [] := by
  cases l with
  | nil => simp [splitColon]
  | cons c rest =>
    unfold splitColon
    split_ifs
    · simp
    · split <;> simp

theorem splitColon_of_not_mem (l : List Char) (h : ':' ∉ l) : splitColon l = [l] := by
  induction l with
  | nil => rfl
  | cons c rest ih =>
    rw [List.mem_cons, not_or] at h
    unfold splitColon
    rw [if_neg (fun e => h.1 e.symm), ih h.2]

theorem splitColon_append (a b : List Char) (h : ':' ∉ a) :
    splitColon (a ++ ':' :: b) = a :: splitColon b := by
  induction a with
  | nil =>
    show splitColon (':' :: b) = _
    rw [splitColon, if_pos rfl]
  | cons c rest ih =>
    rw [List.mem_cons, not_or] at h
    show splitColon (c :: (rest ++ ':' :: b)) = _
    rw [splitColon, if_neg (fun e => h.1 e.symm), ih h.2]

theorem joinColon_cons (p : List Char) (ps : List (List Char)) (h : ps ≠ []) :
    joinColon (p :: ps) = p ++ ':' :: joinColon ps := by
  cases ps with
  | nil => exact absurd rfl h
  | cons q qs => rfl

theorem joinColon_cons_head (c : Char) (p : List Char) (ps : List (List Char)) :
    joinColon ((c :: p) :: ps) = c :: joinColon (p :: ps) := by
  cases ps with
  | nil => rfl
  | cons q qs => rfl

theorem joinColon_splitColon (l : List Char) : joinColon (splitColon l) = l := by
  induction l with
  | nil => rfl
  | cons c rest ih =>
    unfold splitColon
    split_ifs with hc
    · rw [joinColon_cons _ _ (splitColon_ne_nil rest), ih, hc]
      rfl
    · cases hsp : splitColon rest with
      | nil => exact absurd hsp (splitColon_ne_nil rest)
      | cons p ps =>
        rw [hsp] at ih
        show joinColon ((c :: p) :: ps) = _
        rw [joinColon_cons_head, ih]

theorem splitColon_pieces (l : List Char) : ∀ p ∈ splitColon l, ':' ∉ p := by
  induction l with
  | nil =>
    intro p hp
    simp [splitColon] at hp
    simp [hp]
  | cons c rest ih =>
    intro p hp
    unfold splitColon at hp
    split_ifs at hp with hc
    · rcases List.mem_cons.1 hp with h | h
      · simp [h]
      · exact ih p h
    · cases hsp : splitColon rest with
      | nil => exact absurd hsp (splitColon_ne_nil rest)
      | cons q qs =>
        rw [hsp] at hp ih
        rcases List.mem_cons.1 hp with h | h
        · rw [h, List.mem_cons, not_or]
          exact ⟨fun e => hc e.symm, ih q (List.mem_cons_self _ _)⟩
        · exact ih p (List.mem_cons_of_mem _ h)

theorem splitColon_two (l a b : List Char) (h : splitColon l = [a, b]) :
    l = a ++ ':' :: b ∧ ':' ∉ a ∧ ':' ∉ b := by
  refine ⟨?_, ?_, ?_⟩
  · rw [← joinColon_splitColon l, h]
    rfl
  · exact splitColon_pieces l a (by rw [h]; simp)
  · exact splitColon_pieces l b (by rw [h]; simp)

/-- C29. For every height and every salt made of a type part and a slot part around a
single delimiter, when the slot part parses as an unsigned 32-bit integer `CheckSalt`
returns `false` with the message that the slot number could not be parsed; a salt that
does not split into exactly two pieces is rejected with the missing-delimiter message; and
whenever `CheckSalt` returns `true` the salt is a type part and a slot part around a single
delimiter, and the slot part does not parse. -/
theorem CheckSalt_rejects_well_formed (ParseUInt32 : List Char → Option Nat)
    (nSlotsInit nHeight : Nat) (msg : List SaltMessage) :
    (∀ (ty num : List Char) (n : Nat), ':' ∉ ty → ':' ∉ num → ParseUInt32 num = some n →
      CheckSalt ParseUInt32 nSlotsInit (ty ++ ':' :: num) nHeight msg
        = (false, [SaltMessage.slotNotParsed (ty ++ ':' :: num)])) ∧
    (∀ strSalt : List Char, (splitColon strSalt).length ≠ 2 →
      CheckSalt ParseUInt32 nSlotsInit strSalt nHeight msg
        = (false, [SaltMessage.noDelimiter strSalt])) ∧
    (∀ strSalt : List Char,
      (CheckSalt ParseUInt32 nSlotsInit strSalt nHeight msg).1 = true →
      ∃ ty num : List Char, strSalt = ty ++ ':' :: num ∧ ':' ∉ ty ∧ ':' ∉ num ∧
        ParseUInt32 num = none) := by
  refine ⟨?_, ?_, ?_⟩
  · intro ty num n hty hnum hp
    unfold CheckSalt
    simp only [splitColon_append ty num hty, splitColon_of_not_mem num hnum]
    simp [hp]
  · intro strSalt h
    unfold CheckSalt
    simp only [if_pos h]
  · intro strSalt h
    unfold CheckSalt at h
    by_cases hl : (splitColon strSalt).length = 2
    · obtain ⟨a, b, hab⟩ := List.length_eq_two.1 hl
      obtain ⟨h1, h2, h3⟩ := splitColon_two strSalt a b hab
      refine ⟨a, b, h1, h2, h3, ?_⟩
      simp only [hab] at h
      cases hp : ParseUInt32 b with
      | none => rfl
      | some n => simp [hp] at h
    · simp [hl] at h

set_option maxRecDepth 20000 in
theorem CheckSalt_rejects_well_formed_witness :
    CheckSalt refParseUInt32 99 ("info".toList ++ ':' :: "5".toList) 0 []
      = (false, [SaltMessage.slotNotParsed ("info".toList ++ ':' :: "5".toList)]) ∧
    CheckSalt refParseUInt32 99 "info".toList 0 []
      = (false, [SaltMessage.noDelimiter "info".toList]) ∧
    (CheckSalt refParseUInt32 99 "info:x".toList 0 []).1 = true ∧
    ∃ ty num : List Char, "info:x".toList = ty ++ ':' :: num ∧ ':' ∉ ty ∧ ':' ∉ num ∧
      refParseUInt32 num = none :=
  ⟨(CheckSalt_rejects_well_formed refParseUInt32 99 0 []).1 "info".toList "5".toList 5
      (by decide) (by decide) (by decide),
    (CheckSalt_rejects_well_formed refParseUInt32 99 0 []).2.1 "info".toList (by decide),
    by decide,
    (CheckSalt_rejects_well_formed refParseUInt32 99 0 []).2.2 "info:x".toList (by decide)⟩

end Crypter
